import Mathlib

/-!
# Verification of the pitchtools notename grammar and enharmonic engine

This file is a shallow embedding of `pitchtools.py` (the notename
parser/formatter, the `NotatedPitch` model, the enharmonic engine, the
spelling-aware transposition and the enharmonic-variation search).

Modelling conventions:
* Python strings are `List Char` (abbreviated `Str`).
* Python floats are modelled exactly: every pitch value handled by the
  claims lives on the cent grid, so a midinote `m` is represented by the
  integer `round(m*100)` (cents).  Arithmetic that Python performs on
  floats is performed exactly on these integers; `int()` truncation,
  `%` and banker's `round()` are modelled by the explicit helpers below.
  The one place where binary64 rounding is visible on the cent grid —
  `int(chromatic_alteration * 100)`, whose float round trip loses a cent
  at some values — is modelled bit-exactly by `pyT`.
* Python exceptions are values of `PyErr`, and fallible functions return
  `Except PyErr _`.
* `re.search` with the two notename regexes `_r1`/`_r2` is modelled by a
  positional scan that reproduces the patterns (including the fact that a
  match may start after the beginning of the string and may leave trailing
  characters unconsumed).
-/

set_option maxRecDepth 8000

namespace Pitchtools

abbrev Str : Type := List Char

/-- Python exception kinds raised by the modelled code. -/
inductive PyErr where
  | valueError
  | typeError
  | keyError
  | indexError
  | nameError
  deriving DecidableEq, Repr

/-! ## Integer helpers matching Python numeric semantics -/

/-- Truncating (toward-zero) division, Python `int(a / b)` for `b > 0`. -/
def tdivZ (a b : ℤ) : ℤ :=
  if 0 ≤ a then a / b else -((-a) / b)

/-- Python `int(x + 0.5)` for an integer-valued `x` (used by
`midi_to_note_parts` for the cents computation). -/
def intHalfUp (x : ℤ) : ℤ :=
  if 0 ≤ x then x else x + 1

/-- Python `round(a / b)` for `b > 0` on an exact rational `a / b`:
round half to even (banker's rounding). -/
def pyRound (a b : ℤ) : ℤ :=
  let q := a / b
  let r := a % b
  if 2 * r < b then q
  else if b < 2 * r then q + 1
  else if q % 2 = 0 then q else q + 1


/-! ## The binary64 rounding of small cent values

`cents_deviation` is `int(self.chromatic_alteration * 100)` in the source,
where `chromatic_alteration` holds the IEEE-754 double `cents/100`.  The
division and the multiplication each round to the nearest double (ties to
even) and `int()` truncates toward zero, so the round trip is not the
identity on integers: `int((57/100)*100) == 56`.  The helpers below
reproduce binary64 rounding exactly, in integer arithmetic, for the
magnitudes this program produces (`2^-61` to `2^60`). -/

/-- The binary exponent of the double `c/100` for `c ≥ 1`: the largest
`e` with `-61 ≤ e ≤ 60` and `2^e ≤ c/100` (the comparison is done as
`100 * 2^k ≤ c * 2^61` with `e = k - 61`; `2305843009213693952 = 2^61`). -/
def exp2floorDiv100 (c : ℤ) : ℤ :=
  ((List.range 122).foldl
    (fun (st : ℤ × ℤ) k =>
      (if 100 * st.2 ≤ c * 2305843009213693952 then (k : ℤ) - 61 else st.1, st.2 * 2))
    (-62, 1)).1

/-- `c/100` (for `c ≥ 1`) rounded to the nearest binary64 value, as a
pair `(m, e)` of significand and exponent with value `m * 2^(e-52)` and
`2^52 ≤ m ≤ 2^53`: the 53-bit significand is the banker's rounding of
`c/100` scaled into `[2^52, 2^53)`. -/
def dbl_div100 (c : ℤ) : ℤ × ℤ :=
  let e := exp2floorDiv100 c
  let m := if 0 ≤ 52 - e then pyRound (c * 2 ^ (52 - e).toNat) 100
           else pyRound c (100 * 2 ^ (e - 52).toNat)
  (m, e)

/-- `int((c/100) * 100)` computed in binary64, as the source's
`cents_deviation` and the `accidental_name` argument do.  The product
`(c/100) * 100 = 100 * m1 * 2^(e1-52)` has binary exponent `e1+6` or
`e1+7` (because `2^6 < 100 < 2^7`), is rounded again to 53 bits, and is
then truncated toward zero; both roundings and the truncation commute
with the sign, so the sign is split off first. -/
def pyT (c : ℤ) : ℤ :=
  if c = 0 then 0
  else
    let s : ℤ := if c < 0 then -1 else 1
    let md := dbl_div100 (c.natAbs : ℤ)
    let m1 := md.1
    let e1 := md.2
    let e2 := if 2 ^ 59 ≤ 100 * m1 then e1 + 7 else e1 + 6
    let m2 := pyRound (100 * m1) (2 ^ (e2 - e1).toNat)
    let t := if 0 ≤ 52 - e2 then m2 / 2 ^ (52 - e2).toNat else m2 * 2 ^ (e2 - 52).toNat
    s * t

/-! ## Decimal digit strings -/

def digitChar (n : ℕ) : Char := Char.ofNat (48 + n)

def charToDigit (c : Char) : ℕ := c.toNat - 48

/-- Decimal digit list of a natural number (most significant first).
Fuel-based so that it reduces definitionally. -/
def natDigitsAux : ℕ → ℕ → List ℕ
  | 0, _ => []
  | fuel + 1, n => if n < 10 then [n] else natDigitsAux fuel (n / 10) ++ [n % 10]

def natDigits (n : ℕ) : List ℕ := natDigitsAux (n + 1) n

/-- Python `str(n)` for a natural number. -/
def natToStr (n : ℕ) : Str := (natDigits n).map digitChar

/-- Python `str(i)` for an integer. -/
def intToStr (i : ℤ) : Str :=
  if i < 0 then '-' :: natToStr i.natAbs else natToStr i.toNat

/-- Numeric value of a digit string (no sign). -/
def digitsVal (s : Str) : ℕ := s.foldl (fun a c => 10 * a + charToDigit c) 0

/-- Python `int(s)` on a string: optional sign followed by at least one
digit, nothing else; otherwise `none` (a `ValueError`). -/
def strToInt? (s : Str) : Option ℤ :=
  match s with
  | [] => none
  | c :: rest =>
      if c = '-' then
        if rest ≠ [] ∧ rest.all Char.isDigit then some (-(digitsVal rest : ℤ)) else none
      else if c = '+' then
        if rest ≠ [] ∧ rest.all Char.isDigit then some (digitsVal rest : ℤ) else none
      else if (c :: rest).all Char.isDigit then some (digitsVal (c :: rest) : ℤ) else none

/-! ## Static tables from the source -/

/-- `_flats` table. -/
def flatsTable : List Str :=
  [['C'], ['D','b'], ['D'], ['E','b'], ['E'], ['F'], ['G','b'], ['G'],
   ['A','b'], ['A'], ['B','b'], ['B'], ['C']]

/-- `_sharps` table. -/
def sharpsTable : List Str :=
  [['C'], ['C','#'], ['D'], ['D','#'], ['E'], ['F'], ['F','#'], ['G'],
   ['G','#'], ['A'], ['A','#'], ['B'], ['C']]

/-- List indexing with Python semantics for the (small) negative indexes
used by the source (`l[-1]` is the last element). -/
def pyGet (l : List Str) (i : ℤ) : Str :=
  if i < 0 then l.getD (l.length - i.natAbs) [] else l.getD i.toNat []

/-- `_pitchclass_chromatic` table. -/
def pitchclassChromatic (s : Str) : Option ℤ :=
  match s with
  | ['C'] => some 0
  | ['C','#'] => some 1
  | ['D','b'] => some 1
  | ['D'] => some 2
  | ['D','#'] => some 3
  | ['E','b'] => some 3
  | ['E'] => some 4
  | ['E','#'] => some 5
  | ['F','b'] => some 4
  | ['F'] => some 5
  | ['F','#'] => some 6
  | ['G','b'] => some 6
  | ['G'] => some 7
  | ['G','#'] => some 8
  | ['A','b'] => some 8
  | ['A'] => some 9
  | ['A','#'] => some 10
  | ['B','b'] => some 10
  | ['B'] => some 11
  | ['B','#'] => some 0
  | ['C','b'] => some 11
  | _ => none

/-- `_notes2` table: diatonic letter (lower case) to pitch class. -/
def notes2 (c : Char) : Option ℤ :=
  match c with
  | 'c' => some 0
  | 'd' => some 2
  | 'e' => some 4
  | 'f' => some 5
  | 'g' => some 7
  | 'a' => some 9
  | 'b' => some 11
  | _ => none

/-- `_centsrepr` table: alteration string to cents. -/
def centsreprTable (s : Str) : Option ℤ :=
  if s = ['#','+'] then some 150
  else if s = ['#','>'] then some 125
  else if s = ['#'] then some 100
  else if s = ['#','<'] then some 75
  else if s = ['+'] then some 50
  else if s = ['>'] then some 25
  else if s = [] then some 0
  else if s = ['<'] then some (-25)
  else if s = ['-'] then some (-50)
  else if s = ['b','>'] then some (-75)
  else if s = ['b'] then some (-100)
  else if s = ['b','<'] then some (-125)
  else if s = ['b','-'] then some (-150)
  else none

/-- `_centsToAccidentalName` table. -/
def centsToAccidentalName (c : ℤ) : Option Str :=
  if c = 0 then some ("natural".toList)
  else if c = 25 then some ("natural-up".toList)
  else if c = 50 then some ("quarter-sharp".toList)
  else if c = 75 then some ("sharp-down".toList)
  else if c = 100 then some ("sharp".toList)
  else if c = 125 then some ("sharp-up".toList)
  else if c = 150 then some ("three-quarters-sharp".toList)
  else if c = -25 then some ("natural-down".toList)
  else if c = -50 then some ("quarter-flat".toList)
  else if c = -75 then some ("flat-up".toList)
  else if c = -100 then some ("flat".toList)
  else if c = -125 then some ("flat-down".toList)
  else if c = -150 then some ("three-quarters-flat".toList)
  else none

/-! ## The notename parser (`n2m`)

The two regexes are

    _r1 = (?P<pch>[A-Ha-h][b|#]?)(?P<oct>[-]?[\d]+)(?P<micro>[-+><↓↑][\d]*)?
    _r2 = (?P<oct>[-]?\d+)(?P<pch>[A-Ha-h][b|#]?)(?P<micro>[-+><↓↑]\d*)?

used with `re.search`, which tries successive start positions and does not
anchor the end of the match. -/

/-- Character class `[A-Ha-h]`. -/
def isPchChar (c : Char) : Bool :=
  ('A' ≤ c && c ≤ 'H') || ('a' ≤ c && c ≤ 'h')

/-- Character class `[b|#]` (the `|` really is part of the class in the
source pattern). -/
def isAltChar (c : Char) : Bool :=
  c = 'b' || c = '|' || c = '#'

/-- Character class `[-+><↓↑]` opening the microtone group. -/
def isMicroChar (c : Char) : Bool :=
  c = '-' || c = '+' || c = '>' || c = '<' || c = '↓' || c = '↑'

/-- Scan the `oct` group `[-]?\d+` at the head of the string.  Returns the
matched text and the remainder. -/
def scanOct (s : Str) : Option (Str × Str) :=
  match s with
  | [] => none
  | c :: rest =>
      if c = '-' then
        let ds := rest.takeWhile Char.isDigit
        if ds = [] then none else some ('-' :: ds, rest.dropWhile Char.isDigit)
      else
        let ds := (c :: rest).takeWhile Char.isDigit
        if ds = [] then none else some (ds, (c :: rest).dropWhile Char.isDigit)

/-- Scan the optional `micro` group `[-+><↓↑]\d*` at the head. -/
def scanMicro (s : Str) : Option Str :=
  match s with
  | c :: rest => if isMicroChar c then some (c :: rest.takeWhile Char.isDigit) else none
  | [] => none

/-- Groups of a successful match: (`pch`, `oct`, `micro`). -/
abbrev ReGroups : Type := Str × Str × Option Str

/-- Match `_r1` at the current position (letter first). -/
def matchR1At (s : Str) : Option ReGroups :=
  match s with
  | c :: rest =>
      if isPchChar c then
        match rest with
        | a :: rest2 =>
            if isAltChar a then
              match scanOct rest2 with
              | some (o, r3) => some ([c, a], o, scanMicro r3)
              | none =>
                  -- backtrack: single-character pch, oct must start at the
                  -- alteration character (never a digit, so this fails too,
                  -- but we keep the regex shape)
                  match scanOct rest with
                  | some (o, r3) => some ([c], o, scanMicro r3)
                  | none => none
            else
              match scanOct rest with
              | some (o, r3) => some ([c], o, scanMicro r3)
              | none => none
        | [] => none
      else none
  | [] => none

/-- Match `_r2` at the current position (octave first).  The groups are
returned in the same (`pch`, `oct`, `micro`) order as `matchR1At`. -/
def matchR2At (s : Str) : Option ReGroups :=
  match scanOct s with
  | none => none
  | some (o, r1) =>
      match r1 with
      | c :: rest =>
          if isPchChar c then
            match rest with
            | a :: rest2 =>
                if isAltChar a then some ([c, a], o, scanMicro rest2)
                else some ([c], o, scanMicro rest)
            | [] => some ([c], o, none)
          else none
      | [] => none

/-- `re.search`: try every start position from the left. -/
def reSearch (mAt : Str → Option ReGroups) : Str → Option ReGroups
  | [] => mAt []
  | s@(_ :: rest) =>
      match mAt s with
      | some g => some g
      | none => reSearch mAt rest

/-- Value of an `oct` group (always parses: optional minus, then digits). -/
def octVal (s : Str) : ℤ :=
  match s with
  | [] => 0
  | c :: rest => if c = '-' then -(digitsVal rest : ℤ) else (digitsVal (c :: rest) : ℤ)

/-- Resolve the `micro` group into cents (`n2m` body).  A symbol group is
one of `+ - > < ↑ ↓`; otherwise Python runs `int(microstr)` and a failure
is a `ValueError`. -/
def microCents (g : Option Str) : Except PyErr ℤ :=
  match g with
  | none => .ok 0
  | some s =>
      if s = ['+'] then .ok 50
      else if s = ['-'] then .ok (-50)
      else if s = ['>'] ∨ s = ['↑'] then .ok 25
      else if s = ['<'] ∨ s = ['↓'] then .ok (-25)
      else
        match strToInt? s with
        | some v => .ok v
        | none => .error .valueError

/-- `n2m(note)`, returning the midinote in cents.
Raises `IndexError` on the empty string (Python evaluates `note[0]`),
`ValueError` when no regex matches, when the alteration character is `|`,
or when the microtone suffix is not parseable, and `KeyError` for the
letter `H`/`h` (accepted by the regex but absent from `_notes2`). -/
def n2m (note : Str) : Except PyErr ℤ :=
  match note with
  | [] => .error .indexError
  | c0 :: _ =>
    let g? := if c0.isAlpha then reSearch matchR1At note else reSearch matchR2At note
    match g? with
    | none => .error .valueError
    | some (pch, octStr, micro) =>
        match pch with
        | [] => .error .valueError
        | p0 :: ptail =>
          match notes2 p0.toLower with
          | none => .error .keyError
          | some pc0 =>
            let adj : Except PyErr ℤ :=
              match ptail with
              | [] => .ok 0
              | a :: _ =>
                  if a = '#' then .ok 1
                  else if a = 'b' then .ok (-1)
                  else .error .valueError
            match adj with
            | .error e => .error e
            | .ok d =>
              match microCents micro with
              | .error e => .error e
              | .ok mc =>
                let pc := pc0 + d
                let octave := octVal octStr
                let (pc, octave) :=
                  if pc > 11 then (0, octave + 1)
                  else if pc < 0 then (12 + pc, octave - 1)
                  else (pc, octave)
                .ok ((octave + 1) * 1200 + pc * 100 + mc)

/-- Inputs to functions that accept either a string or a number
(`is_valid_notename` via `n2m`'s type check). -/
inductive PyVal where
  | str (s : Str)
  | num (centsValue : ℤ)
  deriving DecidableEq, Repr

/-- `n2m` applied to an arbitrary Python value: non-string input raises
`TypeError` before any parsing. -/
def n2mVal (x : PyVal) : Except PyErr ℤ :=
  match x with
  | .str s => n2m s
  | .num _ => .error .typeError

/-- `is_valid_notename(notename, minpitch=12)`.  Only `ValueError` is
caught and turned into `False`; any other exception propagates.
`minpitch` is in cents here (default 1200 = midinote 12). -/
def is_valid_notename (x : PyVal) (minpitch : ℤ := 1200) : Except PyErr Bool :=
  match n2mVal x with
  | .ok midi => .ok (decide (minpitch ≤ midi))
  | .error .valueError => .ok false
  | .error e => .error e

/-! ## The formatter (`PitchConverter.midi_to_note_parts` and `m2n`) -/

/-- `midi_to_note_parts(midinote)` on the cent grid.  `i = int(midinote)`,
`micro = midinote - i`, `octave = int(midinote/12)-1`,
`ps = int(midinote % 12)`, `cents = int(micro*100 + 0.5)` are reproduced
exactly by the integer helpers. -/
def midi_to_note_parts (eighthnote_symbol : Bool) (mc : ℤ) : ℤ × Str × Str × ℤ :=
  let i := tdivZ mc 100
  let micro100 := mc - 100 * i
  let octave := tdivZ mc 1200 - 1
  let ps := mc % 1200 / 100
  let cents := intHalfUp micro100
  if cents = 0 then (octave, pyGet sharpsTable ps, [], 0)
  else if cents = 50 then
    if ps = 1 ∨ ps = 3 ∨ ps = 6 ∨ ps = 8 ∨ ps = 10 then
      (octave, pyGet sharpsTable (ps + 1), ['-'], 0)
    else (octave, pyGet sharpsTable ps, ['+'], 0)
  else if cents = 25 ∧ eighthnote_symbol then
    if ps = 6 ∨ ps = 10 then (octave, pyGet flatsTable ps, ['>'], 0)
    else (octave, pyGet sharpsTable ps, ['>'], 0)
  else if cents = 75 ∧ eighthnote_symbol then
    let ps := ps + 1
    let octave := if ps > 11 then octave + 1 else octave
    if ps = 1 ∨ ps = 3 ∨ ps = 6 ∨ ps = 8 ∨ ps = 10 then
      (octave, pyGet flatsTable ps, ['<'], 0)
    else (octave, pyGet sharpsTable ps, ['<'], 0)
  else if cents > 50 then
    let cents := 100 - cents
    let ps := ps + 1
    let octave := if ps > 11 then octave + 1 else octave
    (octave, pyGet flatsTable ps, [], -cents)
  else (octave, pyGet sharpsTable ps, [], cents)

/-- `PitchConverter.m2n` with the default converter (eighth-tone symbols
enabled).  Cents are zero-padded to two digits when `|cents| < 10`. -/
def m2n (mc : ℤ) : Str :=
  let parts := midi_to_note_parts true mc
  let octave := parts.1
  let name := parts.2.1
  let alter := parts.2.2.1
  let cents := parts.2.2.2
  if cents = 0 then intToStr octave ++ name ++ alter
  else if cents > 0 then
    if cents < 10 then intToStr octave ++ name ++ alter ++ ['+', '0'] ++ natToStr cents.toNat
    else intToStr octave ++ name ++ alter ++ '+' :: natToStr cents.toNat
  else
    if -10 < cents then intToStr octave ++ name ++ alter ++ ['-', '0'] ++ natToStr cents.natAbs
    else intToStr octave ++ name ++ alter ++ intToStr cents

/-- `normalize_notename`: format the parsed midinote. -/
def normalize_notename (notename : Str) : Except PyErr Str :=
  match n2m notename with
  | .ok mc => .ok (m2n mc)
  | .error e => .error e

/-! ## `split_notename` and `NoteParts` -/

/-- `NoteParts` (the diatonic name is a single character in every value the
source produces, so it is modelled as a `Char`). -/
structure NoteParts where
  octave : ℤ
  diatonic_name : Char
  alteration : Str
  cents_deviation : ℤ
  deriving DecidableEq, Repr

/-- `_parse_centstr`. -/
def parse_centstr (centstr : Str) : Option ℤ :=
  if centstr = [] then some 0
  else
    match centsreprTable centstr with
    | some c => some c
    | none => strToInt? centstr

/-- `split_notename(notename, default_octave=-1)`.  Reads exactly one
octave character in both token orders; raises `IndexError` where Python
would index past the end of the string and `ValueError` when the cents
suffix cannot be resolved. -/
def split_notename (notename : Str) (default_octave : ℤ := -1) : Except PyErr NoteParts :=
  match notename with
  | [] => .error .indexError
  | c0 :: rest0 =>
    if c0.isDigit then
      -- octave first, e.g. 4C#-10
      match rest0 with
      | [] => .error .indexError
      | letter :: rest =>
        match rest with
        | [] => .ok ⟨(charToDigit c0 : ℤ), letter.toUpper, [], 0⟩
        | r0 :: rtail =>
          let ac : Str × Str :=
            if r0 = 'b' then (['b'], rtail)
            else if r0 = '#' then (['#'], rtail)
            else ([], r0 :: rtail)
          match parse_centstr ac.2 with
          | some cents => .ok ⟨(charToDigit c0 : ℤ), letter.toUpper, ac.1, cents⟩
          | none => .error .valueError
    else
      -- letter first, e.g. C#4-10
      match rest0 with
      | [] => .error .indexError
      | l1 :: rest1 =>
        let st : Str × Str :=
          if l1 = '#' then (['#'], rest1)
          else if l1 = 'b' then (['b'], rest1)
          else ([], l1 :: rest1)
        match st.2 with
        | [] => .error .indexError
        | octchar :: after2 =>
          let oc : ℤ × Str :=
            if octchar.isDigit then ((charToDigit octchar : ℤ), after2)
            else (default_octave, octchar :: after2)
          match parse_centstr oc.2 with
          | some cents => .ok ⟨oc.1, c0.toUpper, st.1, cents⟩
          | none => .error .valueError

/-! ## `NotatedPitch` -/

/-- `alteration_to_cents`. -/
def alteration_to_cents (alteration : Str) : Except PyErr ℤ :=
  match centsreprTable alteration with
  | some c => .ok c
  | none => .error .valueError

/-- `accidental_name(alteration_cents, semitone_divisions=4)`.  The
`assert semitone_divisions in (1,2,4)` is an `AssertionError`, modelled as
a `ValueError`-like failure; a quantized value outside the table is a
`KeyError`. -/
def accidental_name (alteration_cents : ℤ) (semitone_divisions : ℤ := 4) : Except PyErr Str :=
  if semitone_divisions = 1 ∨ semitone_divisions = 2 ∨ semitone_divisions = 4 then
    let res := 100 / semitone_divisions
    match centsToAccidentalName (pyRound alteration_cents res * res) with
    | some s => .ok s
    | none => .error .keyError
  else .error .valueError

/-- First index of a letter in `'CDEFGABC'` (`str.index`). -/
def diatonicIndexOf (c : Char) : Option ℤ :=
  match c with
  | 'C' => some 0
  | 'D' => some 1
  | 'E' => some 2
  | 'F' => some 3
  | 'G' => some 4
  | 'A' => some 5
  | 'B' => some 6
  | _ => none

/-- `NotatedPitch`.  The two float fields `diatonic_alteration` and
`chromatic_alteration` are stored multiplied by 100 (i.e. in cents),
which is exact for every value the source produces. -/
structure NotatedPitch where
  octave : ℤ
  diatonic_index : ℤ
  diatonic_name : Char
  chromatic_index : ℤ
  chromatic_name : Str
  diatonic_alteration_cents : ℤ
  chromatic_alteration_cents : ℤ
  accidental_name : Str
  deriving DecidableEq, Repr

/-- `NotatedPitch.midinote` in cents:
`(octave+1)*12 + chromatic_index + chromatic_alteration`. -/
def NotatedPitch.midinote (p : NotatedPitch) : ℤ :=
  (p.octave + 1) * 1200 + p.chromatic_index * 100 + p.chromatic_alteration_cents

/-- `NotatedPitch.cents_deviation = int(chromatic_alteration * 100)`:
the stored cents value after the binary64 round trip. -/
def NotatedPitch.cents_deviation (p : NotatedPitch) : ℤ :=
  pyT p.chromatic_alteration_cents

/-- `NotatedPitch.microtone_index(semitone_divisions=2)`:
`round(midinote * k) / k  % 12 * k` as an integer. -/
def NotatedPitch.microtone_index (p : NotatedPitch) (semitone_divisions : ℤ := 2) : ℤ :=
  let quant := pyRound (p.midinote * semitone_divisions) 100 * (100 / semitone_divisions)
  quant % 1200 * semitone_divisions / 100

/-- `NotatedPitch.cents_str`. -/
def NotatedPitch.cents_str (p : NotatedPitch) : Str :=
  let c := p.cents_deviation
  if c = 0 then []
  else if c = 50 then ['+']
  else if c = -50 then ['-']
  else if c > 0 then '+' :: natToStr c.toNat
  else intToStr c

/-- `NotatedPitch.alteration_direction(min_alteration=0.5)`. -/
def NotatedPitch.alteration_direction (p : NotatedPitch) : ℤ :=
  if 50 ≤ p.diatonic_alteration_cents then 1
  else if p.diatonic_alteration_cents ≤ -50 then -1
  else 0

/-- `.is_black_key`. -/
def NotatedPitch.is_black_key (p : NotatedPitch) : Bool :=
  p.chromatic_index = 1 ∨ p.chromatic_index = 3 ∨ p.chromatic_index = 6 ∨
  p.chromatic_index = 8 ∨ p.chromatic_index = 10

/-- `_notated_pitch_notename`. -/
def notated_pitch_notename (notename : Str) : Except PyErr NotatedPitch :=
  match split_notename notename with
  | .error e => .error e
  | .ok parts =>
    match diatonicIndexOf parts.diatonic_name with
    | none => .error .valueError
    | some di =>
      let chromatic_note := parts.diatonic_name :: parts.alteration
      let cents := parts.cents_deviation
      match alteration_to_cents parts.alteration with
      | .error e => .error e
      | .ok altc =>
        let dac := altc + cents
        match pitchclassChromatic chromatic_note with
        | none => .error .keyError
        | some ci =>
          match accidental_name (pyT dac) 4 with
          | .error e => .error e
          | .ok acc =>
            .ok ⟨parts.octave, di, parts.diatonic_name, ci, chromatic_note, dac, cents, acc⟩

/-- `notated_pitch(pitch, semitone_divisions=4)`.  For a numeric pitch the
source calls the undefined name `_roundred` (the helper that exists is
called `_roundres`), so Python raises `NameError` before anything else
happens. -/
def notated_pitch (pitch : PyVal) (semitone_divisions : ℤ := 4) : Except PyErr NotatedPitch :=
  match pitch with
  | .num _ => .error .nameError
  | .str s => notated_pitch_notename s

/-! ## `cents_repr` and the enharmonic engine -/

/-- `cents_repr(cents, eighthToneShortcuts=True)`.  Note the Python
truthiness test `if shortcut:`: the empty-string shortcut for 0 cents is
falsy, so `cents_repr(0)` falls through to `str(0) = "0"`. -/
def cents_repr (cents : ℤ) (eighthToneShortcuts : Bool := true) : Str :=
  let shortcut : Option Str :=
    if eighthToneShortcuts then
      if cents = 0 then some []
      else if cents = 25 then some ['>']
      else if cents = 50 then some ['+']
      else if cents = -25 then some ['<']
      else if cents = -50 then some ['-']
      else none
    else
      if cents = 0 then some []
      else if cents = 50 then some ['+']
      else if cents = -50 then some ['-']
      else none
  match shortcut with
  | some s =>
      if s ≠ [] then s
      else if cents > 0 then '+' :: natToStr cents.toNat else intToStr cents
  | none => if cents > 0 then '+' :: natToStr cents.toNat else intToStr cents

/-- The body of `enharmonic` once the `NotatedPitch` has been computed
(split out so that theorems can rewrite with a known pitch). -/
def enhBody (notename : Str) (p : NotatedPitch) : Except PyErr Str :=
  if |p.diatonic_alteration_cents| < 100 then
    if |p.cents_deviation| < 50 then .ok notename
    else if 50 ≤ p.cents_deviation then
      let chrom := pyGet flatsTable (p.chromatic_index + 1)
      let octave := if p.chromatic_name ≠ ['B'] then p.octave else p.octave + 1
      .ok (intToStr octave ++ chrom ++ cents_repr (p.cents_deviation - 100))
    else
      let chrom := pyGet sharpsTable ((p.chromatic_index - 1) % 12)
      let octave := if p.chromatic_name ≠ ['C'] then p.octave else p.octave - 1
      .ok (intToStr octave ++ chrom ++ cents_repr (100 + p.cents_deviation))
  else if 100 ≤ p.diatonic_alteration_cents then
    if |p.cents_deviation| < 50 then
      .ok (intToStr p.octave ++ pyGet flatsTable p.chromatic_index ++ p.cents_str)
    else if 50 ≤ p.cents_deviation ∧ p.cents_deviation < 100 then
      .ok (intToStr p.octave ++ pyGet flatsTable (p.chromatic_index + 1) ++
           cents_repr (p.cents_deviation - 100))
    else if -100 < p.cents_deviation ∧ p.cents_deviation < 50 then
      .ok (intToStr p.octave ++ pyGet flatsTable ((p.chromatic_index - 1) % 12) ++
           cents_repr (100 + p.cents_deviation))
    else .error .valueError
  else
    if |p.cents_deviation| < 50 then
      .ok (intToStr p.octave ++ pyGet sharpsTable p.chromatic_index ++ p.cents_str)
    else if 50 ≤ p.cents_deviation ∧ p.cents_deviation < 100 then
      .ok (intToStr p.octave ++ pyGet sharpsTable (p.chromatic_index - 1) ++
           cents_repr (p.cents_deviation - 100))
    else if -100 < p.cents_deviation then
      .ok (intToStr p.octave ++ pyGet sharpsTable (p.chromatic_index - 1) ++
           cents_repr (100 + p.cents_deviation))
    else .error .valueError

/-- `enharmonic(notename)`. -/
def enharmonic (notename : Str) : Except PyErr Str :=
  match notated_pitch (.str notename) with
  | .error e => .error e
  | .ok p => enhBody notename p

/-! ## Spelling-aware transposition -/

/-- The cents part of `construct_notename`. -/
def constructCentsStr (cents : ℤ) : Str :=
  if cents = 50 then ['+']
  else if cents = -50 then ['-']
  else if cents > 0 then '+' :: natToStr cents.toNat
  else if cents < 0 then intToStr cents
  else []

/-- `construct_notename(octave, letter, alter, cents)` (with `alter`
already a string; the integer-0 case of the source renders as `""`). -/
def construct_notename (octave : ℤ) (letter : Char) (alter : Str) (cents : ℤ) : Str :=
  intToStr octave ++ [letter.toUpper] ++ alter ++ constructCentsStr cents

/-- `_chromatic_transpositions` (one 13-entry row per usable root). -/
def chromatic_transpositions (s : Str) : Option (List Str) :=
  let strs : List String → List Str := fun l => l.map String.toList
  match s with
  | ['C'] => some (strs ["C", "Db", "D", "Eb", "E", "F", "F#", "G", "Ab", "A", "Bb", "B", "C"])
  | ['C','#'] => some (strs ["C#", "D", "D#", "E", "E#", "F#", "G", "G#", "A", "A#", "B", "C", "C#"])
  | ['D','b'] => some (strs ["Db", "D", "Eb", "E", "F", "Gb", "G", "Ab", "A", "Bb", "B", "C", "Db"])
  | ['D'] => some (strs ["D", "Eb", "E", "F", "F#", "G", "G#", "A", "Bb", "B", "C", "C#", "D"])
  | ['D','#'] => some (strs ["D#", "E", "F", "F#", "G", "G#", "A", "A#", "B", "C", "C#", "D", "D#"])
  | ['E','b'] => some (strs ["Eb", "E", "F", "Gb", "G", "Ab", "A", "Bb", "B", "C", "Db", "D", "Eb"])
  | ['E'] => some (strs ["E", "F", "F#", "G", "G#", "A", "Bb", "B", "C", "C#", "D", "D#", "E"])
  | ['F'] => some (strs ["F", "F#", "G", "Ab", "A", "Bb", "B", "C", "Db", "D", "Eb", "E", "F"])
  | ['F','#'] => some (strs ["F#", "G", "G#", "A", "A#", "B", "C", "C#", "D", "D#", "E", "F", "F#"])
  | ['G','b'] => some (strs ["Gb", "G", "Ab", "A", "Bb", "B", "C", "Db", "D", "Eb", "E", "F", "Gb"])
  | ['G'] => some (strs ["G", "Ab", "A", "Bb", "B", "C", "C#", "D", "Eb", "E", "F", "F#", "G"])
  | ['G','#'] => some (strs ["G#", "A", "A#", "B", "C", "C#", "D", "D#", "E", "F", "F#", "G", "G#"])
  | ['A','b'] => some (strs ["Ab", "A", "Bb", "B", "C", "Db", "D", "Eb", "E", "F", "Gb", "G", "Ab"])
  | ['A'] => some (strs ["A", "Bb", "B", "C", "C#", "D", "D#", "E", "F", "F#", "G", "G#", "A"])
  | ['A','#'] => some (strs ["A#", "B", "C", "C#", "D", "D#", "E"] ++
      strs ["F", "F#", "G", "G#", "A", "A#"])
  | ['B','b'] => some (strs ["Bb", "B", "C", "Db", "D", "Eb", "E", "F", "Gb", "G", "Ab", "A", "Bb"])
  | ['B'] => some (strs ["B", "C", "C#", "D", "D#", "E", "F"] ++
      strs ["F#", "G", "G#", "A", "A#", "B"])
  | _ => none

/-- `transpose(notename, interval, white_enharmonic=True)`.  `interval`
is in cents (the float semitone interval modelled exactly on the cent
grid).  An unknown root makes `_chromatic_transpositions.get` return
`None`, so the subscript raises `TypeError`. -/
def transpose (notename : Str) (interval : ℤ) (white_enharmonic : Bool := true) :
    Except PyErr Str :=
  match n2m notename with
  | .error e => .error e
  | .ok midi1 =>
    let midi2 := midi1 + interval
    match split_notename (m2n midi2) with
    | .error e => .error e
    | .ok partsFmt =>
      let octave0 := partsFmt.octave
      match split_notename notename with
      | .error e => .error e
      | .ok parts1 =>
        let chromatic1 := parts1.diatonic_name :: parts1.alteration
        let rounded := pyRound interval 100
        let deviationcents := (interval - rounded * 100) + parts1.cents_deviation
        match chromatic_transpositions chromatic1 with
        | none => .error .typeError
        | some row =>
          let chromatic2 := row.getD (rounded % 12).toNat []
          match n2m (intToStr octave0 ++ chromatic2) with
          | .error e => .error e
          | .ok dm =>
            let diff := dm - midi1
            let octave1 :=
              if diff < 0 ∧ interval > 0 then octave0 + 1
              else if diff > 0 ∧ interval < 0 then octave0 - 1
              else octave0
            let letter := chromatic2.headD 'C'
            let alter := chromatic2.tail
            let fixed : Char × Str × ℤ :=
              if white_enharmonic then (letter, alter, octave1)
              else if letter = 'E' ∧ alter = ['#'] then ('F', [], octave1)
              else if letter = 'F' ∧ alter = ['b'] then ('E', [], octave1)
              else if letter = 'B' ∧ alter = ['#'] then ('C', [], octave1 + 1)
              else if letter = 'C' ∧ alter = ['b'] then ('B', [], octave1 - 1)
              else (letter, alter, octave1)
            let out := construct_notename fixed.2.2 fixed.1 fixed.2.1 deviationcents
            if deviationcents < -50 ∨ deviationcents > 50 then normalize_notename out
            else .ok out

/-! ## Enharmonic-variation search -/

/-- The slot map `fixedslots`: an association list standing for the Python
dict (newest binding first). -/
abbrev SlotMap : Type := List (ℤ × Option ℤ)

def slotGet (m : SlotMap) (k : ℤ) : Option (Option ℤ) :=
  (m.find? (fun kv => kv.1 = k)).map (fun kv => kv.2)

def slotSet (m : SlotMap) (k : ℤ) (v : ℤ) : SlotMap :=
  (k, some v) :: m

def non_enharmonic_slots : List ℤ := [0, 4, 8, 10, 14, 18, 22]

/-- All rows of `itertools.product((0, 1), repeat=n)` as boolean lists
(the first coordinate varies slowest, as in Python). -/
def allBoolRows : ℕ → List (List Bool)
  | 0 => [[]]
  | n + 1 => (allBoolRows n).map (false :: ·) ++ (allBoolRows n).map (true :: ·)

/-- The slot condition
`fixed_dir is None or fixed_dir == 0 or fixed_dir == direction`. -/
def slotAccepts (fixed : Option (Option ℤ)) (dir : ℤ) : Bool :=
  match fixed with
  | none => true
  | some none => true
  | some (some d) => d = 0 ∨ d = dir

/-- One row of the variation search: walk the chosen variant of each note
keeping a working copy of the slots; on a conflict `break` leaves the row
short (modelled by returning the prefix built so far, which then fails
the length test). -/
def buildRow : List (Bool × Str × Str) → SlotMap → Except PyErr (List Str)
  | [], _ => .ok []
  | (b, variants) :: rest, slots =>
      let name := if b then variants.2 else variants.1
      match notated_pitch (.str name) with
      | .error e => .error e
      | .ok notated =>
        let slotindex := notated.microtone_index 2
        if slotindex ∈ non_enharmonic_slots then
          (buildRow rest slots).map (name :: ·)
        else
          let dir := notated.alteration_direction
          if slotAccepts (slotGet slots slotindex) dir then
            (buildRow rest (slotSet slots slotindex dir)).map (name :: ·)
          else
            .ok []

/-- The eagerly-built `variants_per_note` list: each note paired with its
enharmonic. -/
def variantsPerNote : List Str → Except PyErr (List (Str × Str))
  | [] => .ok []
  | n :: rest =>
      match enharmonic n with
      | .error e => .error e
      | .ok e =>
        match variantsPerNote rest with
        | .error e2 => .error e2
        | .ok vs => .ok ((n, e) :: vs)

/-- Build every row of the Cartesian product, stopping at the first raised
exception (as the Python loop would). -/
def buildAllRows (rows : List (List Bool)) (variants : List (Str × Str))
    (fixedslots : SlotMap) : Except PyErr (List (List Str)) :=
  match rows with
  | [] => .ok []
  | bs :: rest =>
      match buildRow (bs.zip variants) fixedslots with
      | .error e => .error e
      | .ok row =>
        match buildAllRows rest variants fixedslots with
        | .error e => .error e
        | .ok rs => .ok (row :: rs)

/-- Deduplication modelling `list(set(allvariants))` (the Python set
iteration order is unspecified; only the member set matters). -/
def pyDedup : List (List Str) → List (List Str)
  | [] => []
  | a :: rest =>
      let t := pyDedup rest
      if a ∈ t then t else a :: t

/-- `enharmonic_variations(notes, fixedslots=None, force=False)`. -/
def enharmonic_variations (notes : List Str) (fixedslots : SlotMap := [])
    (force : Bool := false) : Except PyErr (List (List Str)) :=
  match variantsPerNote notes with
  | .error e => .error e
  | .ok variants =>
    match buildAllRows (allBoolRows notes.length) variants fixedslots with
    | .error e => .error e
    | .ok rows =>
      let allvariants := rows.filter (fun r => r.length = notes.length)
      let out := pyDedup allvariants
      .ok (if out ≠ [] ∨ ¬ force then out else [notes])

/-! ## Lemmas about decimal digit strings -/

theorem natDigitsAux_irrel (f : ℕ) : ∀ (g n : ℕ), n < f → n < g →
    natDigitsAux f n = natDigitsAux g n := by
  induction f with
  | zero => intro g n h _; omega
  | succ f ih =>
    intro g n h h'
    cases g with
    | zero => omega
    | succ g =>
      simp only [natDigitsAux]
      by_cases h10 : n < 10
      · simp [h10]
      · have hlt : n / 10 < n := Nat.div_lt_self (by omega) (by omega)
        simp only [h10, if_false]
        rw [ih g (n / 10) (by omega) (by omega)]

theorem natDigits_unfold (n : ℕ) :
    natDigits n = if n < 10 then [n] else natDigits (n / 10) ++ [n % 10] := by
  have base : natDigits n = if n < 10 then [n] else natDigitsAux n (n / 10) ++ [n % 10] := rfl
  by_cases h10 : n < 10
  · rw [base, if_pos h10, if_pos h10]
  · have hlt : n / 10 < n := Nat.div_lt_self (by omega) (by omega)
    rw [base, if_neg h10, if_neg h10,
      natDigitsAux_irrel n (n / 10 + 1) (n / 10) (by omega) (by omega)]
    rfl

theorem natDigits_all_lt (n : ℕ) : ∀ d ∈ natDigits n, d < 10 := by
  induction n using Nat.strong_induction_on with
  | _ n ih =>
    rw [natDigits_unfold]
    by_cases h10 : n < 10
    · intro d hd
      simp [h10] at hd
      omega
    · have hlt : n / 10 < n := Nat.div_lt_self (by omega) (by omega)
      simp only [h10, if_false]
      intro d hd
      rcases List.mem_append.mp hd with h | h
      · exact ih (n / 10) hlt d h
      · simp at h; omega

theorem natDigits_ne_nil (n : ℕ) : natDigits n ≠ [] := by
  rw [natDigits_unfold]
  by_cases h10 : n < 10 <;> simp [h10]

/-- Value of a digit list (digits, not characters). -/
def digitsNatVal (l : List ℕ) : ℕ := l.foldl (fun a d => 10 * a + d) 0

theorem foldl_digits_shift (l : List ℕ) : ∀ a : ℕ,
    l.foldl (fun a d => 10 * a + d) a = a * 10 ^ l.length + digitsNatVal l := by
  induction l with
  | nil => intro a; simp [digitsNatVal]
  | cons d t ih =>
    intro a
    simp only [List.foldl, digitsNatVal, List.length_cons]
    rw [ih (10 * a + d), ih (10 * 0 + d)]
    ring

theorem digitsNatVal_natDigits (n : ℕ) : digitsNatVal (natDigits n) = n := by
  induction n using Nat.strong_induction_on with
  | _ n ih =>
    rw [natDigits_unfold]
    by_cases h10 : n < 10
    · simp [h10, digitsNatVal]
    · have hlt : n / 10 < n := Nat.div_lt_self (by omega) (by omega)
      rw [if_neg h10]
      rw [show digitsNatVal (natDigits (n / 10) ++ [n % 10])
            = 10 * digitsNatVal (natDigits (n / 10)) + n % 10 by
          simp [digitsNatVal, List.foldl_append]]
      rw [ih (n / 10) hlt]
      omega

theorem charToDigit_digitChar (d : ℕ) (h : d < 10) :
    charToDigit (digitChar d) = d := by
  interval_cases d <;> decide

theorem digitChar_isDigit (d : ℕ) (h : d < 10) : (digitChar d).isDigit = true := by
  interval_cases d <;> decide

theorem digitChar_ne_minus (d : ℕ) (h : d < 10) : digitChar d ≠ '-' := by
  interval_cases d <;> decide

theorem digitChar_ne_plus (d : ℕ) (h : d < 10) : digitChar d ≠ '+' := by
  interval_cases d <;> decide

theorem digitChar_not_alpha (d : ℕ) (h : d < 10) : (digitChar d).isAlpha = false := by
  interval_cases d <;> decide

theorem foldl_digits_map (l : List ℕ) (h : ∀ d ∈ l, d < 10) : ∀ a : ℕ,
    (l.map digitChar).foldl (fun a c => 10 * a + charToDigit c) a
      = l.foldl (fun a d => 10 * a + d) a := by
  induction l with
  | nil => intro a; rfl
  | cons d t ih =>
    intro a
    simp only [List.map, List.foldl]
    rw [charToDigit_digitChar d (h d (by simp))]
    exact ih (fun x hx => h x (by simp [hx])) _

theorem digitsVal_natToStr (n : ℕ) : digitsVal (natToStr n) = n := by
  unfold digitsVal natToStr
  rw [foldl_digits_map (natDigits n) (natDigits_all_lt n) 0]
  exact digitsNatVal_natDigits n

theorem natToStr_all_digits (n : ℕ) : ∀ c ∈ natToStr n, c.isDigit = true := by
  intro c hc
  rcases List.mem_map.mp hc with ⟨d, hd, rfl⟩
  exact digitChar_isDigit d (natDigits_all_lt n d hd)

theorem natToStr_cons (n : ℕ) : ∃ d t, natToStr n = digitChar d :: t ∧ d < 10 := by
  unfold natToStr
  rcases hl : natDigits n with _ | ⟨d, t⟩
  · exact absurd hl (natDigits_ne_nil n)
  · exact ⟨d, t.map digitChar, rfl, natDigits_all_lt n d (by rw [hl]; simp)⟩

/-- `digitsVal` ignores a leading zero. -/
theorem digitsVal_cons_zero (l : Str) : digitsVal ('0' :: l) = digitsVal l := rfl

theorem natToStr_ne_nil (n : ℕ) : natToStr n ≠ [] := by
  obtain ⟨d, t, h, _⟩ := natToStr_cons n
  simp [h]

/-! ## Lemmas about scanning -/

/-- The head of the list (if any) fails the predicate. -/
def headNot (p : Char → Bool) : Str → Prop
  | [] => True
  | c :: _ => p c = false

theorem takeWhile_append_all (p : Char → Bool) (l r : Str)
    (hl : ∀ c ∈ l, p c = true) (hr : headNot p r) :
    (l ++ r).takeWhile p = l := by
  induction l with
  | nil =>
    cases r with
    | nil => rfl
    | cons c t =>
      simp only [headNot] at hr
      simp [List.takeWhile_cons, hr]
  | cons c t ih =>
    have hc : p c = true := hl c (by simp)
    simp only [List.cons_append, List.takeWhile_cons, hc, if_true]
    rw [ih (fun x hx => hl x (by simp [hx]))]

theorem dropWhile_append_all (p : Char → Bool) (l r : Str)
    (hl : ∀ c ∈ l, p c = true) (hr : headNot p r) :
    (l ++ r).dropWhile p = r := by
  induction l with
  | nil =>
    cases r with
    | nil => rfl
    | cons c t =>
      simp only [headNot] at hr
      simp [List.dropWhile_cons, hr]
  | cons c t ih =>
    have hc : p c = true := hl c (by simp)
    simp only [List.cons_append, List.dropWhile_cons, hc, if_true]
    exact ih (fun x hx => hl x (by simp [hx]))

theorem takeWhile_all (p : Char → Bool) (l : Str) (hl : ∀ c ∈ l, p c = true) :
    l.takeWhile p = l := by
  have := takeWhile_append_all p l [] hl trivial
  simpa using this

theorem intToStr_nonneg (o : ℤ) (h : 0 ≤ o) : intToStr o = natToStr o.toNat := by
  simp [intToStr, not_lt.mpr h]

theorem intToStr_negcase (o : ℤ) (h : o < 0) : intToStr o = '-' :: natToStr o.natAbs := by
  simp [intToStr, h]

theorem intToStr_cons (o : ℤ) :
    ∃ c t, intToStr o = c :: t ∧ c.isAlpha = false := by
  by_cases h : o < 0
  · exact ⟨'-', natToStr o.natAbs, intToStr_negcase o h, by decide⟩
  · obtain ⟨d, t, hc, hd⟩ := natToStr_cons o.toNat
    refine ⟨digitChar d, t, ?_, digitChar_not_alpha d hd⟩
    rw [intToStr_nonneg o (by omega), hc]

theorem intToStr_ne_nil (o : ℤ) : intToStr o ≠ [] := by
  obtain ⟨c, t, h, _⟩ := intToStr_cons o
  simp [h]

theorem scanOct_built (o : ℤ) (r : Str) (hr : headNot Char.isDigit r) :
    scanOct (intToStr o ++ r) = some (intToStr o, r) := by
  by_cases ho : o < 0
  · rw [intToStr_negcase o ho]
    show scanOct ('-' :: (natToStr o.natAbs ++ r)) = _
    simp only [scanOct, if_pos rfl]
    rw [takeWhile_append_all _ _ _ (natToStr_all_digits _) hr,
        dropWhile_append_all _ _ _ (natToStr_all_digits _) hr]
    simp [natToStr_ne_nil]
  · rw [intToStr_nonneg o (by omega)]
    obtain ⟨d, t, hc, hd⟩ := natToStr_cons o.toNat
    rw [hc]
    show scanOct (digitChar d :: (t ++ r)) = _
    simp only [scanOct, if_neg (digitChar_ne_minus d hd)]
    rw [show digitChar d :: (t ++ r) = (digitChar d :: t) ++ r by simp]
    rw [takeWhile_append_all _ _ _ (by rw [← hc]; exact natToStr_all_digits _) hr,
        dropWhile_append_all _ _ _ (by rw [← hc]; exact natToStr_all_digits _) hr]
    simp

theorem octVal_intToStr (o : ℤ) : octVal (intToStr o) = o := by
  by_cases ho : o < 0
  · rw [intToStr_negcase o ho]
    have h : octVal ('-' :: natToStr o.natAbs) = -(digitsVal (natToStr o.natAbs) : ℤ) := by
      simp [octVal]
    rw [h, digitsVal_natToStr]
    omega
  · rw [intToStr_nonneg o (by omega)]
    obtain ⟨d, t, hc, hd⟩ := natToStr_cons o.toNat
    rw [hc]
    have h : octVal (digitChar d :: t) = (digitsVal (digitChar d :: t) : ℤ) := by
      simp [octVal, digitChar_ne_minus d hd]
    rw [h, ← hc, digitsVal_natToStr]
    omega

/-! ## Microtone-suffix specification -/

/-- The microtone-suffix strings produced by the formatter, the enharmonic
engine and `construct_notename`, with the cents value `n2m` assigns them
(a bare `"0"` is not scanned as a microtone group and trails unconsumed,
denoting 0 cents). -/
inductive SufSpec : Str → ℤ → Prop
  | empty : SufSpec [] 0
  | zero : SufSpec ['0'] 0
  | plus : SufSpec ['+'] 50
  | minus : SufSpec ['-'] (-50)
  | up : SufSpec ['>'] 25
  | down : SufSpec ['<'] (-25)
  | pos (c : ℤ) (h : 0 < c) : SufSpec ('+' :: natToStr c.toNat) c
  | posPad (c : ℤ) (h0 : 0 < c) (h1 : c < 10) : SufSpec ('+' :: '0' :: natToStr c.toNat) c
  | neg (c : ℤ) (h : c < 0) : SufSpec ('-' :: natToStr c.natAbs) c
  | negPad (c : ℤ) (h0 : c < 0) (h1 : -10 < c) : SufSpec ('-' :: '0' :: natToStr c.natAbs) c

theorem sufSpec_head_not_alt (suf : Str) (c : ℤ) (h : SufSpec suf c) :
    headNot isAltChar suf := by
  cases h <;> simp [headNot, isAltChar]

theorem sufSpec_nil (c : ℤ) (h : SufSpec [] c) : c = 0 := by
  cases h
  rfl

theorem all_digits_pad (n : ℕ) : ('0' :: natToStr n).all Char.isDigit = true := by
  rw [List.all_eq_true]
  intro c hc
  rcases List.mem_cons.mp hc with rfl | hc
  · decide
  · exact natToStr_all_digits n c hc

theorem strToInt_pos_digits (n : ℕ) : strToInt? ('+' :: natToStr n) = some (n : ℤ) := by
  have h1 : natToStr n ≠ [] := natToStr_ne_nil n
  have h2 : (natToStr n).all Char.isDigit = true := by
    rw [List.all_eq_true]
    exact natToStr_all_digits n
  simp [strToInt?, h1, h2, digitsVal_natToStr]

theorem strToInt_pos_digits_pad (n : ℕ) :
    strToInt? ('+' :: '0' :: natToStr n) = some (n : ℤ) := by
  have h2 := all_digits_pad n
  simp [strToInt?, h2]
  rw [show digitsVal ('0' :: natToStr n) = digitsVal (natToStr n) from rfl,
    digitsVal_natToStr]

theorem strToInt_neg_digits (n : ℕ) : strToInt? ('-' :: natToStr n) = some (-(n : ℤ)) := by
  have h1 : natToStr n ≠ [] := natToStr_ne_nil n
  have h2 : (natToStr n).all Char.isDigit = true := by
    rw [List.all_eq_true]
    exact natToStr_all_digits n
  simp [strToInt?, h1, h2, digitsVal_natToStr]

theorem strToInt_neg_digits_pad (n : ℕ) :
    strToInt? ('-' :: '0' :: natToStr n) = some (-(n : ℤ)) := by
  have h2 := all_digits_pad n
  simp [strToInt?, h2]
  rw [show digitsVal ('0' :: natToStr n) = digitsVal (natToStr n) from rfl,
    digitsVal_natToStr]

theorem microCents_scan (suf : Str) (c : ℤ) (h : SufSpec suf c) :
    microCents (scanMicro suf) = .ok c := by
  cases h with
  | empty => rfl
  | zero => rfl
  | plus => rfl
  | minus => rfl
  | up => rfl
  | down => rfl
  | pos c hc =>
    have hne : natToStr c.toNat ≠ [] := natToStr_ne_nil _
    have hscan : scanMicro ('+' :: natToStr c.toNat) = some ('+' :: natToStr c.toNat) := by
      simp [scanMicro, isMicroChar, takeWhile_all _ _ (natToStr_all_digits c.toNat)]
    rw [hscan]
    have e1 : ¬('+' :: natToStr c.toNat = ['+']) := by simp [hne]
    have e2 : ¬('+' :: natToStr c.toNat = ['-']) := by simp
    have e3 : ¬('+' :: natToStr c.toNat = ['>'] ∨ '+' :: natToStr c.toNat = ['↑']) := by simp
    have e4 : ¬('+' :: natToStr c.toNat = ['<'] ∨ '+' :: natToStr c.toNat = ['↓']) := by simp
    simp only [microCents, if_neg e1, if_neg e2, if_neg e3, if_neg e4,
      strToInt_pos_digits]
    congr 1
    omega
  | posPad c hc0 hc1 =>
    have hscan : scanMicro ('+' :: '0' :: natToStr c.toNat)
        = some ('+' :: '0' :: natToStr c.toNat) := by
      simp [scanMicro, isMicroChar]
      exact fun x hx => natToStr_all_digits c.toNat x hx
    rw [hscan]
    have e1 : ¬('+' :: '0' :: natToStr c.toNat = ['+']) := by simp
    have e2 : ¬('+' :: '0' :: natToStr c.toNat = ['-']) := by simp
    have e3 : ¬('+' :: '0' :: natToStr c.toNat = ['>'] ∨
        '+' :: '0' :: natToStr c.toNat = ['↑']) := by simp
    have e4 : ¬('+' :: '0' :: natToStr c.toNat = ['<'] ∨
        '+' :: '0' :: natToStr c.toNat = ['↓']) := by simp
    simp only [microCents, if_neg e1, if_neg e2, if_neg e3, if_neg e4,
      strToInt_pos_digits_pad]
    congr 1
    omega
  | neg c hc =>
    have hne : natToStr c.natAbs ≠ [] := natToStr_ne_nil _
    have hscan : scanMicro ('-' :: natToStr c.natAbs) = some ('-' :: natToStr c.natAbs) := by
      simp [scanMicro, isMicroChar, takeWhile_all _ _ (natToStr_all_digits c.natAbs)]
    rw [hscan]
    have e1 : ¬('-' :: natToStr c.natAbs = ['+']) := by simp
    have e2 : ¬('-' :: natToStr c.natAbs = ['-']) := by simp [hne]
    have e3 : ¬('-' :: natToStr c.natAbs = ['>'] ∨ '-' :: natToStr c.natAbs = ['↑']) := by simp
    have e4 : ¬('-' :: natToStr c.natAbs = ['<'] ∨ '-' :: natToStr c.natAbs = ['↓']) := by simp
    simp only [microCents, if_neg e1, if_neg e2, if_neg e3, if_neg e4,
      strToInt_neg_digits]
    congr 1
    omega
  | negPad c hc0 hc1 =>
    have hscan : scanMicro ('-' :: '0' :: natToStr c.natAbs)
        = some ('-' :: '0' :: natToStr c.natAbs) := by
      simp [scanMicro, isMicroChar]
      exact fun x hx => natToStr_all_digits c.natAbs x hx
    rw [hscan]
    have e1 : ¬('-' :: '0' :: natToStr c.natAbs = ['+']) := by simp
    have e2 : ¬('-' :: '0' :: natToStr c.natAbs = ['-']) := by simp
    have e3 : ¬('-' :: '0' :: natToStr c.natAbs = ['>'] ∨
        '-' :: '0' :: natToStr c.natAbs = ['↑']) := by simp
    have e4 : ¬('-' :: '0' :: natToStr c.natAbs = ['<'] ∨
        '-' :: '0' :: natToStr c.natAbs = ['↓']) := by simp
    simp only [microCents, if_neg e1, if_neg e2, if_neg e3, if_neg e4,
      strToInt_neg_digits_pad]
    congr 1
    omega


theorem n2m_built1 (o : ℤ) (L : Char) (pc0 : ℤ) (suf : Str) (c : ℤ)
    (hpch : isPchChar L = true) (hdig : L.isDigit = false)
    (hpc : notes2 L.toLower = some pc0) (h0 : 0 ≤ pc0) (h11 : pc0 ≤ 11)
    (hsuf : SufSpec suf c) :
    n2m ((intToStr o ++ [L]) ++ suf) = .ok (1200 * (o + 1) + 100 * pc0 + c) := by
  have hmatch : matchR2At ((intToStr o ++ [L]) ++ suf) = some ([L], intToStr o, scanMicro suf) := by
    rw [List.append_assoc]
    simp only [matchR2At]
    rw [scanOct_built o ([L] ++ suf) (by simpa [headNot] using hdig)]
    cases suf with
    | nil => simp [hpch, scanMicro]
    | cons a t =>
      have hna : isAltChar a = false := sufSpec_head_not_alt _ _ hsuf
      simp [hpch, hna]
  obtain ⟨c0, t0, hcons, halpha⟩ := intToStr_cons o
  have hshape : (intToStr o ++ [L]) ++ suf = c0 :: (t0 ++ [L] ++ suf) := by
    rw [hcons]
    simp
  rw [hshape] at hmatch
  rw [hshape]
  simp only [n2m, halpha, Bool.false_eq_true, if_false, reSearch, hmatch]
  rw [hpc, microCents_scan suf c hsuf, octVal_intToStr]
  simp only [if_neg (by omega : ¬(pc0 + 0 > 11)), if_neg (by omega : ¬(pc0 + 0 < 0))]
  congr 1
  ring


theorem n2m_built2 (o : ℤ) (L a : Char) (pc0 d : ℤ) (suf : Str) (c : ℤ)
    (hpch : isPchChar L = true) (hdig : L.isDigit = false)
    (hpc : notes2 L.toLower = some pc0) (h0 : 0 ≤ pc0) (h11 : pc0 ≤ 11)
    (ha : (a = '#' ∧ d = 1) ∨ (a = 'b' ∧ d = -1))
    (hsuf : SufSpec suf c) :
    n2m ((intToStr o ++ [L, a]) ++ suf) = .ok (1200 * (o + 1) + 100 * (pc0 + d) + c) := by
  have haAlt : isAltChar a = true := by
    rcases ha with ⟨rfl, _⟩ | ⟨rfl, _⟩ <;> decide
  have hmatch : matchR2At ((intToStr o ++ [L, a]) ++ suf)
      = some ([L, a], intToStr o, scanMicro suf) := by
    rw [show (intToStr o ++ [L, a]) ++ suf = intToStr o ++ ([L, a] ++ suf) by simp]
    simp only [matchR2At]
    rw [scanOct_built o ([L, a] ++ suf) (by simpa [headNot] using hdig)]
    simp [hpch, haAlt]
  obtain ⟨c0, t0, hcons, halpha⟩ := intToStr_cons o
  have hshape : (intToStr o ++ [L, a]) ++ suf = c0 :: (t0 ++ [L, a] ++ suf) := by
    rw [hcons]
    simp
  rw [hshape] at hmatch
  rw [hshape]
  simp only [n2m, halpha, Bool.false_eq_true, if_false, reSearch, hmatch]
  rw [hpc]
  rcases ha with ⟨rfl, rfl⟩ | ⟨rfl, rfl⟩
  · simp only [show (('#' : Char) = '#') = True by simp, if_true]
    rw [microCents_scan suf c hsuf, octVal_intToStr]
    split_ifs with h1 h2 <;> dsimp only <;> (congr 1; omega)
  · simp only [show (('b' : Char) = '#') = False by simp, if_false,
      show (('b' : Char) = 'b') = True by simp, if_true]
    rw [microCents_scan suf c hsuf, octVal_intToStr]
    split_ifs with h1 h2 <;> dsimp only <;> (congr 1; omega)


/-- The pitch-class contribution computed by `n2m` for a chromatic name
(letter value from `_notes2` plus alteration), before octave
normalization: `B#` is 12 and `Cb` is -1. -/
def rawPc (nm : Str) : ℤ :=
  match nm with
  | [l] => (notes2 l.toLower).getD 0
  | [l, a] => (notes2 l.toLower).getD 0 + (if a = '#' then 1 else if a = 'b' then -1 else 0)
  | _ => 0

/-- The 21 letter-plus-single-alteration chromatic names. -/
def knownNames : List Str :=
  [['C'], ['C','#'], ['C','b'], ['D'], ['D','#'], ['D','b'], ['E'], ['E','#'], ['E','b'],
   ['F'], ['F','#'], ['F','b'], ['G'], ['G','#'], ['G','b'], ['A'], ['A','#'], ['A','b'],
   ['B'], ['B','#'], ['B','b']]

/-- `n2m` on an octave-first string built from an integer octave, a known
chromatic name and a microtone suffix. -/
theorem n2m_name (o : ℤ) (nm : Str) (suf : Str) (c : ℤ)
    (hnm : nm ∈ knownNames) (hsuf : SufSpec suf c) :
    n2m ((intToStr o ++ nm) ++ suf) = .ok (1200 * (o + 1) + 100 * rawPc nm + c) := by
  fin_cases hnm
  · exact n2m_built1 o 'C' 0 suf c (by decide) (by decide) (by decide) (by decide) (by decide) hsuf
  · exact n2m_built2 o 'C' '#' 0 1 suf c (by decide) (by decide) (by decide) (by decide) (by decide) (.inl ⟨rfl, rfl⟩) hsuf
  · exact n2m_built2 o 'C' 'b' 0 (-1) suf c (by decide) (by decide) (by decide) (by decide) (by decide) (.inr ⟨rfl, rfl⟩) hsuf
  · exact n2m_built1 o 'D' 2 suf c (by decide) (by decide) (by decide) (by decide) (by decide) hsuf
  · exact n2m_built2 o 'D' '#' 2 1 suf c (by decide) (by decide) (by decide) (by decide) (by decide) (.inl ⟨rfl, rfl⟩) hsuf
  · exact n2m_built2 o 'D' 'b' 2 (-1) suf c (by decide) (by decide) (by decide) (by decide) (by decide) (.inr ⟨rfl, rfl⟩) hsuf
  · exact n2m_built1 o 'E' 4 suf c (by decide) (by decide) (by decide) (by decide) (by decide) hsuf
  · exact n2m_built2 o 'E' '#' 4 1 suf c (by decide) (by decide) (by decide) (by decide) (by decide) (.inl ⟨rfl, rfl⟩) hsuf
  · exact n2m_built2 o 'E' 'b' 4 (-1) suf c (by decide) (by decide) (by decide) (by decide) (by decide) (.inr ⟨rfl, rfl⟩) hsuf
  · exact n2m_built1 o 'F' 5 suf c (by decide) (by decide) (by decide) (by decide) (by decide) hsuf
  · exact n2m_built2 o 'F' '#' 5 1 suf c (by decide) (by decide) (by decide) (by decide) (by decide) (.inl ⟨rfl, rfl⟩) hsuf
  · exact n2m_built2 o 'F' 'b' 5 (-1) suf c (by decide) (by decide) (by decide) (by decide) (by decide) (.inr ⟨rfl, rfl⟩) hsuf
  · exact n2m_built1 o 'G' 7 suf c (by decide) (by decide) (by decide) (by decide) (by decide) hsuf
  · exact n2m_built2 o 'G' '#' 7 1 suf c (by decide) (by decide) (by decide) (by decide) (by decide) (.inl ⟨rfl, rfl⟩) hsuf
  · exact n2m_built2 o 'G' 'b' 7 (-1) suf c (by decide) (by decide) (by decide) (by decide) (by decide) (.inr ⟨rfl, rfl⟩) hsuf
  · exact n2m_built1 o 'A' 9 suf c (by decide) (by decide) (by decide) (by decide) (by decide) hsuf
  · exact n2m_built2 o 'A' '#' 9 1 suf c (by decide) (by decide) (by decide) (by decide) (by decide) (.inl ⟨rfl, rfl⟩) hsuf
  · exact n2m_built2 o 'A' 'b' 9 (-1) suf c (by decide) (by decide) (by decide) (by decide) (by decide) (.inr ⟨rfl, rfl⟩) hsuf
  · exact n2m_built1 o 'B' 11 suf c (by decide) (by decide) (by decide) (by decide) (by decide) hsuf
  · exact n2m_built2 o 'B' '#' 11 1 suf c (by decide) (by decide) (by decide) (by decide) (by decide) (.inl ⟨rfl, rfl⟩) hsuf
  · exact n2m_built2 o 'B' 'b' 11 (-1) suf c (by decide) (by decide) (by decide) (by decide) (by decide) (.inr ⟨rfl, rfl⟩) hsuf

theorem n2m_name_nosuf (o : ℤ) (nm : Str) (hnm : nm ∈ knownNames) :
    n2m (intToStr o ++ nm) = .ok (1200 * (o + 1) + 100 * rawPc nm) := by
  have h := n2m_name o nm [] 0 hnm .empty
  simpa using h

/-- For a single-digit octave, `str(o)` is one character. -/
theorem intToStr_digit (o : ℤ) (h0 : 0 ≤ o) (h9 : o ≤ 9) :
    intToStr o = [digitChar o.toNat] := by
  rw [intToStr_nonneg o h0]
  unfold natToStr
  rw [natDigits_unfold, if_pos (by omega)]
  rfl


/-! ## Structured notename inputs -/

/-- Canonical explicit cents suffix: empty, `+<digits>` or `-<digits>`. -/
def centsSuf (c : ℤ) : Str :=
  if c = 0 then [] else if c > 0 then '+' :: natToStr c.toNat else intToStr c

/-- An octave-first notename `<digit><letter><alteration><cents>` with a
single-digit octave. -/
def mkNote (o : ℕ) (L : Char) (alt : Str) (c : ℤ) : Str :=
  digitChar o :: L :: (alt ++ centsSuf c)

theorem centsSuf_sufspec (c : ℤ) : SufSpec (centsSuf c) c := by
  unfold centsSuf
  rcases lt_trichotomy c 0 with h | rfl | h
  · rw [if_neg (by omega), if_neg (by omega), intToStr_negcase c h]
    exact .neg c h
  · rw [if_pos rfl]
    exact .empty
  · rw [if_neg (by omega), if_pos h]
    exact .pos c h

theorem mkNote_shape (o : ℕ) (ho : o ≤ 9) (L : Char) (alt : Str) (c : ℤ) :
    mkNote o L alt c = (intToStr (o : ℤ) ++ ([L] ++ alt)) ++ centsSuf c := by
  rw [intToStr_digit (o : ℤ) (by omega) (by omega)]
  simp [mkNote]

theorem n2m_mkNote (o : ℕ) (ho : o ≤ 9) (L : Char) (alt : Str) (c : ℤ)
    (hnm : [L] ++ alt ∈ knownNames) :
    n2m (mkNote o L alt c) = .ok (1200 * ((o : ℤ) + 1) + 100 * rawPc ([L] ++ alt) + c) := by
  rw [mkNote_shape o ho L alt c]
  exact n2m_name (o : ℤ) ([L] ++ alt) (centsSuf c) c hnm (centsSuf_sufspec c)

theorem parse_centstr_centsSuf (c : ℤ) : parse_centstr (centsSuf c) = some c := by
  unfold centsSuf
  rcases lt_trichotomy c 0 with h | rfl | h
  · rw [if_neg (by omega), if_neg (by omega), intToStr_negcase c h]
    obtain ⟨d, t, hcons, hd⟩ := natToStr_cons c.natAbs
    have hnone : centsreprTable ('-' :: natToStr c.natAbs) = none := by
      rw [hcons]
      simp [centsreprTable]
    unfold parse_centstr
    rw [if_neg (by simp), hnone, strToInt_neg_digits,
      show (-(c.natAbs : ℤ)) = c by omega]
  · rfl
  · rw [if_neg (by omega), if_pos h]
    obtain ⟨d, t, hcons, hd⟩ := natToStr_cons c.toNat
    have hnone : centsreprTable ('+' :: natToStr c.toNat) = none := by
      rw [hcons]
      simp [centsreprTable]
    unfold parse_centstr
    rw [if_neg (by simp), hnone, strToInt_pos_digits,
      show ((c.toNat : ℤ)) = c by omega]

theorem split_mkNote (o : ℕ) (ho : o ≤ 9) (L : Char) (alt : Str) (c : ℤ)
    (hU : L.toUpper = L)
    (halt : alt = [] ∨ alt = ['#'] ∨ alt = ['b']) :
    split_notename (mkNote o L alt c) = .ok ⟨(o : ℤ), L, alt, c⟩ := by
  have hdig : (digitChar o).isDigit = true := digitChar_isDigit o (by omega)
  have hoct : (charToDigit (digitChar o) : ℤ) = (o : ℤ) := by
    rw [charToDigit_digitChar o (by omega)]
  rcases halt with rfl | rfl | rfl
  · show split_notename (digitChar o :: L :: ([] ++ centsSuf c)) = _
    rcases hsc : centsSuf c with _ | ⟨r0, rtail⟩
    · have hc0 : c = 0 := sufSpec_nil c (by rw [← hsc]; exact centsSuf_sufspec c)
      subst hc0
      simp [split_notename, hdig, hsc, hoct, hU]
    · have hr0 : isAltChar r0 = false := by
        have h := sufSpec_head_not_alt _ _ (centsSuf_sufspec c)
        rw [hsc] at h
        exact h
      have hrb : ¬(r0 = 'b') := by
        intro h
        rw [h] at hr0
        simp [isAltChar] at hr0
      have hrs : ¬(r0 = '#') := by
        intro h
        rw [h] at hr0
        simp [isAltChar] at hr0
      have hpc : parse_centstr (r0 :: rtail) = some c := by
        rw [← hsc]
        exact parse_centstr_centsSuf c
      simp [split_notename, hdig, hsc, hrb, hrs, hpc, hoct, hU]
  · have hpc := parse_centstr_centsSuf c
    show split_notename (digitChar o :: L :: (['#'] ++ centsSuf c)) = _
    simp [split_notename, hdig, hpc, hoct, hU]
  · have hpc := parse_centstr_centsSuf c
    show split_notename (digitChar o :: L :: (['b'] ++ centsSuf c)) = _
    simp [split_notename, hdig, hpc, hoct, hU]


/-! ## NotatedPitch on structured inputs -/

theorem pyRound_bounds25 (a : ℤ) (h1 : -162 ≤ a) (h2 : a ≤ 162) :
    -6 ≤ pyRound a 25 ∧ pyRound a 25 ≤ 6 := by
  simp only [pyRound]
  split_ifs <;> omega

theorem accidental_name_ok (x : ℤ) (h1 : -162 ≤ x) (h2 : x ≤ 162) :
    ∃ s, accidental_name x 4 = .ok s := by
  have h4 : (100 : ℤ) / 4 = 25 := by norm_num
  unfold accidental_name
  rw [if_pos (by norm_num)]
  simp only [h4]
  obtain ⟨hb1, hb2⟩ := pyRound_bounds25 x h1 h2
  set q := pyRound x 25 with hq
  interval_cases q <;> exact ⟨_, rfl⟩

set_option maxHeartbeats 1000000 in
theorem pyT_range162_all : ∀ k ∈ List.range 325,
    -162 ≤ pyT ((k : ℤ) - 162) ∧ pyT ((k : ℤ) - 162) ≤ 162 := by
  decide

/-- Inside the band the accidental table covers, the binary64 round trip
stays inside the band (it moves a value by at most one cent toward 0). -/
theorem pyT_range162 (x : ℤ) (h1 : -162 ≤ x) (h2 : x ≤ 162) :
    -162 ≤ pyT x ∧ pyT x ≤ 162 := by
  have h := pyT_range162_all (x + 162).toNat (List.mem_range.mpr (by omega))
  rw [show (((x + 162).toNat : ℤ) - 162) = x from by omega] at h
  exact h

theorem notated_mkNote (o : ℕ) (ho : o ≤ 9) (L : Char) (alt : Str) (c di ci altc : ℤ)
    (hU : L.toUpper = L)
    (halt : alt = [] ∨ alt = ['#'] ∨ alt = ['b'])
    (hdi : diatonicIndexOf L = some di)
    (haltc : centsreprTable alt = some altc)
    (hci : pitchclassChromatic (L :: alt) = some ci)
    (hlo : -162 ≤ altc + c) (hhi : altc + c ≤ 162) :
    ∃ acc, notated_pitch (.str (mkNote o L alt c))
      = .ok ⟨(o : ℤ), di, L, ci, L :: alt, altc + c, c, acc⟩ := by
  obtain ⟨hb1, hb2⟩ := pyT_range162 (altc + c) hlo hhi
  obtain ⟨acc, hacc⟩ := accidental_name_ok (pyT (altc + c)) hb1 hb2
  refine ⟨acc, ?_⟩
  show notated_pitch_notename (mkNote o L alt c) = _
  unfold notated_pitch_notename
  rw [split_mkNote o ho L alt c hU halt]
  dsimp only
  rw [hdi]
  dsimp only
  rw [show alteration_to_cents alt = .ok altc by
    unfold alteration_to_cents
    rw [haltc]]
  dsimp only
  rw [hci]
  dsimp only
  rw [hacc]


/-! ## Suffix specifications for the produced cents strings -/

theorem enharmonic_of_notated (s : Str) (p : NotatedPitch)
    (h : notated_pitch (.str s) = .ok p) : enharmonic s = enhBody s p := by
  unfold enharmonic
  rw [h]

theorem cents_repr_fallback (c : ℤ) (h0 : c ≠ 0) (h25 : c ≠ 25) (h50 : c ≠ 50)
    (hm25 : c ≠ -25) (hm50 : c ≠ -50) :
    cents_repr c true = if c > 0 then '+' :: natToStr c.toNat else intToStr c := by
  unfold cents_repr
  simp only [if_true, if_neg h0, if_neg h25, if_neg h50, if_neg hm25, if_neg hm50]

theorem cents_repr_sufspec (c : ℤ) : SufSpec (cents_repr c true) c := by
  rcases eq_or_ne c 0 with rfl | h0
  · rw [show cents_repr 0 true = ['0'] from by decide]
    exact .zero
  rcases eq_or_ne c 25 with rfl | h25
  · rw [show cents_repr 25 true = ['>'] from by decide]
    exact .up
  rcases eq_or_ne c 50 with rfl | h50
  · rw [show cents_repr 50 true = ['+'] from by decide]
    exact .plus
  rcases eq_or_ne c (-25) with rfl | hm25
  · rw [show cents_repr (-25) true = ['<'] from by decide]
    exact .down
  rcases eq_or_ne c (-50) with rfl | hm50
  · rw [show cents_repr (-50) true = ['-'] from by decide]
    exact .minus
  rw [cents_repr_fallback c h0 h25 h50 hm25 hm50]
  by_cases hp : c > 0
  · rw [if_pos hp]
    exact .pos c hp
  · rw [if_neg hp]
    have hneg : c < 0 := by omega
    rw [intToStr_negcase c hneg]
    exact .neg c hneg

theorem cents_str_sufspec (p : NotatedPitch) : SufSpec p.cents_str p.cents_deviation := by
  unfold NotatedPitch.cents_str
  dsimp only
  split_ifs with h1 h2 h3 h4
  · rw [h1]
    exact .empty
  · rw [h2]
    exact .plus
  · rw [h3]
    exact .minus
  · exact .pos _ h4
  · have hneg : p.cents_deviation < 0 := by omega
    rw [intToStr_negcase _ hneg]
    exact .neg _ hneg

/-- `cents_str` against the raw stored cents, for a pitch whose cents
value survives the binary64 round trip. -/
theorem cents_str_sufspec_fix (p : NotatedPitch) (c : ℤ)
    (h : pyT p.chromatic_alteration_cents = c) : SufSpec p.cents_str c := by
  have hs := cents_str_sufspec p
  rw [show NotatedPitch.cents_deviation p = c from h] at hs
  exact hs

theorem constructCentsStr_sufspec (c : ℤ) : SufSpec (constructCentsStr c) c := by
  unfold constructCentsStr
  split_ifs with h1 h2 h3 h4
  · rw [h1]
    exact .plus
  · rw [h2]
    exact .minus
  · exact .pos _ h3
  · rw [intToStr_negcase _ h4]
    exact .neg _ h4
  · have h0 : c = 0 := by omega
    subst h0
    exact .empty


/-! ## The enharmonic engine preserves the sounding pitch (per spelling kind) -/

theorem enh_nat (o : ℕ) (ho : o ≤ 9) (L : Char) (c ci : ℤ)
    (hU : L.toUpper = L)
    (hdi : (diatonicIndexOf L).isSome = true)
    (hci : pitchclassChromatic [L] = some ci)
    (hnmL : [L] ∈ knownNames) (hrawL : rawPc [L] = ci)
    (hup : pyGet flatsTable (ci + 1) ∈ knownNames)
    (hupPc : rawPc (pyGet flatsTable (ci + 1)) = if ci = 11 then 0 else ci + 1)
    (hdn : pyGet sharpsTable ((ci - 1) % 12) ∈ knownNames)
    (hdnPc : rawPc (pyGet sharpsTable ((ci - 1) % 12)) = if ci = 0 then 11 else ci - 1)
    (hLB : ([L] ≠ (['B'] : Str)) ↔ ci ≠ 11)
    (hLC : ([L] ≠ (['C'] : Str)) ↔ ci ≠ 0)
    (hc1 : -99 ≤ c) (hc2 : c ≤ 99) (hfix : pyT c = c) :
    ∃ t, enharmonic (mkNote o L [] c) = .ok t ∧ n2m t = n2m (mkNote o L [] c) := by
  obtain ⟨di, hdiv⟩ := Option.isSome_iff_exists.mp hdi
  obtain ⟨acc, hnp⟩ := notated_mkNote o ho L [] c di ci 0 hU (Or.inl rfl) hdiv (by decide)
    hci (by omega) (by omega)
  rw [enharmonic_of_notated _ _ hnp]
  unfold enhBody
  dsimp only [NotatedPitch.cents_deviation]
  simp only [hfix]
  rw [if_pos (by rw [abs_lt]; omega : |(0 : ℤ) + c| < 100)]
  have hmk : n2m (mkNote o L [] c) = .ok (1200 * ((o : ℤ) + 1) + 100 * ci + c) := by
    have h := n2m_mkNote o ho L [] c (by simpa using hnmL)
    simpa [hrawL] using h
  by_cases hsmall : -50 < c ∧ c < 50
  · rw [if_pos (by rw [abs_lt]; omega : |c| < 50)]
    exact ⟨_, rfl, rfl⟩
  by_cases hbig : 50 ≤ c
  · rw [if_neg (by rw [abs_lt]; omega), if_pos hbig]
    refine ⟨_, rfl, ?_⟩
    rw [n2m_name _ _ _ _ hup (cents_repr_sufspec _), hmk, hupPc]
    by_cases h11 : ci = 11
    · rw [if_neg (by rw [hLB]; omega), if_pos h11]
      congr 1
      omega
    · rw [if_pos (hLB.mpr h11), if_neg h11]
      congr 1
      omega
  · rw [if_neg (by rw [abs_lt]; omega), if_neg (by omega)]
    refine ⟨_, rfl, ?_⟩
    rw [n2m_name _ _ _ _ hdn (cents_repr_sufspec _), hmk, hdnPc]
    by_cases h0 : ci = 0
    · rw [if_neg (by rw [hLC]; omega), if_pos h0]
      congr 1
      omega
    · rw [if_pos (hLC.mpr h0), if_neg h0]
      congr 1
      omega


theorem enh_sharp (o : ℕ) (ho : o ≤ 9) (L : Char) (c ci : ℤ)
    (hU : L.toUpper = L)
    (hdi : (diatonicIndexOf L).isSome = true)
    (hci : pitchclassChromatic [L, '#'] = some ci)
    (hnm : [L, '#'] ∈ knownNames) (hraw : rawPc [L, '#'] = ci)
    (hci1 : 1 ≤ ci) (hci10 : ci ≤ 10)
    (hfl : pyGet flatsTable ci ∈ knownNames)
    (hflPc : rawPc (pyGet flatsTable ci) = ci)
    (hup : pyGet flatsTable (ci + 1) ∈ knownNames)
    (hupPc : rawPc (pyGet flatsTable (ci + 1)) = ci + 1)
    (hdn : pyGet sharpsTable ((ci - 1) % 12) ∈ knownNames)
    (hdnPc : rawPc (pyGet sharpsTable ((ci - 1) % 12)) = ci - 1)
    (hc1 : -199 ≤ c) (hc2 : c ≤ 62) (hfix : pyT c = c) :
    ∃ t, enharmonic (mkNote o L ['#'] c) = .ok t ∧ n2m t = n2m (mkNote o L ['#'] c) := by
  obtain ⟨di, hdiv⟩ := Option.isSome_iff_exists.mp hdi
  obtain ⟨acc, hnp⟩ := notated_mkNote o ho L ['#'] c di ci 100 hU (Or.inr (Or.inl rfl)) hdiv
    (by decide) hci (by omega) (by omega)
  rw [enharmonic_of_notated _ _ hnp]
  unfold enhBody
  dsimp only [NotatedPitch.cents_deviation]
  simp only [hfix]
  have hmk : n2m (mkNote o L ['#'] c) = .ok (1200 * ((o : ℤ) + 1) + 100 * ci + c) := by
    have h := n2m_mkNote o ho L ['#'] c (by simpa using hnm)
    simp only [List.singleton_append] at h
    rw [hraw] at h
    exact h
  by_cases hneg : c < 0
  · -- diatonic alteration 100 + c is below 100: the natural-spelling branch
    rw [if_pos (by rw [abs_lt]; omega : |(100 : ℤ) + c| < 100)]
    by_cases hsmall : -50 < c
    · rw [if_pos (by rw [abs_lt]; omega : |c| < 50)]
      exact ⟨_, rfl, rfl⟩
    · rw [if_neg (by rw [abs_lt]; omega), if_neg (by omega)]
      refine ⟨_, rfl, ?_⟩
      rw [n2m_name _ _ _ _ hdn (cents_repr_sufspec _), hmk, hdnPc,
        if_pos (by simp : ([L, '#'] : Str) ≠ ['C'])]
      congr 1
      omega
  · rw [if_neg (by rw [abs_lt]; omega), if_pos (by omega : 100 ≤ (100 : ℤ) + c)]
    by_cases hsmall : c < 50
    · rw [if_pos (by rw [abs_lt]; omega : |c| < 50)]
      refine ⟨_, rfl, ?_⟩
      rw [n2m_name _ _ _ _ hfl (cents_str_sufspec_fix _ c hfix), hmk, hflPc]
    · rw [if_neg (by rw [abs_lt]; omega), if_pos (by omega : 50 ≤ c ∧ c < 100)]
      refine ⟨_, rfl, ?_⟩
      rw [n2m_name _ _ _ _ hup (cents_repr_sufspec _), hmk, hupPc]
      congr 1
      omega

theorem enh_flat (o : ℕ) (ho : o ≤ 9) (L : Char) (c ci : ℤ)
    (hU : L.toUpper = L)
    (hdi : (diatonicIndexOf L).isSome = true)
    (hci : pitchclassChromatic [L, 'b'] = some ci)
    (hnm : [L, 'b'] ∈ knownNames) (hraw : rawPc [L, 'b'] = ci)
    (hci1 : 1 ≤ ci) (hci10 : ci ≤ 10)
    (hsh : pyGet sharpsTable ci ∈ knownNames)
    (hshPc : rawPc (pyGet sharpsTable ci) = ci)
    (hup : pyGet flatsTable (ci + 1) ∈ knownNames)
    (hupPc : rawPc (pyGet flatsTable (ci + 1)) = ci + 1)
    (hdn : pyGet sharpsTable (ci - 1) ∈ knownNames)
    (hdnPc : rawPc (pyGet sharpsTable (ci - 1)) = ci - 1)
    (hc1 : -62 ≤ c) (hc2 : c ≤ 199) (hfix : pyT c = c) :
    ∃ t, enharmonic (mkNote o L ['b'] c) = .ok t ∧ n2m t = n2m (mkNote o L ['b'] c) := by
  obtain ⟨di, hdiv⟩ := Option.isSome_iff_exists.mp hdi
  obtain ⟨acc, hnp⟩ := notated_mkNote o ho L ['b'] c di ci (-100) hU (Or.inr (Or.inr rfl)) hdiv
    (by decide) hci (by omega) (by omega)
  rw [enharmonic_of_notated _ _ hnp]
  unfold enhBody
  dsimp only [NotatedPitch.cents_deviation]
  simp only [hfix]
  have hmk : n2m (mkNote o L ['b'] c) = .ok (1200 * ((o : ℤ) + 1) + 100 * ci + c) := by
    have h := n2m_mkNote o ho L ['b'] c (by simpa using hnm)
    simp only [List.singleton_append] at h
    rw [hraw] at h
    exact h
  by_cases hpos : 0 < c
  · -- diatonic alteration c - 100 is above -100: the natural-spelling branch
    rw [if_pos (by rw [abs_lt]; omega : |(-100 : ℤ) + c| < 100)]
    by_cases hsmall : c < 50
    · rw [if_pos (by rw [abs_lt]; omega : |c| < 50)]
      exact ⟨_, rfl, rfl⟩
    · rw [if_neg (by rw [abs_lt]; omega), if_pos (by omega : 50 ≤ c)]
      refine ⟨_, rfl, ?_⟩
      rw [n2m_name _ _ _ _ hup (cents_repr_sufspec _), hmk, hupPc,
        if_pos (by simp : ([L, 'b'] : Str) ≠ ['B'])]
      congr 1
      omega
  · rw [if_neg (by rw [abs_lt]; omega), if_neg (by omega : ¬(100 : ℤ) ≤ -100 + c)]
    by_cases hsmall : -50 < c
    · rw [if_pos (by rw [abs_lt]; omega : |c| < 50)]
      refine ⟨_, rfl, ?_⟩
      rw [n2m_name _ _ _ _ hsh (cents_str_sufspec_fix _ c hfix), hmk, hshPc]
    · rw [if_neg (by rw [abs_lt]; omega), if_neg (by omega : ¬(50 ≤ c ∧ c < 100)),
        if_pos (by omega : -100 < c)]
      refine ⟨_, rfl, ?_⟩
      rw [n2m_name _ _ _ _ hdn (cents_repr_sufspec _), hmk, hdnPc]
      congr 1
      omega


/-- The letter/alteration combinations covered by the amended claim C1:
all single-alteration spellings except `B#` and `Cb`. -/
def enhInputs : List (Char × Str) :=
  [('C', []), ('D', []), ('E', []), ('F', []), ('G', []), ('A', []), ('B', []),
   ('C', ['#']), ('D', ['#']), ('E', ['#']), ('F', ['#']), ('G', ['#']), ('A', ['#']),
   ('D', ['b']), ('E', ['b']), ('F', ['b']), ('G', ['b']), ('A', ['b']), ('B', ['b'])]

/-- Cents ranges on which `enharmonic` raises no exception (the case
analysis is exhaustive and the accidental table is not exceeded). -/
def enhCentsOk (alt : Str) (c : ℤ) : Prop :=
  if alt = ['#'] then -199 ≤ c ∧ c ≤ 62
  else if alt = ['b'] then -62 ≤ c ∧ c ≤ 199
  else -99 ≤ c ∧ c ≤ 99

/-- Amended claim C1: for every notename with a single-digit octave, a
letter/alteration other than `B#`/`Cb`, a cents deviation inside the
ranges handled by the engine, and a cents value that survives the
binary64 round trip `int((c/100)*100) == c` (all cents except
`±29, ±57, ±58, ±113..±116` in these bands), `enharmonic` succeeds and
its result parses to the same midinote: `n2m(enharmonic(s)) == n2m(s)`.
At the excluded cents values the program returns a notename one cent
away (see `enharmonic_truncates_cents`). -/
theorem enharmonic_preserves_n2m (o : ℕ) (L : Char) (alt : Str) (c : ℤ)
    (ho : o ≤ 9)
    (hdom : (L, alt) ∈ enhInputs)
    (hc : enhCentsOk alt c) (hfix : pyT c = c) :
    ∃ t, enharmonic (mkNote o L alt c) = .ok t ∧
      n2m t = n2m (mkNote o L alt c) := by
  fin_cases hdom
  · simp only [enhCentsOk] at hc
    norm_num at hc
    exact enh_nat o ho 'C' c 0 (by decide) (by decide) (by decide) (by decide) (by decide)
      (by decide) (by decide) (by decide) (by decide) (by decide) (by decide) hc.1 hc.2 hfix
  · simp only [enhCentsOk] at hc
    norm_num at hc
    exact enh_nat o ho 'D' c 2 (by decide) (by decide) (by decide) (by decide) (by decide)
      (by decide) (by decide) (by decide) (by decide) (by decide) (by decide) hc.1 hc.2 hfix
  · simp only [enhCentsOk] at hc
    norm_num at hc
    exact enh_nat o ho 'E' c 4 (by decide) (by decide) (by decide) (by decide) (by decide)
      (by decide) (by decide) (by decide) (by decide) (by decide) (by decide) hc.1 hc.2 hfix
  · simp only [enhCentsOk] at hc
    norm_num at hc
    exact enh_nat o ho 'F' c 5 (by decide) (by decide) (by decide) (by decide) (by decide)
      (by decide) (by decide) (by decide) (by decide) (by decide) (by decide) hc.1 hc.2 hfix
  · simp only [enhCentsOk] at hc
    norm_num at hc
    exact enh_nat o ho 'G' c 7 (by decide) (by decide) (by decide) (by decide) (by decide)
      (by decide) (by decide) (by decide) (by decide) (by decide) (by decide) hc.1 hc.2 hfix
  · simp only [enhCentsOk] at hc
    norm_num at hc
    exact enh_nat o ho 'A' c 9 (by decide) (by decide) (by decide) (by decide) (by decide)
      (by decide) (by decide) (by decide) (by decide) (by decide) (by decide) hc.1 hc.2 hfix
  · simp only [enhCentsOk] at hc
    norm_num at hc
    exact enh_nat o ho 'B' c 11 (by decide) (by decide) (by decide) (by decide) (by decide)
      (by decide) (by decide) (by decide) (by decide) (by decide) (by decide) hc.1 hc.2 hfix
  · simp only [enhCentsOk] at hc
    norm_num at hc
    exact enh_sharp o ho 'C' c 1 (by decide) (by decide) (by decide) (by decide) (by decide)
      (by decide) (by decide) (by decide) (by decide) (by decide) (by decide) (by decide)
      (by decide) hc.1 hc.2 hfix
  · simp only [enhCentsOk] at hc
    norm_num at hc
    exact enh_sharp o ho 'D' c 3 (by decide) (by decide) (by decide) (by decide) (by decide)
      (by decide) (by decide) (by decide) (by decide) (by decide) (by decide) (by decide)
      (by decide) hc.1 hc.2 hfix
  · simp only [enhCentsOk] at hc
    norm_num at hc
    exact enh_sharp o ho 'E' c 5 (by decide) (by decide) (by decide) (by decide) (by decide)
      (by decide) (by decide) (by decide) (by decide) (by decide) (by decide) (by decide)
      (by decide) hc.1 hc.2 hfix
  · simp only [enhCentsOk] at hc
    norm_num at hc
    exact enh_sharp o ho 'F' c 6 (by decide) (by decide) (by decide) (by decide) (by decide)
      (by decide) (by decide) (by decide) (by decide) (by decide) (by decide) (by decide)
      (by decide) hc.1 hc.2 hfix
  · simp only [enhCentsOk] at hc
    norm_num at hc
    exact enh_sharp o ho 'G' c 8 (by decide) (by decide) (by decide) (by decide) (by decide)
      (by decide) (by decide) (by decide) (by decide) (by decide) (by decide) (by decide)
      (by decide) hc.1 hc.2 hfix
  · simp only [enhCentsOk] at hc
    norm_num at hc
    exact enh_sharp o ho 'A' c 10 (by decide) (by decide) (by decide) (by decide) (by decide)
      (by decide) (by decide) (by decide) (by decide) (by decide) (by decide) (by decide)
      (by decide) hc.1 hc.2 hfix
  · simp only [enhCentsOk] at hc
    norm_num at hc
    exact enh_flat o ho 'D' c 1 (by decide) (by decide) (by decide) (by decide) (by decide)
      (by decide) (by decide) (by decide) (by decide) (by decide) (by decide) (by decide)
      (by decide) hc.1 hc.2 hfix
  · simp only [enhCentsOk] at hc
    norm_num at hc
    exact enh_flat o ho 'E' c 3 (by decide) (by decide) (by decide) (by decide) (by decide)
      (by decide) (by decide) (by decide) (by decide) (by decide) (by decide) (by decide)
      (by decide) hc.1 hc.2 hfix
  · simp only [enhCentsOk] at hc
    norm_num at hc
    exact enh_flat o ho 'F' c 4 (by decide) (by decide) (by decide) (by decide) (by decide)
      (by decide) (by decide) (by decide) (by decide) (by decide) (by decide) (by decide)
      (by decide) hc.1 hc.2 hfix
  · simp only [enhCentsOk] at hc
    norm_num at hc
    exact enh_flat o ho 'G' c 6 (by decide) (by decide) (by decide) (by decide) (by decide)
      (by decide) (by decide) (by decide) (by decide) (by decide) (by decide) (by decide)
      (by decide) hc.1 hc.2 hfix
  · simp only [enhCentsOk] at hc
    norm_num at hc
    exact enh_flat o ho 'A' c 8 (by decide) (by decide) (by decide) (by decide) (by decide)
      (by decide) (by decide) (by decide) (by decide) (by decide) (by decide) (by decide)
      (by decide) hc.1 hc.2 hfix
  · simp only [enhCentsOk] at hc
    norm_num at hc
    exact enh_flat o ho 'B' c 10 (by decide) (by decide) (by decide) (by decide) (by decide)
      (by decide) (by decide) (by decide) (by decide) (by decide) (by decide) (by decide)
      (by decide) hc.1 hc.2 hfix


/-! ## The formatter/parser roundtrip on the eighth-tone grid -/

theorem m2n_of_parts (mc oc : ℤ) (nm sym : Str)
    (h : midi_to_note_parts true mc = (oc, nm, sym, 0)) :
    m2n mc = (intToStr oc ++ nm) ++ sym := by
  unfold m2n
  rw [h]
  norm_num

set_option maxHeartbeats 1000000 in
theorem m2n_grid_case (o ps r : ℤ) (ho : -1 ≤ o) (hps0 : 0 ≤ ps) (hps1 : ps ≤ 11)
    (hr : r = 0 ∨ r = 25 ∨ r = 50 ∨ r = 75) :
    n2m (m2n (1200 * (o + 1) + 100 * ps + r)) = .ok (1200 * (o + 1) + 100 * ps + r) := by
  rcases hr with rfl | rfl | rfl | rfl
  · interval_cases ps
    · have h0 : (0 : ℤ) ≤ 1200 * (o + 1) + 100 * 0 + 0 := by omega
      have hB : intHalfUp (1200 * (o + 1) + 100 * 0 + 0 - 100 * tdivZ (1200 * (o + 1) + 100 * 0 + 0) 100) = 0 := by
        unfold tdivZ intHalfUp
        rw [if_pos h0, if_pos (by omega)]
        omega
      have hC : tdivZ (1200 * (o + 1) + 100 * 0 + 0) 1200 - 1 = o := by
        unfold tdivZ
        rw [if_pos h0]
        omega
      have hD : (1200 * (o + 1) + 100 * 0 + 0 : ℤ) % 1200 / 100 = 0 := by omega
      have hparts : midi_to_note_parts true (1200 * (o + 1) + 100 * 0 + 0) = (o, ['C'], [], 0) := by
        simp only [midi_to_note_parts, hB, hC, hD]
        try norm_num [pyGet, sharpsTable, flatsTable]
        try decide
      rw [m2n_of_parts (1200 * (o + 1) + 100 * 0 + 0) o ['C'] [] hparts,
        n2m_name o ['C'] [] 0 (by decide) SufSpec.empty,
        show rawPc ['C'] = 0 from by decide]
      try (congr 1; omega)
    · have h0 : (0 : ℤ) ≤ 1200 * (o + 1) + 100 * 1 + 0 := by omega
      have hB : intHalfUp (1200 * (o + 1) + 100 * 1 + 0 - 100 * tdivZ (1200 * (o + 1) + 100 * 1 + 0) 100) = 0 := by
        unfold tdivZ intHalfUp
        rw [if_pos h0, if_pos (by omega)]
        omega
      have hC : tdivZ (1200 * (o + 1) + 100 * 1 + 0) 1200 - 1 = o := by
        unfold tdivZ
        rw [if_pos h0]
        omega
      have hD : (1200 * (o + 1) + 100 * 1 + 0 : ℤ) % 1200 / 100 = 1 := by omega
      have hparts : midi_to_note_parts true (1200 * (o + 1) + 100 * 1 + 0) = (o, ['C','#'], [], 0) := by
        simp only [midi_to_note_parts, hB, hC, hD]
        try norm_num [pyGet, sharpsTable, flatsTable]
        try decide
      rw [m2n_of_parts (1200 * (o + 1) + 100 * 1 + 0) o ['C','#'] [] hparts,
        n2m_name o ['C','#'] [] 0 (by decide) SufSpec.empty,
        show rawPc ['C','#'] = 1 from by decide]
      try (congr 1; omega)
    · have h0 : (0 : ℤ) ≤ 1200 * (o + 1) + 100 * 2 + 0 := by omega
      have hB : intHalfUp (1200 * (o + 1) + 100 * 2 + 0 - 100 * tdivZ (1200 * (o + 1) + 100 * 2 + 0) 100) = 0 := by
        unfold tdivZ intHalfUp
        rw [if_pos h0, if_pos (by omega)]
        omega
      have hC : tdivZ (1200 * (o + 1) + 100 * 2 + 0) 1200 - 1 = o := by
        unfold tdivZ
        rw [if_pos h0]
        omega
      have hD : (1200 * (o + 1) + 100 * 2 + 0 : ℤ) % 1200 / 100 = 2 := by omega
      have hparts : midi_to_note_parts true (1200 * (o + 1) + 100 * 2 + 0) = (o, ['D'], [], 0) := by
        simp only [midi_to_note_parts, hB, hC, hD]
        try norm_num [pyGet, sharpsTable, flatsTable]
        try decide
      rw [m2n_of_parts (1200 * (o + 1) + 100 * 2 + 0) o ['D'] [] hparts,
        n2m_name o ['D'] [] 0 (by decide) SufSpec.empty,
        show rawPc ['D'] = 2 from by decide]
      try (congr 1; omega)
    · have h0 : (0 : ℤ) ≤ 1200 * (o + 1) + 100 * 3 + 0 := by omega
      have hB : intHalfUp (1200 * (o + 1) + 100 * 3 + 0 - 100 * tdivZ (1200 * (o + 1) + 100 * 3 + 0) 100) = 0 := by
        unfold tdivZ intHalfUp
        rw [if_pos h0, if_pos (by omega)]
        omega
      have hC : tdivZ (1200 * (o + 1) + 100 * 3 + 0) 1200 - 1 = o := by
        unfold tdivZ
        rw [if_pos h0]
        omega
      have hD : (1200 * (o + 1) + 100 * 3 + 0 : ℤ) % 1200 / 100 = 3 := by omega
      have hparts : midi_to_note_parts true (1200 * (o + 1) + 100 * 3 + 0) = (o, ['D','#'], [], 0) := by
        simp only [midi_to_note_parts, hB, hC, hD]
        try norm_num [pyGet, sharpsTable, flatsTable]
        try decide
      rw [m2n_of_parts (1200 * (o + 1) + 100 * 3 + 0) o ['D','#'] [] hparts,
        n2m_name o ['D','#'] [] 0 (by decide) SufSpec.empty,
        show rawPc ['D','#'] = 3 from by decide]
      try (congr 1; omega)
    · have h0 : (0 : ℤ) ≤ 1200 * (o + 1) + 100 * 4 + 0 := by omega
      have hB : intHalfUp (1200 * (o + 1) + 100 * 4 + 0 - 100 * tdivZ (1200 * (o + 1) + 100 * 4 + 0) 100) = 0 := by
        unfold tdivZ intHalfUp
        rw [if_pos h0, if_pos (by omega)]
        omega
      have hC : tdivZ (1200 * (o + 1) + 100 * 4 + 0) 1200 - 1 = o := by
        unfold tdivZ
        rw [if_pos h0]
        omega
      have hD : (1200 * (o + 1) + 100 * 4 + 0 : ℤ) % 1200 / 100 = 4 := by omega
      have hparts : midi_to_note_parts true (1200 * (o + 1) + 100 * 4 + 0) = (o, ['E'], [], 0) := by
        simp only [midi_to_note_parts, hB, hC, hD]
        try norm_num [pyGet, sharpsTable, flatsTable]
        try decide
      rw [m2n_of_parts (1200 * (o + 1) + 100 * 4 + 0) o ['E'] [] hparts,
        n2m_name o ['E'] [] 0 (by decide) SufSpec.empty,
        show rawPc ['E'] = 4 from by decide]
      try (congr 1; omega)
    · have h0 : (0 : ℤ) ≤ 1200 * (o + 1) + 100 * 5 + 0 := by omega
      have hB : intHalfUp (1200 * (o + 1) + 100 * 5 + 0 - 100 * tdivZ (1200 * (o + 1) + 100 * 5 + 0) 100) = 0 := by
        unfold tdivZ intHalfUp
        rw [if_pos h0, if_pos (by omega)]
        omega
      have hC : tdivZ (1200 * (o + 1) + 100 * 5 + 0) 1200 - 1 = o := by
        unfold tdivZ
        rw [if_pos h0]
        omega
      have hD : (1200 * (o + 1) + 100 * 5 + 0 : ℤ) % 1200 / 100 = 5 := by omega
      have hparts : midi_to_note_parts true (1200 * (o + 1) + 100 * 5 + 0) = (o, ['F'], [], 0) := by
        simp only [midi_to_note_parts, hB, hC, hD]
        try norm_num [pyGet, sharpsTable, flatsTable]
        try decide
      rw [m2n_of_parts (1200 * (o + 1) + 100 * 5 + 0) o ['F'] [] hparts,
        n2m_name o ['F'] [] 0 (by decide) SufSpec.empty,
        show rawPc ['F'] = 5 from by decide]
      try (congr 1; omega)
    · have h0 : (0 : ℤ) ≤ 1200 * (o + 1) + 100 * 6 + 0 := by omega
      have hB : intHalfUp (1200 * (o + 1) + 100 * 6 + 0 - 100 * tdivZ (1200 * (o + 1) + 100 * 6 + 0) 100) = 0 := by
        unfold tdivZ intHalfUp
        rw [if_pos h0, if_pos (by omega)]
        omega
      have hC : tdivZ (1200 * (o + 1) + 100 * 6 + 0) 1200 - 1 = o := by
        unfold tdivZ
        rw [if_pos h0]
        omega
      have hD : (1200 * (o + 1) + 100 * 6 + 0 : ℤ) % 1200 / 100 = 6 := by omega
      have hparts : midi_to_note_parts true (1200 * (o + 1) + 100 * 6 + 0) = (o, ['F','#'], [], 0) := by
        simp only [midi_to_note_parts, hB, hC, hD]
        try norm_num [pyGet, sharpsTable, flatsTable]
        try decide
      rw [m2n_of_parts (1200 * (o + 1) + 100 * 6 + 0) o ['F','#'] [] hparts,
        n2m_name o ['F','#'] [] 0 (by decide) SufSpec.empty,
        show rawPc ['F','#'] = 6 from by decide]
      try (congr 1; omega)
    · have h0 : (0 : ℤ) ≤ 1200 * (o + 1) + 100 * 7 + 0 := by omega
      have hB : intHalfUp (1200 * (o + 1) + 100 * 7 + 0 - 100 * tdivZ (1200 * (o + 1) + 100 * 7 + 0) 100) = 0 := by
        unfold tdivZ intHalfUp
        rw [if_pos h0, if_pos (by omega)]
        omega
      have hC : tdivZ (1200 * (o + 1) + 100 * 7 + 0) 1200 - 1 = o := by
        unfold tdivZ
        rw [if_pos h0]
        omega
      have hD : (1200 * (o + 1) + 100 * 7 + 0 : ℤ) % 1200 / 100 = 7 := by omega
      have hparts : midi_to_note_parts true (1200 * (o + 1) + 100 * 7 + 0) = (o, ['G'], [], 0) := by
        simp only [midi_to_note_parts, hB, hC, hD]
        try norm_num [pyGet, sharpsTable, flatsTable]
        try decide
      rw [m2n_of_parts (1200 * (o + 1) + 100 * 7 + 0) o ['G'] [] hparts,
        n2m_name o ['G'] [] 0 (by decide) SufSpec.empty,
        show rawPc ['G'] = 7 from by decide]
      try (congr 1; omega)
    · have h0 : (0 : ℤ) ≤ 1200 * (o + 1) + 100 * 8 + 0 := by omega
      have hB : intHalfUp (1200 * (o + 1) + 100 * 8 + 0 - 100 * tdivZ (1200 * (o + 1) + 100 * 8 + 0) 100) = 0 := by
        unfold tdivZ intHalfUp
        rw [if_pos h0, if_pos (by omega)]
        omega
      have hC : tdivZ (1200 * (o + 1) + 100 * 8 + 0) 1200 - 1 = o := by
        unfold tdivZ
        rw [if_pos h0]
        omega
      have hD : (1200 * (o + 1) + 100 * 8 + 0 : ℤ) % 1200 / 100 = 8 := by omega
      have hparts : midi_to_note_parts true (1200 * (o + 1) + 100 * 8 + 0) = (o, ['G','#'], [], 0) := by
        simp only [midi_to_note_parts, hB, hC, hD]
        try norm_num [pyGet, sharpsTable, flatsTable]
        try decide
      rw [m2n_of_parts (1200 * (o + 1) + 100 * 8 + 0) o ['G','#'] [] hparts,
        n2m_name o ['G','#'] [] 0 (by decide) SufSpec.empty,
        show rawPc ['G','#'] = 8 from by decide]
      try (congr 1; omega)
    · have h0 : (0 : ℤ) ≤ 1200 * (o + 1) + 100 * 9 + 0 := by omega
      have hB : intHalfUp (1200 * (o + 1) + 100 * 9 + 0 - 100 * tdivZ (1200 * (o + 1) + 100 * 9 + 0) 100) = 0 := by
        unfold tdivZ intHalfUp
        rw [if_pos h0, if_pos (by omega)]
        omega
      have hC : tdivZ (1200 * (o + 1) + 100 * 9 + 0) 1200 - 1 = o := by
        unfold tdivZ
        rw [if_pos h0]
        omega
      have hD : (1200 * (o + 1) + 100 * 9 + 0 : ℤ) % 1200 / 100 = 9 := by omega
      have hparts : midi_to_note_parts true (1200 * (o + 1) + 100 * 9 + 0) = (o, ['A'], [], 0) := by
        simp only [midi_to_note_parts, hB, hC, hD]
        try norm_num [pyGet, sharpsTable, flatsTable]
        try decide
      rw [m2n_of_parts (1200 * (o + 1) + 100 * 9 + 0) o ['A'] [] hparts,
        n2m_name o ['A'] [] 0 (by decide) SufSpec.empty,
        show rawPc ['A'] = 9 from by decide]
      try (congr 1; omega)
    · have h0 : (0 : ℤ) ≤ 1200 * (o + 1) + 100 * 10 + 0 := by omega
      have hB : intHalfUp (1200 * (o + 1) + 100 * 10 + 0 - 100 * tdivZ (1200 * (o + 1) + 100 * 10 + 0) 100) = 0 := by
        unfold tdivZ intHalfUp
        rw [if_pos h0, if_pos (by omega)]
        omega
      have hC : tdivZ (1200 * (o + 1) + 100 * 10 + 0) 1200 - 1 = o := by
        unfold tdivZ
        rw [if_pos h0]
        omega
      have hD : (1200 * (o + 1) + 100 * 10 + 0 : ℤ) % 1200 / 100 = 10 := by omega
      have hparts : midi_to_note_parts true (1200 * (o + 1) + 100 * 10 + 0) = (o, ['A','#'], [], 0) := by
        simp only [midi_to_note_parts, hB, hC, hD]
        try norm_num [pyGet, sharpsTable, flatsTable]
        try decide
      rw [m2n_of_parts (1200 * (o + 1) + 100 * 10 + 0) o ['A','#'] [] hparts,
        n2m_name o ['A','#'] [] 0 (by decide) SufSpec.empty,
        show rawPc ['A','#'] = 10 from by decide]
      try (congr 1; omega)
    · have h0 : (0 : ℤ) ≤ 1200 * (o + 1) + 100 * 11 + 0 := by omega
      have hB : intHalfUp (1200 * (o + 1) + 100 * 11 + 0 - 100 * tdivZ (1200 * (o + 1) + 100 * 11 + 0) 100) = 0 := by
        unfold tdivZ intHalfUp
        rw [if_pos h0, if_pos (by omega)]
        omega
      have hC : tdivZ (1200 * (o + 1) + 100 * 11 + 0) 1200 - 1 = o := by
        unfold tdivZ
        rw [if_pos h0]
        omega
      have hD : (1200 * (o + 1) + 100 * 11 + 0 : ℤ) % 1200 / 100 = 11 := by omega
      have hparts : midi_to_note_parts true (1200 * (o + 1) + 100 * 11 + 0) = (o, ['B'], [], 0) := by
        simp only [midi_to_note_parts, hB, hC, hD]
        try norm_num [pyGet, sharpsTable, flatsTable]
        try decide
      rw [m2n_of_parts (1200 * (o + 1) + 100 * 11 + 0) o ['B'] [] hparts,
        n2m_name o ['B'] [] 0 (by decide) SufSpec.empty,
        show rawPc ['B'] = 11 from by decide]
      try (congr 1; omega)
  · interval_cases ps
    · have h0 : (0 : ℤ) ≤ 1200 * (o + 1) + 100 * 0 + 25 := by omega
      have hB : intHalfUp (1200 * (o + 1) + 100 * 0 + 25 - 100 * tdivZ (1200 * (o + 1) + 100 * 0 + 25) 100) = 25 := by
        unfold tdivZ intHalfUp
        rw [if_pos h0, if_pos (by omega)]
        omega
      have hC : tdivZ (1200 * (o + 1) + 100 * 0 + 25) 1200 - 1 = o := by
        unfold tdivZ
        rw [if_pos h0]
        omega
      have hD : (1200 * (o + 1) + 100 * 0 + 25 : ℤ) % 1200 / 100 = 0 := by omega
      have hparts : midi_to_note_parts true (1200 * (o + 1) + 100 * 0 + 25) = (o, ['C'], ['>'], 0) := by
        simp only [midi_to_note_parts, hB, hC, hD]
        try norm_num [pyGet, sharpsTable, flatsTable]
        try decide
      rw [m2n_of_parts (1200 * (o + 1) + 100 * 0 + 25) o ['C'] ['>'] hparts,
        n2m_name o ['C'] ['>'] 25 (by decide) SufSpec.up,
        show rawPc ['C'] = 0 from by decide]
      try (congr 1; omega)
    · have h0 : (0 : ℤ) ≤ 1200 * (o + 1) + 100 * 1 + 25 := by omega
      have hB : intHalfUp (1200 * (o + 1) + 100 * 1 + 25 - 100 * tdivZ (1200 * (o + 1) + 100 * 1 + 25) 100) = 25 := by
        unfold tdivZ intHalfUp
        rw [if_pos h0, if_pos (by omega)]
        omega
      have hC : tdivZ (1200 * (o + 1) + 100 * 1 + 25) 1200 - 1 = o := by
        unfold tdivZ
        rw [if_pos h0]
        omega
      have hD : (1200 * (o + 1) + 100 * 1 + 25 : ℤ) % 1200 / 100 = 1 := by omega
      have hparts : midi_to_note_parts true (1200 * (o + 1) + 100 * 1 + 25) = (o, ['C','#'], ['>'], 0) := by
        simp only [midi_to_note_parts, hB, hC, hD]
        try norm_num [pyGet, sharpsTable, flatsTable]
        try decide
      rw [m2n_of_parts (1200 * (o + 1) + 100 * 1 + 25) o ['C','#'] ['>'] hparts,
        n2m_name o ['C','#'] ['>'] 25 (by decide) SufSpec.up,
        show rawPc ['C','#'] = 1 from by decide]
      try (congr 1; omega)
    · have h0 : (0 : ℤ) ≤ 1200 * (o + 1) + 100 * 2 + 25 := by omega
      have hB : intHalfUp (1200 * (o + 1) + 100 * 2 + 25 - 100 * tdivZ (1200 * (o + 1) + 100 * 2 + 25) 100) = 25 := by
        unfold tdivZ intHalfUp
        rw [if_pos h0, if_pos (by omega)]
        omega
      have hC : tdivZ (1200 * (o + 1) + 100 * 2 + 25) 1200 - 1 = o := by
        unfold tdivZ
        rw [if_pos h0]
        omega
      have hD : (1200 * (o + 1) + 100 * 2 + 25 : ℤ) % 1200 / 100 = 2 := by omega
      have hparts : midi_to_note_parts true (1200 * (o + 1) + 100 * 2 + 25) = (o, ['D'], ['>'], 0) := by
        simp only [midi_to_note_parts, hB, hC, hD]
        try norm_num [pyGet, sharpsTable, flatsTable]
        try decide
      rw [m2n_of_parts (1200 * (o + 1) + 100 * 2 + 25) o ['D'] ['>'] hparts,
        n2m_name o ['D'] ['>'] 25 (by decide) SufSpec.up,
        show rawPc ['D'] = 2 from by decide]
      try (congr 1; omega)
    · have h0 : (0 : ℤ) ≤ 1200 * (o + 1) + 100 * 3 + 25 := by omega
      have hB : intHalfUp (1200 * (o + 1) + 100 * 3 + 25 - 100 * tdivZ (1200 * (o + 1) + 100 * 3 + 25) 100) = 25 := by
        unfold tdivZ intHalfUp
        rw [if_pos h0, if_pos (by omega)]
        omega
      have hC : tdivZ (1200 * (o + 1) + 100 * 3 + 25) 1200 - 1 = o := by
        unfold tdivZ
        rw [if_pos h0]
        omega
      have hD : (1200 * (o + 1) + 100 * 3 + 25 : ℤ) % 1200 / 100 = 3 := by omega
      have hparts : midi_to_note_parts true (1200 * (o + 1) + 100 * 3 + 25) = (o, ['D','#'], ['>'], 0) := by
        simp only [midi_to_note_parts, hB, hC, hD]
        try norm_num [pyGet, sharpsTable, flatsTable]
        try decide
      rw [m2n_of_parts (1200 * (o + 1) + 100 * 3 + 25) o ['D','#'] ['>'] hparts,
        n2m_name o ['D','#'] ['>'] 25 (by decide) SufSpec.up,
        show rawPc ['D','#'] = 3 from by decide]
      try (congr 1; omega)
    · have h0 : (0 : ℤ) ≤ 1200 * (o + 1) + 100 * 4 + 25 := by omega
      have hB : intHalfUp (1200 * (o + 1) + 100 * 4 + 25 - 100 * tdivZ (1200 * (o + 1) + 100 * 4 + 25) 100) = 25 := by
        unfold tdivZ intHalfUp
        rw [if_pos h0, if_pos (by omega)]
        omega
      have hC : tdivZ (1200 * (o + 1) + 100 * 4 + 25) 1200 - 1 = o := by
        unfold tdivZ
        rw [if_pos h0]
        omega
      have hD : (1200 * (o + 1) + 100 * 4 + 25 : ℤ) % 1200 / 100 = 4 := by omega
      have hparts : midi_to_note_parts true (1200 * (o + 1) + 100 * 4 + 25) = (o, ['E'], ['>'], 0) := by
        simp only [midi_to_note_parts, hB, hC, hD]
        try norm_num [pyGet, sharpsTable, flatsTable]
        try decide
      rw [m2n_of_parts (1200 * (o + 1) + 100 * 4 + 25) o ['E'] ['>'] hparts,
        n2m_name o ['E'] ['>'] 25 (by decide) SufSpec.up,
        show rawPc ['E'] = 4 from by decide]
      try (congr 1; omega)
    · have h0 : (0 : ℤ) ≤ 1200 * (o + 1) + 100 * 5 + 25 := by omega
      have hB : intHalfUp (1200 * (o + 1) + 100 * 5 + 25 - 100 * tdivZ (1200 * (o + 1) + 100 * 5 + 25) 100) = 25 := by
        unfold tdivZ intHalfUp
        rw [if_pos h0, if_pos (by omega)]
        omega
      have hC : tdivZ (1200 * (o + 1) + 100 * 5 + 25) 1200 - 1 = o := by
        unfold tdivZ
        rw [if_pos h0]
        omega
      have hD : (1200 * (o + 1) + 100 * 5 + 25 : ℤ) % 1200 / 100 = 5 := by omega
      have hparts : midi_to_note_parts true (1200 * (o + 1) + 100 * 5 + 25) = (o, ['F'], ['>'], 0) := by
        simp only [midi_to_note_parts, hB, hC, hD]
        try norm_num [pyGet, sharpsTable, flatsTable]
        try decide
      rw [m2n_of_parts (1200 * (o + 1) + 100 * 5 + 25) o ['F'] ['>'] hparts,
        n2m_name o ['F'] ['>'] 25 (by decide) SufSpec.up,
        show rawPc ['F'] = 5 from by decide]
      try (congr 1; omega)
    · have h0 : (0 : ℤ) ≤ 1200 * (o + 1) + 100 * 6 + 25 := by omega
      have hB : intHalfUp (1200 * (o + 1) + 100 * 6 + 25 - 100 * tdivZ (1200 * (o + 1) + 100 * 6 + 25) 100) = 25 := by
        unfold tdivZ intHalfUp
        rw [if_pos h0, if_pos (by omega)]
        omega
      have hC : tdivZ (1200 * (o + 1) + 100 * 6 + 25) 1200 - 1 = o := by
        unfold tdivZ
        rw [if_pos h0]
        omega
      have hD : (1200 * (o + 1) + 100 * 6 + 25 : ℤ) % 1200 / 100 = 6 := by omega
      have hparts : midi_to_note_parts true (1200 * (o + 1) + 100 * 6 + 25) = (o, ['G','b'], ['>'], 0) := by
        simp only [midi_to_note_parts, hB, hC, hD]
        try norm_num [pyGet, sharpsTable, flatsTable]
        try decide
      rw [m2n_of_parts (1200 * (o + 1) + 100 * 6 + 25) o ['G','b'] ['>'] hparts,
        n2m_name o ['G','b'] ['>'] 25 (by decide) SufSpec.up,
        show rawPc ['G','b'] = 6 from by decide]
      try (congr 1; omega)
    · have h0 : (0 : ℤ) ≤ 1200 * (o + 1) + 100 * 7 + 25 := by omega
      have hB : intHalfUp (1200 * (o + 1) + 100 * 7 + 25 - 100 * tdivZ (1200 * (o + 1) + 100 * 7 + 25) 100) = 25 := by
        unfold tdivZ intHalfUp
        rw [if_pos h0, if_pos (by omega)]
        omega
      have hC : tdivZ (1200 * (o + 1) + 100 * 7 + 25) 1200 - 1 = o := by
        unfold tdivZ
        rw [if_pos h0]
        omega
      have hD : (1200 * (o + 1) + 100 * 7 + 25 : ℤ) % 1200 / 100 = 7 := by omega
      have hparts : midi_to_note_parts true (1200 * (o + 1) + 100 * 7 + 25) = (o, ['G'], ['>'], 0) := by
        simp only [midi_to_note_parts, hB, hC, hD]
        try norm_num [pyGet, sharpsTable, flatsTable]
        try decide
      rw [m2n_of_parts (1200 * (o + 1) + 100 * 7 + 25) o ['G'] ['>'] hparts,
        n2m_name o ['G'] ['>'] 25 (by decide) SufSpec.up,
        show rawPc ['G'] = 7 from by decide]
      try (congr 1; omega)
    · have h0 : (0 : ℤ) ≤ 1200 * (o + 1) + 100 * 8 + 25 := by omega
      have hB : intHalfUp (1200 * (o + 1) + 100 * 8 + 25 - 100 * tdivZ (1200 * (o + 1) + 100 * 8 + 25) 100) = 25 := by
        unfold tdivZ intHalfUp
        rw [if_pos h0, if_pos (by omega)]
        omega
      have hC : tdivZ (1200 * (o + 1) + 100 * 8 + 25) 1200 - 1 = o := by
        unfold tdivZ
        rw [if_pos h0]
        omega
      have hD : (1200 * (o + 1) + 100 * 8 + 25 : ℤ) % 1200 / 100 = 8 := by omega
      have hparts : midi_to_note_parts true (1200 * (o + 1) + 100 * 8 + 25) = (o, ['G','#'], ['>'], 0) := by
        simp only [midi_to_note_parts, hB, hC, hD]
        try norm_num [pyGet, sharpsTable, flatsTable]
        try decide
      rw [m2n_of_parts (1200 * (o + 1) + 100 * 8 + 25) o ['G','#'] ['>'] hparts,
        n2m_name o ['G','#'] ['>'] 25 (by decide) SufSpec.up,
        show rawPc ['G','#'] = 8 from by decide]
      try (congr 1; omega)
    · have h0 : (0 : ℤ) ≤ 1200 * (o + 1) + 100 * 9 + 25 := by omega
      have hB : intHalfUp (1200 * (o + 1) + 100 * 9 + 25 - 100 * tdivZ (1200 * (o + 1) + 100 * 9 + 25) 100) = 25 := by
        unfold tdivZ intHalfUp
        rw [if_pos h0, if_pos (by omega)]
        omega
      have hC : tdivZ (1200 * (o + 1) + 100 * 9 + 25) 1200 - 1 = o := by
        unfold tdivZ
        rw [if_pos h0]
        omega
      have hD : (1200 * (o + 1) + 100 * 9 + 25 : ℤ) % 1200 / 100 = 9 := by omega
      have hparts : midi_to_note_parts true (1200 * (o + 1) + 100 * 9 + 25) = (o, ['A'], ['>'], 0) := by
        simp only [midi_to_note_parts, hB, hC, hD]
        try norm_num [pyGet, sharpsTable, flatsTable]
        try decide
      rw [m2n_of_parts (1200 * (o + 1) + 100 * 9 + 25) o ['A'] ['>'] hparts,
        n2m_name o ['A'] ['>'] 25 (by decide) SufSpec.up,
        show rawPc ['A'] = 9 from by decide]
      try (congr 1; omega)
    · have h0 : (0 : ℤ) ≤ 1200 * (o + 1) + 100 * 10 + 25 := by omega
      have hB : intHalfUp (1200 * (o + 1) + 100 * 10 + 25 - 100 * tdivZ (1200 * (o + 1) + 100 * 10 + 25) 100) = 25 := by
        unfold tdivZ intHalfUp
        rw [if_pos h0, if_pos (by omega)]
        omega
      have hC : tdivZ (1200 * (o + 1) + 100 * 10 + 25) 1200 - 1 = o := by
        unfold tdivZ
        rw [if_pos h0]
        omega
      have hD : (1200 * (o + 1) + 100 * 10 + 25 : ℤ) % 1200 / 100 = 10 := by omega
      have hparts : midi_to_note_parts true (1200 * (o + 1) + 100 * 10 + 25) = (o, ['B','b'], ['>'], 0) := by
        simp only [midi_to_note_parts, hB, hC, hD]
        try norm_num [pyGet, sharpsTable, flatsTable]
        try decide
      rw [m2n_of_parts (1200 * (o + 1) + 100 * 10 + 25) o ['B','b'] ['>'] hparts,
        n2m_name o ['B','b'] ['>'] 25 (by decide) SufSpec.up,
        show rawPc ['B','b'] = 10 from by decide]
      try (congr 1; omega)
    · have h0 : (0 : ℤ) ≤ 1200 * (o + 1) + 100 * 11 + 25 := by omega
      have hB : intHalfUp (1200 * (o + 1) + 100 * 11 + 25 - 100 * tdivZ (1200 * (o + 1) + 100 * 11 + 25) 100) = 25 := by
        unfold tdivZ intHalfUp
        rw [if_pos h0, if_pos (by omega)]
        omega
      have hC : tdivZ (1200 * (o + 1) + 100 * 11 + 25) 1200 - 1 = o := by
        unfold tdivZ
        rw [if_pos h0]
        omega
      have hD : (1200 * (o + 1) + 100 * 11 + 25 : ℤ) % 1200 / 100 = 11 := by omega
      have hparts : midi_to_note_parts true (1200 * (o + 1) + 100 * 11 + 25) = (o, ['B'], ['>'], 0) := by
        simp only [midi_to_note_parts, hB, hC, hD]
        try norm_num [pyGet, sharpsTable, flatsTable]
        try decide
      rw [m2n_of_parts (1200 * (o + 1) + 100 * 11 + 25) o ['B'] ['>'] hparts,
        n2m_name o ['B'] ['>'] 25 (by decide) SufSpec.up,
        show rawPc ['B'] = 11 from by decide]
      try (congr 1; omega)
  · interval_cases ps
    · have h0 : (0 : ℤ) ≤ 1200 * (o + 1) + 100 * 0 + 50 := by omega
      have hB : intHalfUp (1200 * (o + 1) + 100 * 0 + 50 - 100 * tdivZ (1200 * (o + 1) + 100 * 0 + 50) 100) = 50 := by
        unfold tdivZ intHalfUp
        rw [if_pos h0, if_pos (by omega)]
        omega
      have hC : tdivZ (1200 * (o + 1) + 100 * 0 + 50) 1200 - 1 = o := by
        unfold tdivZ
        rw [if_pos h0]
        omega
      have hD : (1200 * (o + 1) + 100 * 0 + 50 : ℤ) % 1200 / 100 = 0 := by omega
      have hparts : midi_to_note_parts true (1200 * (o + 1) + 100 * 0 + 50) = (o, ['C'], ['+'], 0) := by
        simp only [midi_to_note_parts, hB, hC, hD]
        try norm_num [pyGet, sharpsTable, flatsTable]
        try decide
      rw [m2n_of_parts (1200 * (o + 1) + 100 * 0 + 50) o ['C'] ['+'] hparts,
        n2m_name o ['C'] ['+'] 50 (by decide) SufSpec.plus,
        show rawPc ['C'] = 0 from by decide]
      try (congr 1; omega)
    · have h0 : (0 : ℤ) ≤ 1200 * (o + 1) + 100 * 1 + 50 := by omega
      have hB : intHalfUp (1200 * (o + 1) + 100 * 1 + 50 - 100 * tdivZ (1200 * (o + 1) + 100 * 1 + 50) 100) = 50 := by
        unfold tdivZ intHalfUp
        rw [if_pos h0, if_pos (by omega)]
        omega
      have hC : tdivZ (1200 * (o + 1) + 100 * 1 + 50) 1200 - 1 = o := by
        unfold tdivZ
        rw [if_pos h0]
        omega
      have hD : (1200 * (o + 1) + 100 * 1 + 50 : ℤ) % 1200 / 100 = 1 := by omega
      have hparts : midi_to_note_parts true (1200 * (o + 1) + 100 * 1 + 50) = (o, ['D'], ['-'], 0) := by
        simp only [midi_to_note_parts, hB, hC, hD]
        try norm_num [pyGet, sharpsTable, flatsTable]
        try decide
      rw [m2n_of_parts (1200 * (o + 1) + 100 * 1 + 50) o ['D'] ['-'] hparts,
        n2m_name o ['D'] ['-'] (-50) (by decide) SufSpec.minus,
        show rawPc ['D'] = 2 from by decide]
      try (congr 1; omega)
    · have h0 : (0 : ℤ) ≤ 1200 * (o + 1) + 100 * 2 + 50 := by omega
      have hB : intHalfUp (1200 * (o + 1) + 100 * 2 + 50 - 100 * tdivZ (1200 * (o + 1) + 100 * 2 + 50) 100) = 50 := by
        unfold tdivZ intHalfUp
        rw [if_pos h0, if_pos (by omega)]
        omega
      have hC : tdivZ (1200 * (o + 1) + 100 * 2 + 50) 1200 - 1 = o := by
        unfold tdivZ
        rw [if_pos h0]
        omega
      have hD : (1200 * (o + 1) + 100 * 2 + 50 : ℤ) % 1200 / 100 = 2 := by omega
      have hparts : midi_to_note_parts true (1200 * (o + 1) + 100 * 2 + 50) = (o, ['D'], ['+'], 0) := by
        simp only [midi_to_note_parts, hB, hC, hD]
        try norm_num [pyGet, sharpsTable, flatsTable]
        try decide
      rw [m2n_of_parts (1200 * (o + 1) + 100 * 2 + 50) o ['D'] ['+'] hparts,
        n2m_name o ['D'] ['+'] 50 (by decide) SufSpec.plus,
        show rawPc ['D'] = 2 from by decide]
      try (congr 1; omega)
    · have h0 : (0 : ℤ) ≤ 1200 * (o + 1) + 100 * 3 + 50 := by omega
      have hB : intHalfUp (1200 * (o + 1) + 100 * 3 + 50 - 100 * tdivZ (1200 * (o + 1) + 100 * 3 + 50) 100) = 50 := by
        unfold tdivZ intHalfUp
        rw [if_pos h0, if_pos (by omega)]
        omega
      have hC : tdivZ (1200 * (o + 1) + 100 * 3 + 50) 1200 - 1 = o := by
        unfold tdivZ
        rw [if_pos h0]
        omega
      have hD : (1200 * (o + 1) + 100 * 3 + 50 : ℤ) % 1200 / 100 = 3 := by omega
      have hparts : midi_to_note_parts true (1200 * (o + 1) + 100 * 3 + 50) = (o, ['E'], ['-'], 0) := by
        simp only [midi_to_note_parts, hB, hC, hD]
        try norm_num [pyGet, sharpsTable, flatsTable]
        try decide
      rw [m2n_of_parts (1200 * (o + 1) + 100 * 3 + 50) o ['E'] ['-'] hparts,
        n2m_name o ['E'] ['-'] (-50) (by decide) SufSpec.minus,
        show rawPc ['E'] = 4 from by decide]
      try (congr 1; omega)
    · have h0 : (0 : ℤ) ≤ 1200 * (o + 1) + 100 * 4 + 50 := by omega
      have hB : intHalfUp (1200 * (o + 1) + 100 * 4 + 50 - 100 * tdivZ (1200 * (o + 1) + 100 * 4 + 50) 100) = 50 := by
        unfold tdivZ intHalfUp
        rw [if_pos h0, if_pos (by omega)]
        omega
      have hC : tdivZ (1200 * (o + 1) + 100 * 4 + 50) 1200 - 1 = o := by
        unfold tdivZ
        rw [if_pos h0]
        omega
      have hD : (1200 * (o + 1) + 100 * 4 + 50 : ℤ) % 1200 / 100 = 4 := by omega
      have hparts : midi_to_note_parts true (1200 * (o + 1) + 100 * 4 + 50) = (o, ['E'], ['+'], 0) := by
        simp only [midi_to_note_parts, hB, hC, hD]
        try norm_num [pyGet, sharpsTable, flatsTable]
        try decide
      rw [m2n_of_parts (1200 * (o + 1) + 100 * 4 + 50) o ['E'] ['+'] hparts,
        n2m_name o ['E'] ['+'] 50 (by decide) SufSpec.plus,
        show rawPc ['E'] = 4 from by decide]
      try (congr 1; omega)
    · have h0 : (0 : ℤ) ≤ 1200 * (o + 1) + 100 * 5 + 50 := by omega
      have hB : intHalfUp (1200 * (o + 1) + 100 * 5 + 50 - 100 * tdivZ (1200 * (o + 1) + 100 * 5 + 50) 100) = 50 := by
        unfold tdivZ intHalfUp
        rw [if_pos h0, if_pos (by omega)]
        omega
      have hC : tdivZ (1200 * (o + 1) + 100 * 5 + 50) 1200 - 1 = o := by
        unfold tdivZ
        rw [if_pos h0]
        omega
      have hD : (1200 * (o + 1) + 100 * 5 + 50 : ℤ) % 1200 / 100 = 5 := by omega
      have hparts : midi_to_note_parts true (1200 * (o + 1) + 100 * 5 + 50) = (o, ['F'], ['+'], 0) := by
        simp only [midi_to_note_parts, hB, hC, hD]
        try norm_num [pyGet, sharpsTable, flatsTable]
        try decide
      rw [m2n_of_parts (1200 * (o + 1) + 100 * 5 + 50) o ['F'] ['+'] hparts,
        n2m_name o ['F'] ['+'] 50 (by decide) SufSpec.plus,
        show rawPc ['F'] = 5 from by decide]
      try (congr 1; omega)
    · have h0 : (0 : ℤ) ≤ 1200 * (o + 1) + 100 * 6 + 50 := by omega
      have hB : intHalfUp (1200 * (o + 1) + 100 * 6 + 50 - 100 * tdivZ (1200 * (o + 1) + 100 * 6 + 50) 100) = 50 := by
        unfold tdivZ intHalfUp
        rw [if_pos h0, if_pos (by omega)]
        omega
      have hC : tdivZ (1200 * (o + 1) + 100 * 6 + 50) 1200 - 1 = o := by
        unfold tdivZ
        rw [if_pos h0]
        omega
      have hD : (1200 * (o + 1) + 100 * 6 + 50 : ℤ) % 1200 / 100 = 6 := by omega
      have hparts : midi_to_note_parts true (1200 * (o + 1) + 100 * 6 + 50) = (o, ['G'], ['-'], 0) := by
        simp only [midi_to_note_parts, hB, hC, hD]
        try norm_num [pyGet, sharpsTable, flatsTable]
        try decide
      rw [m2n_of_parts (1200 * (o + 1) + 100 * 6 + 50) o ['G'] ['-'] hparts,
        n2m_name o ['G'] ['-'] (-50) (by decide) SufSpec.minus,
        show rawPc ['G'] = 7 from by decide]
      try (congr 1; omega)
    · have h0 : (0 : ℤ) ≤ 1200 * (o + 1) + 100 * 7 + 50 := by omega
      have hB : intHalfUp (1200 * (o + 1) + 100 * 7 + 50 - 100 * tdivZ (1200 * (o + 1) + 100 * 7 + 50) 100) = 50 := by
        unfold tdivZ intHalfUp
        rw [if_pos h0, if_pos (by omega)]
        omega
      have hC : tdivZ (1200 * (o + 1) + 100 * 7 + 50) 1200 - 1 = o := by
        unfold tdivZ
        rw [if_pos h0]
        omega
      have hD : (1200 * (o + 1) + 100 * 7 + 50 : ℤ) % 1200 / 100 = 7 := by omega
      have hparts : midi_to_note_parts true (1200 * (o + 1) + 100 * 7 + 50) = (o, ['G'], ['+'], 0) := by
        simp only [midi_to_note_parts, hB, hC, hD]
        try norm_num [pyGet, sharpsTable, flatsTable]
        try decide
      rw [m2n_of_parts (1200 * (o + 1) + 100 * 7 + 50) o ['G'] ['+'] hparts,
        n2m_name o ['G'] ['+'] 50 (by decide) SufSpec.plus,
        show rawPc ['G'] = 7 from by decide]
      try (congr 1; omega)
    · have h0 : (0 : ℤ) ≤ 1200 * (o + 1) + 100 * 8 + 50 := by omega
      have hB : intHalfUp (1200 * (o + 1) + 100 * 8 + 50 - 100 * tdivZ (1200 * (o + 1) + 100 * 8 + 50) 100) = 50 := by
        unfold tdivZ intHalfUp
        rw [if_pos h0, if_pos (by omega)]
        omega
      have hC : tdivZ (1200 * (o + 1) + 100 * 8 + 50) 1200 - 1 = o := by
        unfold tdivZ
        rw [if_pos h0]
        omega
      have hD : (1200 * (o + 1) + 100 * 8 + 50 : ℤ) % 1200 / 100 = 8 := by omega
      have hparts : midi_to_note_parts true (1200 * (o + 1) + 100 * 8 + 50) = (o, ['A'], ['-'], 0) := by
        simp only [midi_to_note_parts, hB, hC, hD]
        try norm_num [pyGet, sharpsTable, flatsTable]
        try decide
      rw [m2n_of_parts (1200 * (o + 1) + 100 * 8 + 50) o ['A'] ['-'] hparts,
        n2m_name o ['A'] ['-'] (-50) (by decide) SufSpec.minus,
        show rawPc ['A'] = 9 from by decide]
      try (congr 1; omega)
    · have h0 : (0 : ℤ) ≤ 1200 * (o + 1) + 100 * 9 + 50 := by omega
      have hB : intHalfUp (1200 * (o + 1) + 100 * 9 + 50 - 100 * tdivZ (1200 * (o + 1) + 100 * 9 + 50) 100) = 50 := by
        unfold tdivZ intHalfUp
        rw [if_pos h0, if_pos (by omega)]
        omega
      have hC : tdivZ (1200 * (o + 1) + 100 * 9 + 50) 1200 - 1 = o := by
        unfold tdivZ
        rw [if_pos h0]
        omega
      have hD : (1200 * (o + 1) + 100 * 9 + 50 : ℤ) % 1200 / 100 = 9 := by omega
      have hparts : midi_to_note_parts true (1200 * (o + 1) + 100 * 9 + 50) = (o, ['A'], ['+'], 0) := by
        simp only [midi_to_note_parts, hB, hC, hD]
        try norm_num [pyGet, sharpsTable, flatsTable]
        try decide
      rw [m2n_of_parts (1200 * (o + 1) + 100 * 9 + 50) o ['A'] ['+'] hparts,
        n2m_name o ['A'] ['+'] 50 (by decide) SufSpec.plus,
        show rawPc ['A'] = 9 from by decide]
      try (congr 1; omega)
    · have h0 : (0 : ℤ) ≤ 1200 * (o + 1) + 100 * 10 + 50 := by omega
      have hB : intHalfUp (1200 * (o + 1) + 100 * 10 + 50 - 100 * tdivZ (1200 * (o + 1) + 100 * 10 + 50) 100) = 50 := by
        unfold tdivZ intHalfUp
        rw [if_pos h0, if_pos (by omega)]
        omega
      have hC : tdivZ (1200 * (o + 1) + 100 * 10 + 50) 1200 - 1 = o := by
        unfold tdivZ
        rw [if_pos h0]
        omega
      have hD : (1200 * (o + 1) + 100 * 10 + 50 : ℤ) % 1200 / 100 = 10 := by omega
      have hparts : midi_to_note_parts true (1200 * (o + 1) + 100 * 10 + 50) = (o, ['B'], ['-'], 0) := by
        simp only [midi_to_note_parts, hB, hC, hD]
        try norm_num [pyGet, sharpsTable, flatsTable]
        try decide
      rw [m2n_of_parts (1200 * (o + 1) + 100 * 10 + 50) o ['B'] ['-'] hparts,
        n2m_name o ['B'] ['-'] (-50) (by decide) SufSpec.minus,
        show rawPc ['B'] = 11 from by decide]
      try (congr 1; omega)
    · have h0 : (0 : ℤ) ≤ 1200 * (o + 1) + 100 * 11 + 50 := by omega
      have hB : intHalfUp (1200 * (o + 1) + 100 * 11 + 50 - 100 * tdivZ (1200 * (o + 1) + 100 * 11 + 50) 100) = 50 := by
        unfold tdivZ intHalfUp
        rw [if_pos h0, if_pos (by omega)]
        omega
      have hC : tdivZ (1200 * (o + 1) + 100 * 11 + 50) 1200 - 1 = o := by
        unfold tdivZ
        rw [if_pos h0]
        omega
      have hD : (1200 * (o + 1) + 100 * 11 + 50 : ℤ) % 1200 / 100 = 11 := by omega
      have hparts : midi_to_note_parts true (1200 * (o + 1) + 100 * 11 + 50) = (o, ['B'], ['+'], 0) := by
        simp only [midi_to_note_parts, hB, hC, hD]
        try norm_num [pyGet, sharpsTable, flatsTable]
        try decide
      rw [m2n_of_parts (1200 * (o + 1) + 100 * 11 + 50) o ['B'] ['+'] hparts,
        n2m_name o ['B'] ['+'] 50 (by decide) SufSpec.plus,
        show rawPc ['B'] = 11 from by decide]
      try (congr 1; omega)
  · interval_cases ps
    · have h0 : (0 : ℤ) ≤ 1200 * (o + 1) + 100 * 0 + 75 := by omega
      have hB : intHalfUp (1200 * (o + 1) + 100 * 0 + 75 - 100 * tdivZ (1200 * (o + 1) + 100 * 0 + 75) 100) = 75 := by
        unfold tdivZ intHalfUp
        rw [if_pos h0, if_pos (by omega)]
        omega
      have hC : tdivZ (1200 * (o + 1) + 100 * 0 + 75) 1200 - 1 = o := by
        unfold tdivZ
        rw [if_pos h0]
        omega
      have hD : (1200 * (o + 1) + 100 * 0 + 75 : ℤ) % 1200 / 100 = 0 := by omega
      have hparts : midi_to_note_parts true (1200 * (o + 1) + 100 * 0 + 75) = (o, ['D','b'], ['<'], 0) := by
        simp only [midi_to_note_parts, hB, hC, hD]
        try norm_num [pyGet, sharpsTable, flatsTable]
        try decide
      rw [m2n_of_parts (1200 * (o + 1) + 100 * 0 + 75) o ['D','b'] ['<'] hparts,
        n2m_name o ['D','b'] ['<'] (-25) (by decide) SufSpec.down,
        show rawPc ['D','b'] = 1 from by decide]
      try (congr 1; omega)
    · have h0 : (0 : ℤ) ≤ 1200 * (o + 1) + 100 * 1 + 75 := by omega
      have hB : intHalfUp (1200 * (o + 1) + 100 * 1 + 75 - 100 * tdivZ (1200 * (o + 1) + 100 * 1 + 75) 100) = 75 := by
        unfold tdivZ intHalfUp
        rw [if_pos h0, if_pos (by omega)]
        omega
      have hC : tdivZ (1200 * (o + 1) + 100 * 1 + 75) 1200 - 1 = o := by
        unfold tdivZ
        rw [if_pos h0]
        omega
      have hD : (1200 * (o + 1) + 100 * 1 + 75 : ℤ) % 1200 / 100 = 1 := by omega
      have hparts : midi_to_note_parts true (1200 * (o + 1) + 100 * 1 + 75) = (o, ['D'], ['<'], 0) := by
        simp only [midi_to_note_parts, hB, hC, hD]
        try norm_num [pyGet, sharpsTable, flatsTable]
        try decide
      rw [m2n_of_parts (1200 * (o + 1) + 100 * 1 + 75) o ['D'] ['<'] hparts,
        n2m_name o ['D'] ['<'] (-25) (by decide) SufSpec.down,
        show rawPc ['D'] = 2 from by decide]
      try (congr 1; omega)
    · have h0 : (0 : ℤ) ≤ 1200 * (o + 1) + 100 * 2 + 75 := by omega
      have hB : intHalfUp (1200 * (o + 1) + 100 * 2 + 75 - 100 * tdivZ (1200 * (o + 1) + 100 * 2 + 75) 100) = 75 := by
        unfold tdivZ intHalfUp
        rw [if_pos h0, if_pos (by omega)]
        omega
      have hC : tdivZ (1200 * (o + 1) + 100 * 2 + 75) 1200 - 1 = o := by
        unfold tdivZ
        rw [if_pos h0]
        omega
      have hD : (1200 * (o + 1) + 100 * 2 + 75 : ℤ) % 1200 / 100 = 2 := by omega
      have hparts : midi_to_note_parts true (1200 * (o + 1) + 100 * 2 + 75) = (o, ['E','b'], ['<'], 0) := by
        simp only [midi_to_note_parts, hB, hC, hD]
        try norm_num [pyGet, sharpsTable, flatsTable]
        try decide
      rw [m2n_of_parts (1200 * (o + 1) + 100 * 2 + 75) o ['E','b'] ['<'] hparts,
        n2m_name o ['E','b'] ['<'] (-25) (by decide) SufSpec.down,
        show rawPc ['E','b'] = 3 from by decide]
      try (congr 1; omega)
    · have h0 : (0 : ℤ) ≤ 1200 * (o + 1) + 100 * 3 + 75 := by omega
      have hB : intHalfUp (1200 * (o + 1) + 100 * 3 + 75 - 100 * tdivZ (1200 * (o + 1) + 100 * 3 + 75) 100) = 75 := by
        unfold tdivZ intHalfUp
        rw [if_pos h0, if_pos (by omega)]
        omega
      have hC : tdivZ (1200 * (o + 1) + 100 * 3 + 75) 1200 - 1 = o := by
        unfold tdivZ
        rw [if_pos h0]
        omega
      have hD : (1200 * (o + 1) + 100 * 3 + 75 : ℤ) % 1200 / 100 = 3 := by omega
      have hparts : midi_to_note_parts true (1200 * (o + 1) + 100 * 3 + 75) = (o, ['E'], ['<'], 0) := by
        simp only [midi_to_note_parts, hB, hC, hD]
        try norm_num [pyGet, sharpsTable, flatsTable]
        try decide
      rw [m2n_of_parts (1200 * (o + 1) + 100 * 3 + 75) o ['E'] ['<'] hparts,
        n2m_name o ['E'] ['<'] (-25) (by decide) SufSpec.down,
        show rawPc ['E'] = 4 from by decide]
      try (congr 1; omega)
    · have h0 : (0 : ℤ) ≤ 1200 * (o + 1) + 100 * 4 + 75 := by omega
      have hB : intHalfUp (1200 * (o + 1) + 100 * 4 + 75 - 100 * tdivZ (1200 * (o + 1) + 100 * 4 + 75) 100) = 75 := by
        unfold tdivZ intHalfUp
        rw [if_pos h0, if_pos (by omega)]
        omega
      have hC : tdivZ (1200 * (o + 1) + 100 * 4 + 75) 1200 - 1 = o := by
        unfold tdivZ
        rw [if_pos h0]
        omega
      have hD : (1200 * (o + 1) + 100 * 4 + 75 : ℤ) % 1200 / 100 = 4 := by omega
      have hparts : midi_to_note_parts true (1200 * (o + 1) + 100 * 4 + 75) = (o, ['F'], ['<'], 0) := by
        simp only [midi_to_note_parts, hB, hC, hD]
        try norm_num [pyGet, sharpsTable, flatsTable]
        try decide
      rw [m2n_of_parts (1200 * (o + 1) + 100 * 4 + 75) o ['F'] ['<'] hparts,
        n2m_name o ['F'] ['<'] (-25) (by decide) SufSpec.down,
        show rawPc ['F'] = 5 from by decide]
      try (congr 1; omega)
    · have h0 : (0 : ℤ) ≤ 1200 * (o + 1) + 100 * 5 + 75 := by omega
      have hB : intHalfUp (1200 * (o + 1) + 100 * 5 + 75 - 100 * tdivZ (1200 * (o + 1) + 100 * 5 + 75) 100) = 75 := by
        unfold tdivZ intHalfUp
        rw [if_pos h0, if_pos (by omega)]
        omega
      have hC : tdivZ (1200 * (o + 1) + 100 * 5 + 75) 1200 - 1 = o := by
        unfold tdivZ
        rw [if_pos h0]
        omega
      have hD : (1200 * (o + 1) + 100 * 5 + 75 : ℤ) % 1200 / 100 = 5 := by omega
      have hparts : midi_to_note_parts true (1200 * (o + 1) + 100 * 5 + 75) = (o, ['G','b'], ['<'], 0) := by
        simp only [midi_to_note_parts, hB, hC, hD]
        try norm_num [pyGet, sharpsTable, flatsTable]
        try decide
      rw [m2n_of_parts (1200 * (o + 1) + 100 * 5 + 75) o ['G','b'] ['<'] hparts,
        n2m_name o ['G','b'] ['<'] (-25) (by decide) SufSpec.down,
        show rawPc ['G','b'] = 6 from by decide]
      try (congr 1; omega)
    · have h0 : (0 : ℤ) ≤ 1200 * (o + 1) + 100 * 6 + 75 := by omega
      have hB : intHalfUp (1200 * (o + 1) + 100 * 6 + 75 - 100 * tdivZ (1200 * (o + 1) + 100 * 6 + 75) 100) = 75 := by
        unfold tdivZ intHalfUp
        rw [if_pos h0, if_pos (by omega)]
        omega
      have hC : tdivZ (1200 * (o + 1) + 100 * 6 + 75) 1200 - 1 = o := by
        unfold tdivZ
        rw [if_pos h0]
        omega
      have hD : (1200 * (o + 1) + 100 * 6 + 75 : ℤ) % 1200 / 100 = 6 := by omega
      have hparts : midi_to_note_parts true (1200 * (o + 1) + 100 * 6 + 75) = (o, ['G'], ['<'], 0) := by
        simp only [midi_to_note_parts, hB, hC, hD]
        try norm_num [pyGet, sharpsTable, flatsTable]
        try decide
      rw [m2n_of_parts (1200 * (o + 1) + 100 * 6 + 75) o ['G'] ['<'] hparts,
        n2m_name o ['G'] ['<'] (-25) (by decide) SufSpec.down,
        show rawPc ['G'] = 7 from by decide]
      try (congr 1; omega)
    · have h0 : (0 : ℤ) ≤ 1200 * (o + 1) + 100 * 7 + 75 := by omega
      have hB : intHalfUp (1200 * (o + 1) + 100 * 7 + 75 - 100 * tdivZ (1200 * (o + 1) + 100 * 7 + 75) 100) = 75 := by
        unfold tdivZ intHalfUp
        rw [if_pos h0, if_pos (by omega)]
        omega
      have hC : tdivZ (1200 * (o + 1) + 100 * 7 + 75) 1200 - 1 = o := by
        unfold tdivZ
        rw [if_pos h0]
        omega
      have hD : (1200 * (o + 1) + 100 * 7 + 75 : ℤ) % 1200 / 100 = 7 := by omega
      have hparts : midi_to_note_parts true (1200 * (o + 1) + 100 * 7 + 75) = (o, ['A','b'], ['<'], 0) := by
        simp only [midi_to_note_parts, hB, hC, hD]
        try norm_num [pyGet, sharpsTable, flatsTable]
        try decide
      rw [m2n_of_parts (1200 * (o + 1) + 100 * 7 + 75) o ['A','b'] ['<'] hparts,
        n2m_name o ['A','b'] ['<'] (-25) (by decide) SufSpec.down,
        show rawPc ['A','b'] = 8 from by decide]
      try (congr 1; omega)
    · have h0 : (0 : ℤ) ≤ 1200 * (o + 1) + 100 * 8 + 75 := by omega
      have hB : intHalfUp (1200 * (o + 1) + 100 * 8 + 75 - 100 * tdivZ (1200 * (o + 1) + 100 * 8 + 75) 100) = 75 := by
        unfold tdivZ intHalfUp
        rw [if_pos h0, if_pos (by omega)]
        omega
      have hC : tdivZ (1200 * (o + 1) + 100 * 8 + 75) 1200 - 1 = o := by
        unfold tdivZ
        rw [if_pos h0]
        omega
      have hD : (1200 * (o + 1) + 100 * 8 + 75 : ℤ) % 1200 / 100 = 8 := by omega
      have hparts : midi_to_note_parts true (1200 * (o + 1) + 100 * 8 + 75) = (o, ['A'], ['<'], 0) := by
        simp only [midi_to_note_parts, hB, hC, hD]
        try norm_num [pyGet, sharpsTable, flatsTable]
        try decide
      rw [m2n_of_parts (1200 * (o + 1) + 100 * 8 + 75) o ['A'] ['<'] hparts,
        n2m_name o ['A'] ['<'] (-25) (by decide) SufSpec.down,
        show rawPc ['A'] = 9 from by decide]
      try (congr 1; omega)
    · have h0 : (0 : ℤ) ≤ 1200 * (o + 1) + 100 * 9 + 75 := by omega
      have hB : intHalfUp (1200 * (o + 1) + 100 * 9 + 75 - 100 * tdivZ (1200 * (o + 1) + 100 * 9 + 75) 100) = 75 := by
        unfold tdivZ intHalfUp
        rw [if_pos h0, if_pos (by omega)]
        omega
      have hC : tdivZ (1200 * (o + 1) + 100 * 9 + 75) 1200 - 1 = o := by
        unfold tdivZ
        rw [if_pos h0]
        omega
      have hD : (1200 * (o + 1) + 100 * 9 + 75 : ℤ) % 1200 / 100 = 9 := by omega
      have hparts : midi_to_note_parts true (1200 * (o + 1) + 100 * 9 + 75) = (o, ['B','b'], ['<'], 0) := by
        simp only [midi_to_note_parts, hB, hC, hD]
        try norm_num [pyGet, sharpsTable, flatsTable]
        try decide
      rw [m2n_of_parts (1200 * (o + 1) + 100 * 9 + 75) o ['B','b'] ['<'] hparts,
        n2m_name o ['B','b'] ['<'] (-25) (by decide) SufSpec.down,
        show rawPc ['B','b'] = 10 from by decide]
      try (congr 1; omega)
    · have h0 : (0 : ℤ) ≤ 1200 * (o + 1) + 100 * 10 + 75 := by omega
      have hB : intHalfUp (1200 * (o + 1) + 100 * 10 + 75 - 100 * tdivZ (1200 * (o + 1) + 100 * 10 + 75) 100) = 75 := by
        unfold tdivZ intHalfUp
        rw [if_pos h0, if_pos (by omega)]
        omega
      have hC : tdivZ (1200 * (o + 1) + 100 * 10 + 75) 1200 - 1 = o := by
        unfold tdivZ
        rw [if_pos h0]
        omega
      have hD : (1200 * (o + 1) + 100 * 10 + 75 : ℤ) % 1200 / 100 = 10 := by omega
      have hparts : midi_to_note_parts true (1200 * (o + 1) + 100 * 10 + 75) = (o, ['B'], ['<'], 0) := by
        simp only [midi_to_note_parts, hB, hC, hD]
        try norm_num [pyGet, sharpsTable, flatsTable]
        try decide
      rw [m2n_of_parts (1200 * (o + 1) + 100 * 10 + 75) o ['B'] ['<'] hparts,
        n2m_name o ['B'] ['<'] (-25) (by decide) SufSpec.down,
        show rawPc ['B'] = 11 from by decide]
      try (congr 1; omega)
    · have h0 : (0 : ℤ) ≤ 1200 * (o + 1) + 100 * 11 + 75 := by omega
      have hB : intHalfUp (1200 * (o + 1) + 100 * 11 + 75 - 100 * tdivZ (1200 * (o + 1) + 100 * 11 + 75) 100) = 75 := by
        unfold tdivZ intHalfUp
        rw [if_pos h0, if_pos (by omega)]
        omega
      have hC : tdivZ (1200 * (o + 1) + 100 * 11 + 75) 1200 - 1 = o := by
        unfold tdivZ
        rw [if_pos h0]
        omega
      have hD : (1200 * (o + 1) + 100 * 11 + 75 : ℤ) % 1200 / 100 = 11 := by omega
      have hparts : midi_to_note_parts true (1200 * (o + 1) + 100 * 11 + 75) = ((o + 1), ['C'], ['<'], 0) := by
        simp only [midi_to_note_parts, hB, hC, hD]
        try norm_num [pyGet, sharpsTable, flatsTable]
        try decide
      rw [m2n_of_parts (1200 * (o + 1) + 100 * 11 + 75) (o + 1) ['C'] ['<'] hparts,
        n2m_name (o + 1) ['C'] ['<'] (-25) (by decide) SufSpec.down,
        show rawPc ['C'] = 0 from by decide]
      try (congr 1; omega)

/-- Amended claim C3: for every nonnegative midinote on the eighth-tone
grid (25-cent multiples, which covers the semitone, quarter-tone and
eighth-tone grids), formatting and re-parsing returns the value exactly:
`n2m(m2n(m)) == m`. -/
theorem n2m_m2n_roundtrip (mc : ℤ) (h0 : 0 ≤ mc) (hgrid : (25 : ℤ) ∣ mc) :
    n2m (m2n mc) = .ok mc := by
  obtain ⟨o, ps, r, ho, hps0, hps1, hr, hmc⟩ :
      ∃ o ps r, -1 ≤ o ∧ 0 ≤ ps ∧ ps ≤ 11 ∧
        (r = 0 ∨ r = 25 ∨ r = 50 ∨ r = 75) ∧ mc = 1200 * (o + 1) + 100 * ps + r := by
    exact ⟨mc / 1200 - 1, mc % 1200 / 100, mc % 100, by omega, by omega, by omega,
      by omega, by omega⟩
  rw [hmc]
  exact m2n_grid_case o ps r ho hps0 hps1 hr


/-! ## Transposition -/

theorem m2n_semitone (o ps : ℤ) (ho : -1 ≤ o) (hp0 : 0 ≤ ps) (hp1 : ps ≤ 11) :
    m2n (1200 * (o + 1) + 100 * ps) = intToStr o ++ pyGet sharpsTable ps := by
  interval_cases ps
  · have h0 : (0 : ℤ) ≤ 1200 * (o + 1) + 100 * 0 := by omega
    have hB : intHalfUp (1200 * (o + 1) + 100 * 0 - 100 * tdivZ (1200 * (o + 1) + 100 * 0) 100) = 0 := by
      unfold tdivZ intHalfUp
      rw [if_pos h0, if_pos (by omega)]
      omega
    have hC : tdivZ (1200 * (o + 1) + 100 * 0) 1200 - 1 = o := by
      unfold tdivZ
      rw [if_pos h0]
      omega
    have hD : (1200 * (o + 1) + 100 * 0 : ℤ) % 1200 / 100 = 0 := by omega
    have hparts : midi_to_note_parts true (1200 * (o + 1) + 100 * 0) = (o, pyGet sharpsTable 0, [], 0) := by
      simp only [midi_to_note_parts, hB, hC, hD]
      norm_num
    rw [m2n_of_parts (1200 * (o + 1) + 100 * 0) o (pyGet sharpsTable 0) [] hparts]
    simp
  · have h0 : (0 : ℤ) ≤ 1200 * (o + 1) + 100 * 1 := by omega
    have hB : intHalfUp (1200 * (o + 1) + 100 * 1 - 100 * tdivZ (1200 * (o + 1) + 100 * 1) 100) = 0 := by
      unfold tdivZ intHalfUp
      rw [if_pos h0, if_pos (by omega)]
      omega
    have hC : tdivZ (1200 * (o + 1) + 100 * 1) 1200 - 1 = o := by
      unfold tdivZ
      rw [if_pos h0]
      omega
    have hD : (1200 * (o + 1) + 100 * 1 : ℤ) % 1200 / 100 = 1 := by omega
    have hparts : midi_to_note_parts true (1200 * (o + 1) + 100 * 1) = (o, pyGet sharpsTable 1, [], 0) := by
      simp only [midi_to_note_parts, hB, hC, hD]
      norm_num
    rw [m2n_of_parts (1200 * (o + 1) + 100 * 1) o (pyGet sharpsTable 1) [] hparts]
    simp
  · have h0 : (0 : ℤ) ≤ 1200 * (o + 1) + 100 * 2 := by omega
    have hB : intHalfUp (1200 * (o + 1) + 100 * 2 - 100 * tdivZ (1200 * (o + 1) + 100 * 2) 100) = 0 := by
      unfold tdivZ intHalfUp
      rw [if_pos h0, if_pos (by omega)]
      omega
    have hC : tdivZ (1200 * (o + 1) + 100 * 2) 1200 - 1 = o := by
      unfold tdivZ
      rw [if_pos h0]
      omega
    have hD : (1200 * (o + 1) + 100 * 2 : ℤ) % 1200 / 100 = 2 := by omega
    have hparts : midi_to_note_parts true (1200 * (o + 1) + 100 * 2) = (o, pyGet sharpsTable 2, [], 0) := by
      simp only [midi_to_note_parts, hB, hC, hD]
      norm_num
    rw [m2n_of_parts (1200 * (o + 1) + 100 * 2) o (pyGet sharpsTable 2) [] hparts]
    simp
  · have h0 : (0 : ℤ) ≤ 1200 * (o + 1) + 100 * 3 := by omega
    have hB : intHalfUp (1200 * (o + 1) + 100 * 3 - 100 * tdivZ (1200 * (o + 1) + 100 * 3) 100) = 0 := by
      unfold tdivZ intHalfUp
      rw [if_pos h0, if_pos (by omega)]
      omega
    have hC : tdivZ (1200 * (o + 1) + 100 * 3) 1200 - 1 = o := by
      unfold tdivZ
      rw [if_pos h0]
      omega
    have hD : (1200 * (o + 1) + 100 * 3 : ℤ) % 1200 / 100 = 3 := by omega
    have hparts : midi_to_note_parts true (1200 * (o + 1) + 100 * 3) = (o, pyGet sharpsTable 3, [], 0) := by
      simp only [midi_to_note_parts, hB, hC, hD]
      norm_num
    rw [m2n_of_parts (1200 * (o + 1) + 100 * 3) o (pyGet sharpsTable 3) [] hparts]
    simp
  · have h0 : (0 : ℤ) ≤ 1200 * (o + 1) + 100 * 4 := by omega
    have hB : intHalfUp (1200 * (o + 1) + 100 * 4 - 100 * tdivZ (1200 * (o + 1) + 100 * 4) 100) = 0 := by
      unfold tdivZ intHalfUp
      rw [if_pos h0, if_pos (by omega)]
      omega
    have hC : tdivZ (1200 * (o + 1) + 100 * 4) 1200 - 1 = o := by
      unfold tdivZ
      rw [if_pos h0]
      omega
    have hD : (1200 * (o + 1) + 100 * 4 : ℤ) % 1200 / 100 = 4 := by omega
    have hparts : midi_to_note_parts true (1200 * (o + 1) + 100 * 4) = (o, pyGet sharpsTable 4, [], 0) := by
      simp only [midi_to_note_parts, hB, hC, hD]
      norm_num
    rw [m2n_of_parts (1200 * (o + 1) + 100 * 4) o (pyGet sharpsTable 4) [] hparts]
    simp
  · have h0 : (0 : ℤ) ≤ 1200 * (o + 1) + 100 * 5 := by omega
    have hB : intHalfUp (1200 * (o + 1) + 100 * 5 - 100 * tdivZ (1200 * (o + 1) + 100 * 5) 100) = 0 := by
      unfold tdivZ intHalfUp
      rw [if_pos h0, if_pos (by omega)]
      omega
    have hC : tdivZ (1200 * (o + 1) + 100 * 5) 1200 - 1 = o := by
      unfold tdivZ
      rw [if_pos h0]
      omega
    have hD : (1200 * (o + 1) + 100 * 5 : ℤ) % 1200 / 100 = 5 := by omega
    have hparts : midi_to_note_parts true (1200 * (o + 1) + 100 * 5) = (o, pyGet sharpsTable 5, [], 0) := by
      simp only [midi_to_note_parts, hB, hC, hD]
      norm_num
    rw [m2n_of_parts (1200 * (o + 1) + 100 * 5) o (pyGet sharpsTable 5) [] hparts]
    simp
  · have h0 : (0 : ℤ) ≤ 1200 * (o + 1) + 100 * 6 := by omega
    have hB : intHalfUp (1200 * (o + 1) + 100 * 6 - 100 * tdivZ (1200 * (o + 1) + 100 * 6) 100) = 0 := by
      unfold tdivZ intHalfUp
      rw [if_pos h0, if_pos (by omega)]
      omega
    have hC : tdivZ (1200 * (o + 1) + 100 * 6) 1200 - 1 = o := by
      unfold tdivZ
      rw [if_pos h0]
      omega
    have hD : (1200 * (o + 1) + 100 * 6 : ℤ) % 1200 / 100 = 6 := by omega
    have hparts : midi_to_note_parts true (1200 * (o + 1) + 100 * 6) = (o, pyGet sharpsTable 6, [], 0) := by
      simp only [midi_to_note_parts, hB, hC, hD]
      norm_num
    rw [m2n_of_parts (1200 * (o + 1) + 100 * 6) o (pyGet sharpsTable 6) [] hparts]
    simp
  · have h0 : (0 : ℤ) ≤ 1200 * (o + 1) + 100 * 7 := by omega
    have hB : intHalfUp (1200 * (o + 1) + 100 * 7 - 100 * tdivZ (1200 * (o + 1) + 100 * 7) 100) = 0 := by
      unfold tdivZ intHalfUp
      rw [if_pos h0, if_pos (by omega)]
      omega
    have hC : tdivZ (1200 * (o + 1) + 100 * 7) 1200 - 1 = o := by
      unfold tdivZ
      rw [if_pos h0]
      omega
    have hD : (1200 * (o + 1) + 100 * 7 : ℤ) % 1200 / 100 = 7 := by omega
    have hparts : midi_to_note_parts true (1200 * (o + 1) + 100 * 7) = (o, pyGet sharpsTable 7, [], 0) := by
      simp only [midi_to_note_parts, hB, hC, hD]
      norm_num
    rw [m2n_of_parts (1200 * (o + 1) + 100 * 7) o (pyGet sharpsTable 7) [] hparts]
    simp
  · have h0 : (0 : ℤ) ≤ 1200 * (o + 1) + 100 * 8 := by omega
    have hB : intHalfUp (1200 * (o + 1) + 100 * 8 - 100 * tdivZ (1200 * (o + 1) + 100 * 8) 100) = 0 := by
      unfold tdivZ intHalfUp
      rw [if_pos h0, if_pos (by omega)]
      omega
    have hC : tdivZ (1200 * (o + 1) + 100 * 8) 1200 - 1 = o := by
      unfold tdivZ
      rw [if_pos h0]
      omega
    have hD : (1200 * (o + 1) + 100 * 8 : ℤ) % 1200 / 100 = 8 := by omega
    have hparts : midi_to_note_parts true (1200 * (o + 1) + 100 * 8) = (o, pyGet sharpsTable 8, [], 0) := by
      simp only [midi_to_note_parts, hB, hC, hD]
      norm_num
    rw [m2n_of_parts (1200 * (o + 1) + 100 * 8) o (pyGet sharpsTable 8) [] hparts]
    simp
  · have h0 : (0 : ℤ) ≤ 1200 * (o + 1) + 100 * 9 := by omega
    have hB : intHalfUp (1200 * (o + 1) + 100 * 9 - 100 * tdivZ (1200 * (o + 1) + 100 * 9) 100) = 0 := by
      unfold tdivZ intHalfUp
      rw [if_pos h0, if_pos (by omega)]
      omega
    have hC : tdivZ (1200 * (o + 1) + 100 * 9) 1200 - 1 = o := by
      unfold tdivZ
      rw [if_pos h0]
      omega
    have hD : (1200 * (o + 1) + 100 * 9 : ℤ) % 1200 / 100 = 9 := by omega
    have hparts : midi_to_note_parts true (1200 * (o + 1) + 100 * 9) = (o, pyGet sharpsTable 9, [], 0) := by
      simp only [midi_to_note_parts, hB, hC, hD]
      norm_num
    rw [m2n_of_parts (1200 * (o + 1) + 100 * 9) o (pyGet sharpsTable 9) [] hparts]
    simp
  · have h0 : (0 : ℤ) ≤ 1200 * (o + 1) + 100 * 10 := by omega
    have hB : intHalfUp (1200 * (o + 1) + 100 * 10 - 100 * tdivZ (1200 * (o + 1) + 100 * 10) 100) = 0 := by
      unfold tdivZ intHalfUp
      rw [if_pos h0, if_pos (by omega)]
      omega
    have hC : tdivZ (1200 * (o + 1) + 100 * 10) 1200 - 1 = o := by
      unfold tdivZ
      rw [if_pos h0]
      omega
    have hD : (1200 * (o + 1) + 100 * 10 : ℤ) % 1200 / 100 = 10 := by omega
    have hparts : midi_to_note_parts true (1200 * (o + 1) + 100 * 10) = (o, pyGet sharpsTable 10, [], 0) := by
      simp only [midi_to_note_parts, hB, hC, hD]
      norm_num
    rw [m2n_of_parts (1200 * (o + 1) + 100 * 10) o (pyGet sharpsTable 10) [] hparts]
    simp
  · have h0 : (0 : ℤ) ≤ 1200 * (o + 1) + 100 * 11 := by omega
    have hB : intHalfUp (1200 * (o + 1) + 100 * 11 - 100 * tdivZ (1200 * (o + 1) + 100 * 11) 100) = 0 := by
      unfold tdivZ intHalfUp
      rw [if_pos h0, if_pos (by omega)]
      omega
    have hC : tdivZ (1200 * (o + 1) + 100 * 11) 1200 - 1 = o := by
      unfold tdivZ
      rw [if_pos h0]
      omega
    have hD : (1200 * (o + 1) + 100 * 11 : ℤ) % 1200 / 100 = 11 := by omega
    have hparts : midi_to_note_parts true (1200 * (o + 1) + 100 * 11) = (o, pyGet sharpsTable 11, [], 0) := by
      simp only [midi_to_note_parts, hB, hC, hD]
      norm_num
    rw [m2n_of_parts (1200 * (o + 1) + 100 * 11) o (pyGet sharpsTable 11) [] hparts]
    simp

theorem mkNote_eq_append (o : ℤ) (h0 : 0 ≤ o) (h9 : o ≤ 9) (L : Char) (alt : Str) :
    intToStr o ++ (L :: alt) = mkNote o.toNat L alt 0 := by
  rw [mkNote_shape o.toNat (by omega) L alt 0, Int.toNat_of_nonneg h0]
  simp [centsSuf]

theorem split_m2n_semitone (o ps : ℤ) (h0 : 0 ≤ o) (h9 : o ≤ 9)
    (hp0 : 0 ≤ ps) (hp1 : ps ≤ 11) :
    split_notename (m2n (1200 * (o + 1) + 100 * ps)) =
      .ok ⟨o, (pyGet sharpsTable ps).headD 'C', (pyGet sharpsTable ps).tail, 0⟩ := by
  rw [m2n_semitone o ps (by omega) hp0 hp1]
  interval_cases ps
  · rw [show pyGet sharpsTable (0 : ℤ) = ['C'] from by decide,
      mkNote_eq_append o h0 h9 'C' []]
    have h := split_mkNote o.toNat (by omega) 'C' [] 0 (by decide) (by decide)
    rw [Int.toNat_of_nonneg h0] at h
    simpa using h
  · rw [show pyGet sharpsTable (1 : ℤ) = ['C','#'] from by decide,
      mkNote_eq_append o h0 h9 'C' ['#']]
    have h := split_mkNote o.toNat (by omega) 'C' ['#'] 0 (by decide) (by decide)
    rw [Int.toNat_of_nonneg h0] at h
    simpa using h
  · rw [show pyGet sharpsTable (2 : ℤ) = ['D'] from by decide,
      mkNote_eq_append o h0 h9 'D' []]
    have h := split_mkNote o.toNat (by omega) 'D' [] 0 (by decide) (by decide)
    rw [Int.toNat_of_nonneg h0] at h
    simpa using h
  · rw [show pyGet sharpsTable (3 : ℤ) = ['D','#'] from by decide,
      mkNote_eq_append o h0 h9 'D' ['#']]
    have h := split_mkNote o.toNat (by omega) 'D' ['#'] 0 (by decide) (by decide)
    rw [Int.toNat_of_nonneg h0] at h
    simpa using h
  · rw [show pyGet sharpsTable (4 : ℤ) = ['E'] from by decide,
      mkNote_eq_append o h0 h9 'E' []]
    have h := split_mkNote o.toNat (by omega) 'E' [] 0 (by decide) (by decide)
    rw [Int.toNat_of_nonneg h0] at h
    simpa using h
  · rw [show pyGet sharpsTable (5 : ℤ) = ['F'] from by decide,
      mkNote_eq_append o h0 h9 'F' []]
    have h := split_mkNote o.toNat (by omega) 'F' [] 0 (by decide) (by decide)
    rw [Int.toNat_of_nonneg h0] at h
    simpa using h
  · rw [show pyGet sharpsTable (6 : ℤ) = ['F','#'] from by decide,
      mkNote_eq_append o h0 h9 'F' ['#']]
    have h := split_mkNote o.toNat (by omega) 'F' ['#'] 0 (by decide) (by decide)
    rw [Int.toNat_of_nonneg h0] at h
    simpa using h
  · rw [show pyGet sharpsTable (7 : ℤ) = ['G'] from by decide,
      mkNote_eq_append o h0 h9 'G' []]
    have h := split_mkNote o.toNat (by omega) 'G' [] 0 (by decide) (by decide)
    rw [Int.toNat_of_nonneg h0] at h
    simpa using h
  · rw [show pyGet sharpsTable (8 : ℤ) = ['G','#'] from by decide,
      mkNote_eq_append o h0 h9 'G' ['#']]
    have h := split_mkNote o.toNat (by omega) 'G' ['#'] 0 (by decide) (by decide)
    rw [Int.toNat_of_nonneg h0] at h
    simpa using h
  · rw [show pyGet sharpsTable (9 : ℤ) = ['A'] from by decide,
      mkNote_eq_append o h0 h9 'A' []]
    have h := split_mkNote o.toNat (by omega) 'A' [] 0 (by decide) (by decide)
    rw [Int.toNat_of_nonneg h0] at h
    simpa using h
  · rw [show pyGet sharpsTable (10 : ℤ) = ['A','#'] from by decide,
      mkNote_eq_append o h0 h9 'A' ['#']]
    have h := split_mkNote o.toNat (by omega) 'A' ['#'] 0 (by decide) (by decide)
    rw [Int.toNat_of_nonneg h0] at h
    simpa using h
  · rw [show pyGet sharpsTable (11 : ℤ) = ['B'] from by decide,
      mkNote_eq_append o h0 h9 'B' []]
    have h := split_mkNote o.toNat (by omega) 'B' [] 0 (by decide) (by decide)
    rw [Int.toNat_of_nonneg h0] at h
    simpa using h

theorem pyRound_mul100 (k : ℤ) : pyRound (100 * k) 100 = k := by
  simp only [pyRound]
  rw [show (100 : ℤ) * k % 100 = 0 from by omega, show (100 : ℤ) * k / 100 = k from by omega]
  norm_num

/-- The 17 roots for which `_chromatic_transpositions` has a row. -/
def roots17 : List (Char × Str) :=
  [('C', []), ('C', ['#']), ('D', ['b']), ('D', []), ('D', ['#']), ('E', ['b']), ('E', []),
   ('F', []), ('F', ['#']), ('G', ['b']), ('G', []), ('G', ['#']), ('A', ['b']), ('A', []),
   ('A', ['#']), ('B', ['b']), ('B', [])]

def rowOf (L : Char) (alt : Str) : List Str :=
  (chromatic_transpositions (L :: alt)).getD []

def entryOf (L : Char) (alt : Str) (j : ℕ) : Str := (rowOf L alt).getD j []

set_option maxHeartbeats 2000000 in
theorem roots_row_props : ∀ pr ∈ roots17,
    chromatic_transpositions (pr.1 :: pr.2) = some (rowOf pr.1 pr.2) ∧
    ([pr.1] ++ pr.2) ∈ knownNames ∧ pr.1.toUpper = pr.1 ∧
    (pr.2 = [] ∨ pr.2 = ['#'] ∨ pr.2 = ['b']) ∧
    0 ≤ rawPc (pr.1 :: pr.2) ∧ rawPc (pr.1 :: pr.2) ≤ 11 ∧
    ∀ j ∈ List.range 12,
      entryOf pr.1 pr.2 j ∈ knownNames ∧
      (entryOf pr.1 pr.2 j).headD 'C' :: (entryOf pr.1 pr.2 j).tail = entryOf pr.1 pr.2 j ∧
      ((entryOf pr.1 pr.2 j).headD 'C').toUpper = (entryOf pr.1 pr.2 j).headD 'C' ∧
      0 ≤ rawPc (entryOf pr.1 pr.2 j) ∧ rawPc (entryOf pr.1 pr.2 j) ≤ 11 ∧
      (rawPc (entryOf pr.1 pr.2 j) - (rawPc (pr.1 :: pr.2) + (j : ℤ))) % 12 = 0 := by
  decide

set_option maxHeartbeats 1000000 in
/-- Amended claim C2: on the semitone grid the transposition invariant
holds.  For every root notename `<octave><letter><alteration>` whose
chromatic name has a row in `_chromatic_transpositions` (all 17
single-alteration roots) and every whole-semitone interval of `100 * k`
cents that keeps the result inside octaves 0 to 9, `transpose` succeeds
and its result parses to `n2m(input) + interval`.  The unrestricted
claim of the spec is false for microtonal inputs (see
`transpose_changes_pitch`). -/
theorem transpose_semitones (o : ℕ) (ho : o ≤ 9) (L : Char) (alt : Str) (k : ℤ)
    (hroot : (L, alt) ∈ roots17)
    (hlo : 1200 ≤ 1200 * ((o : ℤ) + 1) + 100 * rawPc (L :: alt) + 100 * k)
    (hhi : 1200 * ((o : ℤ) + 1) + 100 * rawPc (L :: alt) + 100 * k < 13200) :
    ∃ t, transpose (mkNote o L alt 0) (100 * k) = .ok t ∧
      n2m t = .ok (1200 * ((o : ℤ) + 1) + 100 * rawPc (L :: alt) + 100 * k) := by
  obtain ⟨hrow, hknown, hU, haltc, hpc0, hpc11, hentry⟩ := roots_row_props (L, alt) hroot
  dsimp only at hrow hknown hU haltc hpc0 hpc11 hentry
  set pc : ℤ := rawPc (L :: alt) with hpc
  have hj : ((k % 12).toNat : ℤ) = k % 12 := Int.toNat_of_nonneg (by omega)
  obtain ⟨hek, hecons, heU, he0, he11, hemod⟩ :=
    hentry (k % 12).toNat (List.mem_range.mpr (by omega))
  unfold entryOf at hek hecons heU he0 he11 hemod
  have h1 : n2m (mkNote o L alt 0) = .ok (1200 * ((o : ℤ) + 1) + 100 * pc) := by
    have h := n2m_mkNote o ho L alt 0 hknown
    simpa using h
  obtain ⟨o2, ps2, ho2a, ho2b, hp2a, hp2b, hsum, hps2v⟩ :
      ∃ o2 ps2 : ℤ, 0 ≤ o2 ∧ o2 ≤ 9 ∧ 0 ≤ ps2 ∧ ps2 ≤ 11 ∧
        1200 * ((o : ℤ) + 1) + 100 * pc + 100 * k = 1200 * (o2 + 1) + 100 * ps2 ∧
        ps2 = (pc + k) % 12 := by
    refine ⟨(1200 * ((o : ℤ) + 1) + 100 * pc + 100 * k) / 1200 - 1,
      (1200 * ((o : ℤ) + 1) + 100 * pc + 100 * k) % 1200 / 100,
      by omega, by omega, by omega, by omega, by omega, by omega⟩
  have hER : rawPc ((rowOf L alt).getD (k % 12).toNat []) = ps2 := by omega
  have hsplit2 : split_notename (m2n (1200 * ((o : ℤ) + 1) + 100 * pc + 100 * k)) =
      .ok ⟨o2, (pyGet sharpsTable ps2).headD 'C', (pyGet sharpsTable ps2).tail, 0⟩ := by
    rw [hsum]
    exact split_m2n_semitone o2 ps2 ho2a ho2b hp2a hp2b
  have hsplit1 : split_notename (mkNote o L alt 0) = .ok ⟨(o : ℤ), L, alt, 0⟩ :=
    split_mkNote o ho L alt 0 hU haltc
  have hdm : n2m (intToStr o2 ++ (rowOf L alt).getD (k % 12).toNat []) =
      .ok (1200 * (o2 + 1) + 100 * ps2) := by
    rw [n2m_name_nosuf o2 ((rowOf L alt).getD (k % 12).toNat []) hek, hER]
  have hout : construct_notename o2 (((rowOf L alt).getD (k % 12).toNat []).headD 'C')
      ((rowOf L alt).getD (k % 12).toNat []).tail 0
      = intToStr o2 ++ (rowOf L alt).getD (k % 12).toNat [] := by
    unfold construct_notename
    rw [heU, show constructCentsStr 0 = [] from rfl]
    simp only [List.append_nil, List.append_assoc, List.singleton_append]
    rw [hecons]
  unfold transpose
  rw [h1]
  dsimp only
  rw [hsplit2]
  dsimp only
  rw [hsplit1]
  dsimp only
  rw [pyRound_mul100 k, hrow]
  dsimp only
  rw [hdm]
  dsimp only
  rw [show (100 * k - k * 100 + 0 : ℤ) = 0 from by ring]
  rw [if_neg (show ¬((0 : ℤ) < -50 ∨ (0 : ℤ) > 50) from by norm_num)]
  rw [if_pos (show true = true from rfl)]
  dsimp only
  rw [if_neg (by omega), if_neg (by omega)]
  rw [hout]
  refine ⟨_, rfl, ?_⟩
  rw [hdm]
  congr 1
  omega

/-- Witness for the amended claim C2 at the spec's own example:
transposing `4Db` by two semitones gives a note sounding at midinote
63.00 (`4Eb`). -/
theorem transpose_semitones_witness :
    ∃ t, transpose (mkNote 4 'D' ['b'] 0) (100 * 2) = .ok t ∧
      n2m t = .ok (1200 * (((4 : ℕ) : ℤ) + 1) + 100 * rawPc ('D' :: ['b']) + 100 * 2) :=
  transpose_semitones 4 (by decide) 'D' ['b'] 2 (by decide) (by decide) (by decide)

/-- Counterexample to claim C2 as stated: `transpose("4D-", -2)` returns
`"3C-"`, which parses to midinote 47.50 — a full octave below the
expected `n2m("4D-") - 2 = 59.50`.  The octave read from the formatted
target (`3B+`) combines with the flat-side spelling `C` without the
octave heuristic firing, so the sounding pitch is not preserved. -/
theorem transpose_changes_pitch :
    transpose ['4', 'D', '-'] (-200) = .ok ['3', 'C', '-'] ∧
    n2m ['4', 'D', '-'] = .ok 6150 ∧ n2m ['3', 'C', '-'] = .ok 4750 := by
  refine ⟨rfl, rfl, rfl⟩


/-! ## Soundness of the enharmonic-variation search -/

/-- Two notenames may share a row of the variation search: if both sit on
the same non-diatonic slot with nonzero alteration directions, the
directions agree. -/
def enhCompat (a b : Str) : Prop :=
  ∀ pa pb, notated_pitch (.str a) = .ok pa → notated_pitch (.str b) = .ok pb →
    pa.microtone_index 2 ∉ non_enharmonic_slots →
    pa.microtone_index 2 = pb.microtone_index 2 →
    pa.alteration_direction ≠ 0 → pb.alteration_direction ≠ 0 →
    pa.alteration_direction = pb.alteration_direction

theorem slotGet_set_same (m : SlotMap) (k v : ℤ) :
    slotGet (slotSet m k v) k = some (some v) := by
  simp [slotGet, slotSet, List.find?]

theorem slotGet_set_other (m : SlotMap) (k k' v : ℤ) (h : k ≠ k') :
    slotGet (slotSet m k' v) k = slotGet m k := by
  simp only [slotGet, slotSet, List.find?]
  rw [show (decide (k' = k)) = false from by simp [Ne.symm h]]

theorem buildRow_forced (items : List (Bool × Str × Str)) (slots : SlotMap)
    (row : List Str) (s d : ℤ)
    (h : buildRow items slots = .ok row)
    (hs : slotGet slots s = some (some d)) (hd : d ≠ 0)
    (hsn : s ∉ non_enharmonic_slots) :
    ∀ a ∈ row, ∀ pa, notated_pitch (.str a) = .ok pa →
      pa.microtone_index 2 = s → pa.alteration_direction ≠ 0 →
      pa.alteration_direction = d := by
  induction items generalizing slots row with
  | nil =>
    simp only [buildRow] at h
    cases h
    intro a ha
    simp at ha
  | cons it rest ih =>
    obtain ⟨b, variants⟩ := it
    simp only [buildRow] at h
    rcases hnp : notated_pitch (.str (if b then variants.2 else variants.1)) with e | notated
    · rw [hnp] at h
      cases h
    rw [hnp] at h
    dsimp only at h
    by_cases hmem : notated.microtone_index 2 ∈ non_enharmonic_slots
    · rw [if_pos hmem] at h
      rcases hrest : buildRow rest slots with e | row' <;> rw [hrest] at h <;> cases h
      intro a ha pa hpa hmi hdir
      rcases List.mem_cons.mp ha with rfl | ha'
      · rw [hnp] at hpa
        cases hpa
        exact absurd (hmi ▸ hmem) hsn
      · exact ih slots row' hrest hs a ha' pa hpa hmi hdir
    · rw [if_neg hmem] at h
      by_cases hacc : slotAccepts (slotGet slots (notated.microtone_index 2))
          notated.alteration_direction = true
      · rw [if_pos hacc] at h
        rcases hrest : buildRow rest
            (slotSet slots (notated.microtone_index 2) notated.alteration_direction)
            with e | row' <;> rw [hrest] at h <;> cases h
        intro a ha pa hpa hmi hdir
        rcases List.mem_cons.mp ha with rfl | ha'
        · rw [hnp] at hpa
          cases hpa
          rw [hmi, hs] at hacc
          simp only [slotAccepts, decide_eq_true_eq] at hacc
          rcases hacc with h0 | heq
          · exact absurd h0 hd
          · omega
        · by_cases hsame : notated.microtone_index 2 = s
          · have hdir2 : notated.alteration_direction = d := by
              rw [hsame, hs] at hacc
              simp only [slotAccepts, decide_eq_true_eq] at hacc
              rcases hacc with h0 | heq
              · exact absurd h0 hd
              · omega
            have hs' : slotGet (slotSet slots (notated.microtone_index 2)
                notated.alteration_direction) s = some (some d) := by
              rw [hsame, hdir2]
              exact slotGet_set_same slots s d
            exact ih _ row' hrest hs' a ha' pa hpa hmi hdir
          · have hs' : slotGet (slotSet slots (notated.microtone_index 2)
                notated.alteration_direction) s = some (some d) := by
              rw [slotGet_set_other slots s (notated.microtone_index 2)
                notated.alteration_direction (fun hh => hsame hh.symm)]
              exact hs
            exact ih _ row' hrest hs' a ha' pa hpa hmi hdir
      · rw [if_neg hacc] at h
        cases h
        intro a ha
        simp at ha

theorem buildRow_pairwise (items : List (Bool × Str × Str)) (slots : SlotMap)
    (row : List Str) (h : buildRow items slots = .ok row) :
    row.Pairwise enhCompat := by
  induction items generalizing slots row with
  | nil =>
    simp only [buildRow] at h
    cases h
    exact List.Pairwise.nil
  | cons it rest ih =>
    obtain ⟨b, variants⟩ := it
    simp only [buildRow] at h
    rcases hnp : notated_pitch (.str (if b then variants.2 else variants.1)) with e | notated
    · rw [hnp] at h
      cases h
    rw [hnp] at h
    dsimp only at h
    by_cases hmem : notated.microtone_index 2 ∈ non_enharmonic_slots
    · rw [if_pos hmem] at h
      rcases hrest : buildRow rest slots with e | row' <;> rw [hrest] at h <;> cases h
      refine List.Pairwise.cons ?_ (ih slots row' hrest)
      intro b' _ pa pb hpa hpb hne hmi hda hdb
      rw [hnp] at hpa
      cases hpa
      exact absurd hmem hne
    · rw [if_neg hmem] at h
      by_cases hacc : slotAccepts (slotGet slots (notated.microtone_index 2))
          notated.alteration_direction = true
      · rw [if_pos hacc] at h
        rcases hrest : buildRow rest
            (slotSet slots (notated.microtone_index 2) notated.alteration_direction)
            with e | row' <;> rw [hrest] at h <;> cases h
        refine List.Pairwise.cons ?_ (ih _ row' hrest)
        intro b' hb' pa pb hpa hpb hne hmi hda hdb
        rw [hnp] at hpa
        cases hpa
        have hforced := buildRow_forced rest
          (slotSet slots (notated.microtone_index 2) notated.alteration_direction)
          row' (notated.microtone_index 2) notated.alteration_direction hrest
          (slotGet_set_same slots _ _) hda hne b' hb' pb hpb hmi.symm hdb
        exact hforced.symm
      · rw [if_neg hacc] at h
        cases h
        exact List.Pairwise.nil

theorem buildRow_shape (items : List (Bool × Str × Str)) (slots : SlotMap)
    (row : List Str) (h : buildRow items slots = .ok row)
    (hlen : row.length = items.length) :
    row = items.map (fun it => if it.1 then it.2.2 else it.2.1) := by
  induction items generalizing slots row with
  | nil =>
    simp only [buildRow] at h
    cases h
    rfl
  | cons it rest ih =>
    obtain ⟨b, variants⟩ := it
    simp only [buildRow] at h
    rcases hnp : notated_pitch (.str (if b then variants.2 else variants.1)) with e | notated
    · rw [hnp] at h
      cases h
    rw [hnp] at h
    dsimp only at h
    by_cases hmem : notated.microtone_index 2 ∈ non_enharmonic_slots
    · rw [if_pos hmem] at h
      rcases hrest : buildRow rest slots with e | row' <;> rw [hrest] at h <;> cases h
      simp only [List.map_cons, List.cons.injEq]
      exact ⟨trivial, ih slots row' hrest (by simpa using hlen)⟩
    · rw [if_neg hmem] at h
      by_cases hacc : slotAccepts (slotGet slots (notated.microtone_index 2))
          notated.alteration_direction = true
      · rw [if_pos hacc] at h
        rcases hrest : buildRow rest
            (slotSet slots (notated.microtone_index 2) notated.alteration_direction)
            with e | row' <;> rw [hrest] at h <;> cases h
        simp only [List.map_cons, List.cons.injEq]
        exact ⟨trivial, ih _ row' hrest (by simpa using hlen)⟩
      · rw [if_neg hacc] at h
        cases h
        simp at hlen

theorem pyDedup_subset (l : List (List Str)) : ∀ a ∈ pyDedup l, a ∈ l := by
  induction l with
  | nil => intro a ha; simp [pyDedup] at ha
  | cons x rest ih =>
    intro a ha
    simp only [pyDedup] at ha
    by_cases hx : x ∈ pyDedup rest
    · rw [if_pos hx] at ha
      exact List.mem_cons_of_mem x (ih a ha)
    · rw [if_neg hx] at ha
      rcases List.mem_cons.mp ha with rfl | ha'
      · exact List.mem_cons_self a rest
      · exact List.mem_cons_of_mem x (ih a ha')

theorem buildAllRows_mem (rowsb : List (List Bool)) (variants : List (Str × Str))
    (slots : SlotMap) (rows : List (List Str))
    (h : buildAllRows rowsb variants slots = .ok rows) :
    ∀ r ∈ rows, ∃ bs ∈ rowsb, buildRow (bs.zip variants) slots = .ok r := by
  induction rowsb generalizing rows with
  | nil =>
    simp only [buildAllRows] at h
    cases h
    intro r hr
    simp at hr
  | cons bs rest ih =>
    simp only [buildAllRows] at h
    rcases h1 : buildRow (bs.zip variants) slots with e | row <;> rw [h1] at h
    · cases h
    rcases h2 : buildAllRows rest variants slots with e | rs <;> rw [h2] at h <;> cases h
    intro r hr
    rcases List.mem_cons.mp hr with rfl | hr'
    · exact ⟨bs, List.mem_cons_self bs rest, h1⟩
    · obtain ⟨bs', hbs', hb⟩ := ih rs h2 r hr'
      exact ⟨bs', List.mem_cons_of_mem bs hbs', hb⟩

theorem variantsPerNote_spec (notes : List Str) (vs : List (Str × Str))
    (h : variantsPerNote notes = .ok vs) :
    vs.length = notes.length ∧
    ∀ i (hi : i < notes.length) (hv : i < vs.length),
      (vs.get ⟨i, hv⟩).1 = notes.get ⟨i, hi⟩ ∧
      enharmonic (notes.get ⟨i, hi⟩) = .ok (vs.get ⟨i, hv⟩).2 := by
  induction notes generalizing vs with
  | nil =>
    simp only [variantsPerNote] at h
    cases h
    exact ⟨rfl, fun i hi => by simp at hi⟩
  | cons n rest ih =>
    simp only [variantsPerNote] at h
    rcases h1 : enharmonic n with e | en <;> rw [h1] at h
    · cases h
    rcases h2 : variantsPerNote rest with e | vs' <;> rw [h2] at h <;> cases h
    obtain ⟨hlen, hspec⟩ := ih vs' h2
    refine ⟨by simpa using hlen, ?_⟩
    intro i hi hv
    cases i with
    | zero => exact ⟨rfl, h1⟩
    | succ i =>
      exact hspec i (by simpa using hi) (by simpa using hv)

theorem allBoolRows_length (n : ℕ) : ∀ bs ∈ allBoolRows n, bs.length = n := by
  induction n with
  | zero => intro bs hbs; simp [allBoolRows] at hbs; simp [hbs]
  | succ n ih =>
    intro bs hbs
    simp only [allBoolRows, List.mem_append, List.mem_map] at hbs
    rcases hbs with ⟨t, ht, rfl⟩ | ⟨t, ht, rfl⟩ <;> simp [ih t ht]

/-- Claim C6: every tuple returned by `enharmonic_variations(notes,
fixedslots)` has the length and order of `notes`; at each position it
holds the corresponding input note or that note's `enharmonic`; and no
tuple holds two notes on the same non-diatonic slot (microtone index at
two divisions per semitone outside the diatonic set) with conflicting
nonzero alteration directions. -/
theorem enharmonic_variations_sound (notes : List Str) (fixedslots : SlotMap)
    (out : List (List Str))
    (h : enharmonic_variations notes fixedslots = .ok out) :
    ∀ r ∈ out,
      r.length = notes.length ∧
      (∀ i (hi : i < notes.length) (hr : i < r.length),
        r.get ⟨i, hr⟩ = notes.get ⟨i, hi⟩ ∨
        enharmonic (notes.get ⟨i, hi⟩) = .ok (r.get ⟨i, hr⟩)) ∧
      r.Pairwise enhCompat := by
  unfold enharmonic_variations at h
  rcases hv : variantsPerNote notes with e | variants <;> rw [hv] at h
  · cases h
  dsimp only at h
  rcases hb : buildAllRows (allBoolRows notes.length) variants fixedslots
      with e | rows <;> rw [hb] at h
  · cases h
  dsimp only at h
  rw [if_pos (Or.inr (by simp))] at h
  cases h
  intro r hr
  have hrf := pyDedup_subset _ r hr
  rw [List.mem_filter] at hrf
  obtain ⟨hrows, hlenb⟩ := hrf
  have hlen : r.length = notes.length := by simpa using hlenb
  obtain ⟨bs, hbs, hbuild⟩ := buildAllRows_mem _ variants fixedslots rows hb r hrows
  obtain ⟨hvlen, hvspec⟩ := variantsPerNote_spec notes variants hv
  have hbslen : bs.length = notes.length := allBoolRows_length notes.length bs hbs
  have hzlen : (bs.zip variants).length = notes.length := by
    simp [List.length_zip, hbslen, hvlen]
  have hshape := buildRow_shape (bs.zip variants) fixedslots r hbuild (by omega)
  refine ⟨hlen, ?_, buildRow_pairwise _ fixedslots r hbuild⟩
  intro i hi hir
  have hiz : i < (bs.zip variants).length := by omega
  have hib : i < bs.length := by omega
  have hivv : i < variants.length := by omega
  obtain ⟨hv1, hv2⟩ := hvspec i hi hivv
  have hzget : (bs.zip variants).get ⟨i, hiz⟩ = (bs.get ⟨i, hib⟩, variants.get ⟨i, hivv⟩) := by
    simp [List.get_eq_getElem, List.getElem_zip]
  have hq : r.get? i = some (if (bs.get ⟨i, hib⟩) = true then (variants.get ⟨i, hivv⟩).2
      else (variants.get ⟨i, hivv⟩).1) := by
    rw [hshape, List.get?_map, List.get?_eq_get hiz, hzget]
    rfl
  rw [List.get?_eq_get hir] at hq
  have hr' := Option.some.inj hq
  by_cases hbi : (bs.get ⟨i, hib⟩) = true
  · right
    rw [hr', if_pos hbi]
    exact hv2
  · left
    rw [hr', if_neg hbi]
    exact hv1

/-- Witness for claim C6 on a concrete input: the two variations of
`["4C+"]`. -/
theorem enharmonic_variations_sound_witness :
    enharmonic_variations [['4','C','+']] [] =
      .ok [[['4','C','+']], [['4','D','b','-']]] ∧
    ∀ r ∈ [[['4','C','+']], [['4','D','b','-']]],
      r.length = [['4','C','+']].length ∧
      (∀ i (hi : i < [['4','C','+']].length) (hr : i < r.length),
        r.get ⟨i, hr⟩ = [['4','C','+']].get ⟨i, hi⟩ ∨
        enharmonic ([['4','C','+']].get ⟨i, hi⟩) = .ok (r.get ⟨i, hr⟩)) ∧
      r.Pairwise enhCompat :=
  ⟨rfl, enharmonic_variations_sound [['4','C','+']] [] [[['4','C','+']], [['4','D','b','-']]] rfl⟩


/-! ## The midinote invariant of `NotatedPitch` -/

/-- The 19 letter-alteration chromatic spellings whose chromatic index
does not wrap around the octave (all spellings except `B#` and `Cb`). -/
def nameDomain : List (Char × Str) :=
  [('C', []), ('C', ['#']), ('D', []), ('D', ['#']), ('D', ['b']),
   ('E', []), ('E', ['#']), ('E', ['b']), ('F', []), ('F', ['#']),
   ('F', ['b']), ('G', []), ('G', ['#']), ('G', ['b']), ('A', []),
   ('A', ['#']), ('A', ['b']), ('B', []), ('B', ['b'])]

/-- Amended claim C5: for every notename `<digit><letter><alteration><cents>`
over the 19 non-wrapping chromatic spellings (including `E#` and `Fb`)
whose total alteration stays within the accidental table
(|alteration cents + cents| ≤ 162), `notated_pitch` succeeds and the
derived `NotatedPitch` satisfies `midinote = (octave+1)*12 +
chromatic_index + chromatic_alteration`, reproducing exactly the
midinote that `n2m` assigns to the notename.  The invariant fails for
the spellings `B#` and `Cb` (see
`notated_pitch_midinote_fails_at_Bsharp`). -/
theorem notated_pitch_midinote (o : ℕ) (ho : o ≤ 9) (L : Char) (alt : Str) (c : ℤ)
    (hdom : (L, alt) ∈ nameDomain)
    (hlo : -162 ≤ (centsreprTable alt).getD 0 + c)
    (hhi : (centsreprTable alt).getD 0 + c ≤ 162) :
    ∃ p, notated_pitch (.str (mkNote o L alt c)) = .ok p ∧
      (p.octave + 1) * 1200 + p.chromatic_index * 100 + p.chromatic_alteration_cents
        = 1200 * ((o : ℤ) + 1) + 100 * rawPc ([L] ++ alt) + c ∧
      n2m (mkNote o L alt c) = .ok (1200 * ((o : ℤ) + 1) + 100 * rawPc ([L] ++ alt) + c) := by
  fin_cases hdom
  · obtain ⟨acc, hnp⟩ := notated_mkNote o ho 'C' [] c 0 0 0
      (by decide) (by decide) (by decide) (by decide) (by decide)
      (by have e : ((centsreprTable []).getD 0 : ℤ) = 0 := rfl; omega)
      (by have e : ((centsreprTable []).getD 0 : ℤ) = 0 := rfl; omega)
    refine ⟨_, hnp, ?_, n2m_mkNote o ho 'C' [] c (by decide)⟩
    dsimp only [NotatedPitch.midinote]
    rw [show rawPc (['C'] ++ []) = 0 from by decide]
    ring
  · obtain ⟨acc, hnp⟩ := notated_mkNote o ho 'C' ['#'] c 0 1 100
      (by decide) (by decide) (by decide) (by decide) (by decide)
      (by have e : ((centsreprTable ['#']).getD 0 : ℤ) = 100 := rfl; omega)
      (by have e : ((centsreprTable ['#']).getD 0 : ℤ) = 100 := rfl; omega)
    refine ⟨_, hnp, ?_, n2m_mkNote o ho 'C' ['#'] c (by decide)⟩
    dsimp only [NotatedPitch.midinote]
    rw [show rawPc (['C'] ++ ['#']) = 1 from by decide]
    ring
  · obtain ⟨acc, hnp⟩ := notated_mkNote o ho 'D' [] c 1 2 0
      (by decide) (by decide) (by decide) (by decide) (by decide)
      (by have e : ((centsreprTable []).getD 0 : ℤ) = 0 := rfl; omega)
      (by have e : ((centsreprTable []).getD 0 : ℤ) = 0 := rfl; omega)
    refine ⟨_, hnp, ?_, n2m_mkNote o ho 'D' [] c (by decide)⟩
    dsimp only [NotatedPitch.midinote]
    rw [show rawPc (['D'] ++ []) = 2 from by decide]
    ring
  · obtain ⟨acc, hnp⟩ := notated_mkNote o ho 'D' ['#'] c 1 3 100
      (by decide) (by decide) (by decide) (by decide) (by decide)
      (by have e : ((centsreprTable ['#']).getD 0 : ℤ) = 100 := rfl; omega)
      (by have e : ((centsreprTable ['#']).getD 0 : ℤ) = 100 := rfl; omega)
    refine ⟨_, hnp, ?_, n2m_mkNote o ho 'D' ['#'] c (by decide)⟩
    dsimp only [NotatedPitch.midinote]
    rw [show rawPc (['D'] ++ ['#']) = 3 from by decide]
    ring
  · obtain ⟨acc, hnp⟩ := notated_mkNote o ho 'D' ['b'] c 1 1 (-100)
      (by decide) (by decide) (by decide) (by decide) (by decide)
      (by have e : ((centsreprTable ['b']).getD 0 : ℤ) = (-100) := rfl; omega)
      (by have e : ((centsreprTable ['b']).getD 0 : ℤ) = (-100) := rfl; omega)
    refine ⟨_, hnp, ?_, n2m_mkNote o ho 'D' ['b'] c (by decide)⟩
    dsimp only [NotatedPitch.midinote]
    rw [show rawPc (['D'] ++ ['b']) = 1 from by decide]
    ring
  · obtain ⟨acc, hnp⟩ := notated_mkNote o ho 'E' [] c 2 4 0
      (by decide) (by decide) (by decide) (by decide) (by decide)
      (by have e : ((centsreprTable []).getD 0 : ℤ) = 0 := rfl; omega)
      (by have e : ((centsreprTable []).getD 0 : ℤ) = 0 := rfl; omega)
    refine ⟨_, hnp, ?_, n2m_mkNote o ho 'E' [] c (by decide)⟩
    dsimp only [NotatedPitch.midinote]
    rw [show rawPc (['E'] ++ []) = 4 from by decide]
    ring
  · obtain ⟨acc, hnp⟩ := notated_mkNote o ho 'E' ['#'] c 2 5 100
      (by decide) (by decide) (by decide) (by decide) (by decide)
      (by have e : ((centsreprTable ['#']).getD 0 : ℤ) = 100 := rfl; omega)
      (by have e : ((centsreprTable ['#']).getD 0 : ℤ) = 100 := rfl; omega)
    refine ⟨_, hnp, ?_, n2m_mkNote o ho 'E' ['#'] c (by decide)⟩
    dsimp only [NotatedPitch.midinote]
    rw [show rawPc (['E'] ++ ['#']) = 5 from by decide]
    ring
  · obtain ⟨acc, hnp⟩ := notated_mkNote o ho 'E' ['b'] c 2 3 (-100)
      (by decide) (by decide) (by decide) (by decide) (by decide)
      (by have e : ((centsreprTable ['b']).getD 0 : ℤ) = (-100) := rfl; omega)
      (by have e : ((centsreprTable ['b']).getD 0 : ℤ) = (-100) := rfl; omega)
    refine ⟨_, hnp, ?_, n2m_mkNote o ho 'E' ['b'] c (by decide)⟩
    dsimp only [NotatedPitch.midinote]
    rw [show rawPc (['E'] ++ ['b']) = 3 from by decide]
    ring
  · obtain ⟨acc, hnp⟩ := notated_mkNote o ho 'F' [] c 3 5 0
      (by decide) (by decide) (by decide) (by decide) (by decide)
      (by have e : ((centsreprTable []).getD 0 : ℤ) = 0 := rfl; omega)
      (by have e : ((centsreprTable []).getD 0 : ℤ) = 0 := rfl; omega)
    refine ⟨_, hnp, ?_, n2m_mkNote o ho 'F' [] c (by decide)⟩
    dsimp only [NotatedPitch.midinote]
    rw [show rawPc (['F'] ++ []) = 5 from by decide]
    ring
  · obtain ⟨acc, hnp⟩ := notated_mkNote o ho 'F' ['#'] c 3 6 100
      (by decide) (by decide) (by decide) (by decide) (by decide)
      (by have e : ((centsreprTable ['#']).getD 0 : ℤ) = 100 := rfl; omega)
      (by have e : ((centsreprTable ['#']).getD 0 : ℤ) = 100 := rfl; omega)
    refine ⟨_, hnp, ?_, n2m_mkNote o ho 'F' ['#'] c (by decide)⟩
    dsimp only [NotatedPitch.midinote]
    rw [show rawPc (['F'] ++ ['#']) = 6 from by decide]
    ring
  · obtain ⟨acc, hnp⟩ := notated_mkNote o ho 'F' ['b'] c 3 4 (-100)
      (by decide) (by decide) (by decide) (by decide) (by decide)
      (by have e : ((centsreprTable ['b']).getD 0 : ℤ) = (-100) := rfl; omega)
      (by have e : ((centsreprTable ['b']).getD 0 : ℤ) = (-100) := rfl; omega)
    refine ⟨_, hnp, ?_, n2m_mkNote o ho 'F' ['b'] c (by decide)⟩
    dsimp only [NotatedPitch.midinote]
    rw [show rawPc (['F'] ++ ['b']) = 4 from by decide]
    ring
  · obtain ⟨acc, hnp⟩ := notated_mkNote o ho 'G' [] c 4 7 0
      (by decide) (by decide) (by decide) (by decide) (by decide)
      (by have e : ((centsreprTable []).getD 0 : ℤ) = 0 := rfl; omega)
      (by have e : ((centsreprTable []).getD 0 : ℤ) = 0 := rfl; omega)
    refine ⟨_, hnp, ?_, n2m_mkNote o ho 'G' [] c (by decide)⟩
    dsimp only [NotatedPitch.midinote]
    rw [show rawPc (['G'] ++ []) = 7 from by decide]
    ring
  · obtain ⟨acc, hnp⟩ := notated_mkNote o ho 'G' ['#'] c 4 8 100
      (by decide) (by decide) (by decide) (by decide) (by decide)
      (by have e : ((centsreprTable ['#']).getD 0 : ℤ) = 100 := rfl; omega)
      (by have e : ((centsreprTable ['#']).getD 0 : ℤ) = 100 := rfl; omega)
    refine ⟨_, hnp, ?_, n2m_mkNote o ho 'G' ['#'] c (by decide)⟩
    dsimp only [NotatedPitch.midinote]
    rw [show rawPc (['G'] ++ ['#']) = 8 from by decide]
    ring
  · obtain ⟨acc, hnp⟩ := notated_mkNote o ho 'G' ['b'] c 4 6 (-100)
      (by decide) (by decide) (by decide) (by decide) (by decide)
      (by have e : ((centsreprTable ['b']).getD 0 : ℤ) = (-100) := rfl; omega)
      (by have e : ((centsreprTable ['b']).getD 0 : ℤ) = (-100) := rfl; omega)
    refine ⟨_, hnp, ?_, n2m_mkNote o ho 'G' ['b'] c (by decide)⟩
    dsimp only [NotatedPitch.midinote]
    rw [show rawPc (['G'] ++ ['b']) = 6 from by decide]
    ring
  · obtain ⟨acc, hnp⟩ := notated_mkNote o ho 'A' [] c 5 9 0
      (by decide) (by decide) (by decide) (by decide) (by decide)
      (by have e : ((centsreprTable []).getD 0 : ℤ) = 0 := rfl; omega)
      (by have e : ((centsreprTable []).getD 0 : ℤ) = 0 := rfl; omega)
    refine ⟨_, hnp, ?_, n2m_mkNote o ho 'A' [] c (by decide)⟩
    dsimp only [NotatedPitch.midinote]
    rw [show rawPc (['A'] ++ []) = 9 from by decide]
    ring
  · obtain ⟨acc, hnp⟩ := notated_mkNote o ho 'A' ['#'] c 5 10 100
      (by decide) (by decide) (by decide) (by decide) (by decide)
      (by have e : ((centsreprTable ['#']).getD 0 : ℤ) = 100 := rfl; omega)
      (by have e : ((centsreprTable ['#']).getD 0 : ℤ) = 100 := rfl; omega)
    refine ⟨_, hnp, ?_, n2m_mkNote o ho 'A' ['#'] c (by decide)⟩
    dsimp only [NotatedPitch.midinote]
    rw [show rawPc (['A'] ++ ['#']) = 10 from by decide]
    ring
  · obtain ⟨acc, hnp⟩ := notated_mkNote o ho 'A' ['b'] c 5 8 (-100)
      (by decide) (by decide) (by decide) (by decide) (by decide)
      (by have e : ((centsreprTable ['b']).getD 0 : ℤ) = (-100) := rfl; omega)
      (by have e : ((centsreprTable ['b']).getD 0 : ℤ) = (-100) := rfl; omega)
    refine ⟨_, hnp, ?_, n2m_mkNote o ho 'A' ['b'] c (by decide)⟩
    dsimp only [NotatedPitch.midinote]
    rw [show rawPc (['A'] ++ ['b']) = 8 from by decide]
    ring
  · obtain ⟨acc, hnp⟩ := notated_mkNote o ho 'B' [] c 6 11 0
      (by decide) (by decide) (by decide) (by decide) (by decide)
      (by have e : ((centsreprTable []).getD 0 : ℤ) = 0 := rfl; omega)
      (by have e : ((centsreprTable []).getD 0 : ℤ) = 0 := rfl; omega)
    refine ⟨_, hnp, ?_, n2m_mkNote o ho 'B' [] c (by decide)⟩
    dsimp only [NotatedPitch.midinote]
    rw [show rawPc (['B'] ++ []) = 11 from by decide]
    ring
  · obtain ⟨acc, hnp⟩ := notated_mkNote o ho 'B' ['b'] c 6 10 (-100)
      (by decide) (by decide) (by decide) (by decide) (by decide)
      (by have e : ((centsreprTable ['b']).getD 0 : ℤ) = (-100) := rfl; omega)
      (by have e : ((centsreprTable ['b']).getD 0 : ℤ) = (-100) := rfl; omega)
    refine ⟨_, hnp, ?_, n2m_mkNote o ho 'B' ['b'] c (by decide)⟩
    dsimp only [NotatedPitch.midinote]
    rw [show rawPc (['B'] ++ ['b']) = 10 from by decide]
    ring

/-- Witness for the amended claim C5 at `4E#+10`: midinote 65.10 both
through the `NotatedPitch` identity and through `n2m`. -/
theorem notated_pitch_midinote_witness :
    ∃ p, notated_pitch (.str (mkNote 4 'E' ['#'] 10)) = .ok p ∧
      (p.octave + 1) * 1200 + p.chromatic_index * 100 + p.chromatic_alteration_cents
        = 1200 * (((4 : ℕ) : ℤ) + 1) + 100 * rawPc (['E'] ++ ['#']) + 10 ∧
      n2m (mkNote 4 'E' ['#'] 10) =
        .ok (1200 * (((4 : ℕ) : ℤ) + 1) + 100 * rawPc (['E'] ++ ['#']) + 10) :=
  notated_pitch_midinote 4 (by decide) 'E' ['#'] 10 (by decide) (by decide) (by decide)

/-- Counterexample to claim C5 as stated: for the spelling `B#` the
midinote identity does not reproduce the parsed midinote.
`notated_pitch("4B#")` has chromatic index 0 (the `_pitchclass_chromatic`
table wraps `B#` to 0 without adjusting the octave), so the identity
yields midinote 60.00 while `n2m("4B#")` is 72.00. -/
theorem notated_pitch_midinote_fails_at_Bsharp :
    notated_pitch (.str ['4','B','#']) =
      .ok ⟨4, 6, 'B', 0, ['B','#'], 100, 0, ['s','h','a','r','p']⟩ ∧
    (((4 : ℤ) + 1) * 1200 + 0 * 100 + 0 = (6000 : ℤ)) ∧
    n2m ['4','B','#'] = .ok 7200 :=
  ⟨rfl, by norm_num, rfl⟩

/-! ## Remaining claim-level facts -/

/-- The binary64 truncation in `cents_deviation` moves some cents values
by one cent: `enharmonic("4E+57")` returns `"4F-44"`, which parses to
64.56, while the input parses to 64.57 — inside the engine's bands the
sounding pitch is not preserved at the truncated cents values. -/
theorem enharmonic_truncates_cents :
    pyT 57 = 56 ∧
    enharmonic ['4','E','+','5','7'] = .ok ['4','F','-','4','4'] ∧
    n2m ['4','E','+','5','7'] = .ok 6457 ∧ n2m ['4','F','-','4','4'] = .ok 6456 :=
  ⟨by decide, rfl, rfl, rfl⟩

/-- Witness for the amended claim C1 at `4Db`: the enharmonic `4C#`
parses to the same midinote. -/
theorem enharmonic_preserves_n2m_witness :
    ∃ t, enharmonic (mkNote 4 'D' ['b'] 0) = .ok t ∧
      n2m t = n2m (mkNote 4 'D' ['b'] 0) :=
  enharmonic_preserves_n2m 4 'D' ['b'] 0 (by decide) (by decide)
    (by unfold enhCentsOk; norm_num) (by decide)

/-- Counterexample to claim C1 as stated: `enharmonic("4B#")` returns
`"4C"`, which is an octave below the input: `n2m("4B#") = 72.00` but
`n2m("4C") = 60.00`, so the sounding pitch is not preserved on the
accepted input `4B#`. -/
theorem enharmonic_changes_pitch_at_Bsharp :
    enharmonic ['4','B','#'] = .ok ['4','C'] ∧
    n2m ['4','B','#'] = .ok 7200 ∧ n2m ['4','C'] = .ok 6000 :=
  ⟨rfl, rfl, rfl⟩

/-- Witness for the amended claim C3 at the eighth-tone midinote 60.25. -/
theorem n2m_m2n_roundtrip_witness : n2m (m2n 6025) = .ok 6025 :=
  n2m_m2n_roundtrip 6025 (by norm_num) (by norm_num)

/-- Counterexample to claim C3 as stated: for the negative on-grid
midinote -1.00 the formatter emits `"-1B"`, but the parser reads the
octave as -1, giving `n2m(m2n(-1.0)) = 11.00 ≠ -1.00`. -/
theorem n2m_m2n_roundtrip_fails_negative :
    m2n (-100) = ['-','1','B'] ∧ n2m ['-','1','B'] = .ok 1100 :=
  ⟨rfl, rfl⟩

/-- Claim C4 is false in the code: `notated_pitch` on a numeric midinote
calls the undefined name `_roundred` (the module-level helper is spelled
`_roundres`), so every numeric invocation raises `NameError` before any
grid snapping can happen, for every divisions argument. -/
theorem notated_pitch_numeric_raises (m d : ℤ) :
    notated_pitch (.num m) d = .error .nameError := rfl

/-- Amended claim C7: letter-first double alterations are rejected, but
octave-first inputs silently drop the second alteration character
(`"4L##"` parses like `"4L#"`), and `"Lbb4"` is accepted because
`re.search` restarts at the second character and reads `"bb4"` as
B-flat 4; malformed `"4Z"` is rejected.  Only one alteration character
is ever consumed, but double-alteration inputs are not all errors. -/
theorem double_alteration_partial (L : Char)
    (hL : L ∈ ['A','B','C','D','E','F','G']) :
    n2m [L, '#', '#', '4'] = .error .valueError ∧
    n2m ['4', L, '#', '#'] = n2m ['4', L, '#'] ∧
    n2m [L, 'b', 'b', '4'] = .ok 7000 ∧
    n2m ['4', L, 'b', 'b'] = n2m ['4', L, 'b'] ∧
    n2m ['4', 'Z'] = .error .valueError := by
  fin_cases hL <;> exact ⟨rfl, rfl, rfl, rfl, rfl⟩

/-- Witness for the amended claim C7 at the letter `C`. -/
theorem double_alteration_partial_witness :
    n2m ['C', '#', '#', '4'] = .error .valueError ∧
    n2m ['4', 'C', '#', '#'] = n2m ['4', 'C', '#'] ∧
    n2m ['C', 'b', 'b', '4'] = .ok 7000 ∧
    n2m ['4', 'C', 'b', 'b'] = n2m ['4', 'C', 'b'] ∧
    n2m ['4', 'Z'] = .error .valueError :=
  double_alteration_partial 'C' (by decide)

/-- Counterexample to claim C7 as stated: the octave-first double sharp
`"4C##"` does not fail — it parses to 61.00, the value of `"4C#"`, with
the second `#` ignored. -/
theorem double_alteration_accepted :
    n2m ['4','C','#','#'] = .ok 6100 ∧ n2m ['4','C','#'] = .ok 6100 :=
  ⟨rfl, rfl⟩

/-- Claim C8: the concrete grammar values of the spec. -/
theorem grammar_table_values :
    n2m ['4','C'] = .ok 6000 ∧ n2m ['4','D','-','2','0'] = .ok 6180 ∧
    n2m ['4','E','b','+'] = .ok 6350 ∧ n2m ['4','E','<'] = .ok 6375 ∧
    m2n 6120 = ['4','C','#','+','2','0'] :=
  ⟨rfl, rfl, rfl, rfl, rfl⟩

/-- Amended claim C9: whenever the parser fails with a `ValueError` —
grammar mismatch or unknown alteration character — `is_valid_notename`
converts the failure into `False`.  A non-textual input is not
converted: `n2m` raises `TypeError`, which propagates (see
`is_valid_notename_propagates_typeerror`). -/
theorem is_valid_notename_false_on_parse_error (x : PyVal)
    (h : n2mVal x = .error .valueError) :
    is_valid_notename x 1200 = .ok false := by
  unfold is_valid_notename
  rw [h]

/-- Witness for the amended claim C9 at the malformed notename `4Z`. -/
theorem is_valid_notename_false_witness :
    is_valid_notename (.str ['4','Z']) 1200 = .ok false :=
  is_valid_notename_false_on_parse_error (.str ['4','Z']) rfl

/-- Counterexample to claim C9 as stated: a non-textual input is a parse
failure the spec says becomes `False`, but `is_valid_notename(60.0)`
propagates the `TypeError` instead of returning a boolean. -/
theorem is_valid_notename_propagates_typeerror :
    is_valid_notename (.num 6000) 1200 = .error .typeError := rfl

/-- Amended claim C10: `split_notename` reads exactly one octave
character.  An octave-first multi-digit octave raises `ValueError`
(`"10C#"`), a letter-first multi-digit octave is misread — `"C12"`
splits into octave 1 with cents 2, and its reconstruction `1C+2`
parses to 24.02 while `n2m("C12")` is 156.00 — and a negative octave
(`"C#-1"`) is never read: the default octave -1 is kept and `-1` is
parsed as a cents suffix, disagreeing with `n2m("C#-1") = 1.00`. -/
theorem split_octave_single_char :
    split_notename ['C','1','2'] (-1) = .ok ⟨1, 'C', [], 2⟩ ∧
    n2m ['C','1','2'] = .ok 15600 ∧
    mkNote 1 'C' [] 2 = ['1','C','+','2'] ∧
    n2m (mkNote 1 'C' [] 2) = .ok 2402 ∧
    split_notename ['C','#','-','1'] (-1) = .ok ⟨-1, 'C', ['#'], -1⟩ ∧
    n2m ['C','#','-','1'] = .ok 100 ∧
    split_notename ['C','#','1','0','+','2','0'] (-1) = .error .valueError :=
  ⟨rfl, rfl, rfl, rfl, rfl, rfl, rfl⟩

/-- Counterexample to claim C10 as stated: not every multi-digit-octave
notename yields parts — the octave-first `"10C#"` raises `ValueError`
from `split_notename` even though `n2m` parses it (to 133.00). -/
theorem split_octave_multidigit_raises :
    split_notename ['1','0','C','#'] (-1) = .error .valueError ∧
    n2m ['1','0','C','#'] = .ok 13300 :=
  ⟨rfl, rfl⟩


end Pitchtools
